import Mathlib

/-!
Verification development for the chess rules engine and search AI
(board.cpp / board.h, evaluation.h/cpp, engine.cpp, human.cpp).

The C++ core is shallowly embedded: `board_state` mirrors the C struct
(8x8 grid of signed piece codes, per-file en-passant flags, per-side
castling flags), and each C++ function becomes a pure Lean function of
the same name operating on explicit state.  C++ `int` values are
modelled as `Int`; the sentinels `INT_MIN`/`INT_MAX` are the concrete
32-bit bounds used by the search.  An out-of-bounds array read (which
is undefined behaviour in the C++) is modelled by `bget`/`fget`
returning a default; positions that trigger such reads are flagged by
a dedicated bounds-checker (see C8).
-/

set_option maxHeartbeats 1000000

inductive Side
  | WHITE
  | BLACK
deriving DecidableEq

open Side

/-- Piece constants from board.h (positive = white, negative = black). -/
def EMPTY : Int := 0

def WHITE_PAWN : Int := 1

def WHITE_KNIGHT : Int := 2

def WHITE_BISHOP : Int := 3

def WHITE_ROOK : Int := 4

def WHITE_QUEEN : Int := 5

def WHITE_KING : Int := 6

def BLACK_PAWN : Int := -1

def BLACK_KNIGHT : Int := -2

def BLACK_BISHOP : Int := -3

def BLACK_ROOK : Int := -4

def BLACK_QUEEN : Int := -5

def BLACK_KING : Int := -6

/-- Movement pattern tables from board.h. -/
def knight_move : List (Int × Int) :=
  [(-1, -2), (-1, 2), (1, -2), (1, 2), (-2, -1), (-2, 1), (2, -1), (2, 1)]

def bishop_direction : List (Int × Int) := [(1, 1), (-1, 1), (1, -1), (-1, -1)]

def rook_direction : List (Int × Int) := [(1, 0), (-1, 0), (0, 1), (0, -1)]

def every_direction : List (Int × Int) :=
  [(1, 1), (-1, 1), (1, -1), (-1, -1), (0, 1), (1, 0), (-1, 0), (0, -1)]

/-- The 8x8 board is a list of 8 rows of 8 signed piece codes
(row 0 = black's back rank, row 7 = white's back rank, as in the C++). -/
abbrev Grid := List (List Int)

/-- `board_state` from board.h: grid plus en-passant trackers and
castling rights ([0] = queenside for black flags as used by the code,
[0]/[1] exactly as the C++ indexes them). -/
structure board_state where
  board : Grid
  pawn_two_squares_black : List Bool
  pawn_two_squares_white : List Bool
  can_castle_white : List Bool
  can_castle_black : List Bool
deriving DecidableEq

/-- Read a grid cell; an out-of-range index (undefined behaviour in the
C++) yields 0 here.  See the C8 bounds-checker for where the C++
actually reads out of range. -/
def bget (b : Grid) (i j : Int) : Int :=
  if 0 ≤ i ∧ i < 8 ∧ 0 ≤ j ∧ j < 8 then (b.getD i.toNat []).getD j.toNat 0 else 0

/-- Write a grid cell (no-op when out of range). -/
def bset (b : Grid) (i j : Int) (v : Int) : Grid :=
  if 0 ≤ i ∧ i < 8 ∧ 0 ≤ j ∧ j < 8 then
    b.set i.toNat ((b.getD i.toNat []).set j.toNat v)
  else b

/-- Read a flag array entry (arrays have 8 entries in the C++). -/
def fget (f : List Bool) (i : Int) : Bool :=
  if 0 ≤ i ∧ i < 8 then f.getD i.toNat false else false

/-- Write a flag array entry. -/
def fset (f : List Bool) (i : Int) (v : Bool) : List Bool :=
  if 0 ≤ i ∧ i < 8 then f.set i.toNat v else f

/-- The `for (n) pos.flags[n] = false` loops: clear a whole flag array. -/
def allFalse (f : List Bool) : List Bool := f.map (fun _ => false)

/-- Board::reset_en_passant: clear en-passant flags of side `s`. -/
def reset_en_passant (pos : board_state) (s : Side) : board_state :=
  match s with
  | WHITE => { pos with pawn_two_squares_white := allFalse pos.pawn_two_squares_white }
  | BLACK => { pos with pawn_two_squares_black := allFalse pos.pawn_two_squares_black }

/-- Board::move_piece: copy piece to destination, clear the source. -/
def move_piece (b : Grid) (si sj di dj : Int) : Grid :=
  bset (bset b di dj (bget b si sj)) si sj 0

/-- Loop index list for the `for (int m = 0; m < 8; m++)` loops. -/
def coordList : List Int := [0, 1, 2, 3, 4, 5, 6, 7]

/-- Board::square_occupied_by_opponent. -/
def square_occupied_by_opponent (b : Grid) (i j : Int) (s : Side) : Bool :=
  match s with
  | WHITE => decide (bget b i j < 0)
  | BLACK => decide (bget b i j > 0)

/-- Board::under_pawn_control: the pawn at (si,sj) controls (ti,tj). -/
def under_pawn_control (b : Grid) (si sj ti tj : Int) : Bool :=
  let dir : Int := if bget b si sj < 0 then -1 else 1
  (decide (ti + dir = si) && decide (sj = tj + 1)) ||
  (decide (ti + dir = si) && decide (sj = tj - 1))

/-- Board::under_knight_control. -/
def under_knight_control (si sj ti tj : Int) : Bool :=
  knight_move.any (fun d => decide (ti = si + d.1) && decide (tj = sj + d.2))

/-- Board::under_king_control. -/
def under_king_control (si sj ti tj : Int) : Bool :=
  every_direction.any (fun d => decide (ti = si + d.1) && decide (tj = sj + d.2))

/-- One sliding-piece ray walk of the under_*_control loops: does the
ray starting at (pi,pj) and stepping by (di,dj) reach (ti,tj) before
leaving the board or being blocked by an occupied square? -/
def ray_hits (b : Grid) (di dj ti tj : Int) : Nat → Int → Int → Bool
  | 0, _, _ => false
  | fuel + 1, pi, pj =>
    if 0 ≤ pi ∧ pi < 8 ∧ 0 ≤ pj ∧ pj < 8 then
      if decide (pi = ti) && decide (pj = tj) then true
      else if bget b pi pj ≠ 0 then false
      else ray_hits b di dj ti tj fuel (pi + di) (pj + dj)
    else false

/-- Board::under_bishop_control. -/
def under_bishop_control (b : Grid) (si sj ti tj : Int) : Bool :=
  bishop_direction.any (fun d => ray_hits b d.1 d.2 ti tj 8 (si + d.1) (sj + d.2))

/-- Board::under_rook_control. -/
def under_rook_control (b : Grid) (si sj ti tj : Int) : Bool :=
  rook_direction.any (fun d => ray_hits b d.1 d.2 ti tj 8 (si + d.1) (sj + d.2))

/-- Board::under_queen_control. -/
def under_queen_control (b : Grid) (si sj ti tj : Int) : Bool :=
  every_direction.any (fun d => ray_hits b d.1 d.2 ti tj 8 (si + d.1) (sj + d.2))

/-- Board::under_control: square (i,j) is controlled by some piece of side s. -/
def under_control (b : Grid) (i j : Int) (s : Side) : Bool :=
  let sgn : Int := match s with | WHITE => 1 | BLACK => -1
  coordList.any (fun m => coordList.any (fun n =>
    (decide (bget b m n = sgn * 1) && under_pawn_control b m n i j) ||
    (decide (bget b m n = sgn * 2) && under_knight_control m n i j) ||
    (decide (bget b m n = sgn * 3) && under_bishop_control b m n i j) ||
    (decide (bget b m n = sgn * 4) && under_rook_control b m n i j) ||
    (decide (bget b m n = sgn * 5) && under_queen_control b m n i j) ||
    (decide (bget b m n = sgn * 6) && under_king_control m n i j)))

/-- Board::king_is_in_check: scan for side s's king(s) and test attack. -/
def king_is_in_check (b : Grid) (s : Side) : Bool :=
  let king : Int := match s with | WHITE => 6 | BLACK => -6
  let opp : Side := match s with | WHITE => BLACK | BLACK => WHITE
  coordList.any (fun m => coordList.any (fun n =>
    decide (bget b m n = king) && under_control b m n opp))

/-! ## Game-terminal detectors (Board::is_checkmate, Board::is_stalemate) -/

/-- Sliding-piece escape tries of Board::is_checkmate, one ray: collect
the boards obtained by moving `piece` from (m,n) to each ray square that
is empty or opponent-occupied, stopping after the first occupied square
(exactly the `while` loop of the C++). -/
def cm_ray_cands (p : Grid) (piece : Int) (s : Side) (m n di dj : Int) :
    Nat → Int → Int → List Grid
  | 0, _, _ => []
  | fuel + 1, ri, rj =>
    if 0 ≤ ri ∧ ri < 8 ∧ 0 ≤ rj ∧ rj < 8 then
      let here : List Grid :=
        if square_occupied_by_opponent p ri rj s || decide (bget p ri rj = 0) then
          [bset (bset p m n 0) ri rj piece]
        else []
      if bget p ri rj ≠ 0 then here
      else here ++ cm_ray_cands p piece s m n di dj fuel (ri + di) (rj + dj)
    else []

/-- All escape tries that Board::is_checkmate enumerates for the piece
sitting on square (m,n), in the order of the C++ (king, pawn, knight,
rook, bishop, queen; castling is never enumerated).  Each entry is the
board after the tried move. -/
def checkmateSquareCands (p : board_state) (s : Side) (m n : Int) : List Grid :=
  let dir : Int := match s with | WHITE => -1 | BLACK => 1
  let startingRank : Int := match s with | WHITE => 6 | BLACK => 1
  let enPassantRank : Int := match s with | WHITE => 3 | BLACK => 4
  let ep : List Bool :=
    match s with | WHITE => p.pawn_two_squares_black | BLACK => p.pawn_two_squares_white
  let sgn : Int := match s with | WHITE => 1 | BLACK => -1
  let b := p.board
  let kingCands : List Grid :=
    if bget b m n = sgn * 6 then
      every_direction.filterMap (fun d =>
        let ki := m + d.1
        let kj := n + d.2
        if 0 ≤ ki ∧ ki < 8 ∧ 0 ≤ kj ∧ kj < 8 then
          if square_occupied_by_opponent b ki kj s || decide (bget b ki kj = 0) then
            some (bset (bset b m n 0) ki kj (sgn * 6))
          else none
        else none)
    else []
  let pawnCands : List Grid :=
    if bget b m n = sgn * 1 then
      (if bget b (m + dir) n = 0 then
        [bset (bset b m n 0) (m + dir) n (sgn * 1)] else []) ++
      (if startingRank = m ∧ bget b (m + dir) n = 0 ∧ bget b (m + 2 * dir) n = 0 then
        [bset (bset b m n 0) (m + 2 * dir) n (sgn * 1)] else []) ++
      (if n ≠ 0 ∧ square_occupied_by_opponent b (m + dir) (n - 1) s = true then
        [bset (bset b m n 0) (m + dir) (n - 1) (sgn * 1)] else []) ++
      (if n ≠ 7 ∧ square_occupied_by_opponent b (m + dir) (n + 1) s = true then
        [bset (bset b m n 0) (m + dir) (n + 1) (sgn * 1)] else []) ++
      (if n ≠ 0 ∧ m = enPassantRank ∧ fget ep (n - 1) = true then
        [bset (bset (bset b m n 0) m (n - 1) 0) (m + dir) (n - 1) (sgn * 1)] else []) ++
      (if n ≠ 7 ∧ m = enPassantRank ∧ fget ep (n + 1) = true then
        [bset (bset (bset b m n 0) m (n + 1) 0) (m + dir) (n + 1) (sgn * 1)] else [])
    else []
  let knightCands : List Grid :=
    if bget b m n = sgn * 2 then
      knight_move.filterMap (fun d =>
        let ki := m + d.1
        let kj := n + d.2
        if 0 ≤ ki ∧ ki < 8 ∧ 0 ≤ kj ∧ kj < 8 then
          if square_occupied_by_opponent b ki kj s || decide (bget b ki kj = 0) then
            some (bset (bset b m n 0) ki kj (sgn * 2))
          else none
        else none)
    else []
  let rookCands : List Grid :=
    if bget b m n = sgn * 4 then
      rook_direction.flatMap (fun d =>
        cm_ray_cands b (sgn * 4) s m n d.1 d.2 8 (m + d.1) (n + d.2))
    else []
  let bishopCands : List Grid :=
    if bget b m n = sgn * 3 then
      bishop_direction.flatMap (fun d =>
        cm_ray_cands b (sgn * 3) s m n d.1 d.2 8 (m + d.1) (n + d.2))
    else []
  let queenCands : List Grid :=
    if bget b m n = sgn * 5 then
      every_direction.flatMap (fun d =>
        cm_ray_cands b (sgn * 5) s m n d.1 d.2 8 (m + d.1) (n + d.2))
    else []
  kingCands ++ pawnCands ++ knightCands ++ rookCands ++ bishopCands ++ queenCands

/-- Every escape try Board::is_checkmate enumerates, row-major order. -/
def checkmateCandidates (p : board_state) (s : Side) : List Grid :=
  coordList.flatMap (fun m => coordList.flatMap (fun n => checkmateSquareCands p s m n))

/-- Board::is_checkmate: returns false on the first enumerated try that
leaves side s's king out of check, true when no try escapes.  Note the
C++ never tests whether s is in check at all. -/
def is_checkmate (p : board_state) (s : Side) : Bool :=
  (checkmateCandidates p s).all (fun b => king_is_in_check b s)

/-- One sliding-piece ray of Board::is_stalemate: is there any square
along the ray that is empty or opponent-occupied (stopping at the first
occupied square)? -/
def sm_ray_free (p : Grid) (s : Side) (di dj : Int) : Nat → Int → Int → Bool
  | 0, _, _ => false
  | fuel + 1, ri, rj =>
    if 0 ≤ ri ∧ ri < 8 ∧ 0 ≤ rj ∧ rj < 8 then
      if square_occupied_by_opponent p ri rj s || decide (bget p ri rj = 0) then true
      else if bget p ri rj ≠ 0 then false
      else sm_ray_free p s di dj fuel (ri + di) (rj + dj)
    else false

/-- The move-existence scan of Board::is_stalemate for square (m,n).
Only king moves are tested against opponent control of the target; all
other pieces' moves are counted without any self-check test. -/
def stalemateSquareHasMove (p : board_state) (s : Side) (m n : Int) : Bool :=
  let dir : Int := match s with | WHITE => -1 | BLACK => 1
  let enPassantRank : Int := match s with | WHITE => 3 | BLACK => 4
  let ep : List Bool :=
    match s with | WHITE => p.pawn_two_squares_black | BLACK => p.pawn_two_squares_white
  let opponent : Side := match s with | WHITE => BLACK | BLACK => WHITE
  let sgn : Int := match s with | WHITE => 1 | BLACK => -1
  let b := p.board
  (decide (bget b m n = sgn * 6) &&
    every_direction.any (fun d =>
      let ki := m + d.1
      let kj := n + d.2
      decide (0 ≤ ki ∧ ki < 8 ∧ 0 ≤ kj ∧ kj < 8) &&
      (square_occupied_by_opponent b ki kj s || decide (bget b ki kj = 0)) &&
      !under_control b ki kj opponent)) ||
  (decide (bget b m n = sgn * 1) &&
    (decide (bget b (m + dir) n = 0) ||
     (decide (n ≠ 0) && square_occupied_by_opponent b (m + dir) (n - 1) s) ||
     (decide (n ≠ 7) && square_occupied_by_opponent b (m + dir) (n + 1) s) ||
     (decide (n ≠ 0) && decide (m = enPassantRank) && fget ep (n - 1)) ||
     (decide (n ≠ 7) && decide (m = enPassantRank) && fget ep (n + 1)))) ||
  (decide (bget b m n = sgn * 2) &&
    knight_move.any (fun d =>
      let ki := m + d.1
      let kj := n + d.2
      decide (0 ≤ ki ∧ ki < 8 ∧ 0 ≤ kj ∧ kj < 8) &&
      (square_occupied_by_opponent b ki kj s || decide (bget b ki kj = 0)))) ||
  (decide (bget b m n = sgn * 4) &&
    rook_direction.any (fun d => sm_ray_free b s d.1 d.2 8 (m + d.1) (n + d.2))) ||
  (decide (bget b m n = sgn * 3) &&
    bishop_direction.any (fun d => sm_ray_free b s d.1 d.2 8 (m + d.1) (n + d.2))) ||
  (decide (bget b m n = sgn * 5) &&
    every_direction.any (fun d => sm_ray_free b s d.1 d.2 8 (m + d.1) (n + d.2)))

/-- The whole pseudo-move scan of Board::is_stalemate. -/
def stalemateHasMove (p : board_state) (s : Side) : Bool :=
  coordList.any (fun m => coordList.any (fun n => stalemateSquareHasMove p s m n))

/-- Board::is_stalemate: false when s is in check, else true exactly
when the pseudo-move scan finds nothing. -/
def is_stalemate (p : board_state) (s : Side) : Bool :=
  if king_is_in_check p.board s then false else !stalemateHasMove p s

/-! ## Static evaluator (Evaluation::evaluate and its piece-square tables) -/

def PAWN_TABLE_WHITE : Grid :=
  [[0, 0, 0, 0, 0, 0, 0, 0],
   [50, 50, 50, 50, 50, 50, 50, 50],
   [10, 10, 20, 30, 30, 20, 10, 10],
   [5, 5, 10, 25, 25, 10, 5, 5],
   [0, 0, 0, 20, 20, 0, 0, 0],
   [5, -5, -10, 0, 0, -10, -5, 5],
   [5, 10, 10, -20, -20, 10, 10, 5],
   [0, 0, 0, 0, 0, 0, 0, 0]]

def KNIGHT_TABLE_WHITE : Grid :=
  [[-50, -40, -30, -30, -30, -30, -40, -50],
   [-40, -20, 0, 0, 0, 0, -20, -40],
   [-30, 0, 10, 15, 15, 10, 0, -30],
   [-30, 5, 15, 20, 20, 15, 5, -30],
   [-30, 0, 15, 20, 20, 15, 0, -30],
   [-30, 5, 10, 15, 15, 10, 5, -30],
   [-40, -20, 0, 5, 5, 0, -20, -40],
   [-50, -40, -30, -30, -30, -30, -40, -50]]

def BISHOP_TABLE_WHITE : Grid :=
  [[-20, -10, -10, -10, -10, -10, -10, -20],
   [-10, 0, 0, 0, 0, 0, 0, -10],
   [-10, 0, 5, 10, 10, 5, 0, -10],
   [-10, 5, 5, 10, 10, 5, 5, -10],
   [-10, 0, 10, 10, 10, 10, 0, -10],
   [-10, 10, 10, 10, 10, 10, 10, -10],
   [-10, 5, 0, 0, 0, 0, 5, -10],
   [-20, -10, -10, -10, -10, -10, -10, -20]]

def ROOK_TABLE_WHITE : Grid :=
  [[0, 0, 0, 0, 0, 0, 0, 0],
   [5, 10, 10, 10, 10, 10, 10, 5],
   [-5, 0, 0, 0, 0, 0, 0, -5],
   [-5, 0, 0, 0, 0, 0, 0, -5],
   [-5, 0, 0, 0, 0, 0, 0, -5],
   [-5, 0, 0, 0, 0, 0, 0, -5],
   [-5, 0, 0, 0, 0, 0, 0, -5],
   [0, 0, 0, 5, 5, 3, 0, 0]]

def QUEEN_TABLE_WHITE : Grid :=
  [[-20, -10, -10, -5, -5, -10, -10, -20],
   [-10, 0, 0, 0, 0, 0, 0, -10],
   [-10, 0, 5, 5, 5, 5, 0, -10],
   [-5, 0, 5, 5, 5, 5, 0, -5],
   [0, 0, 5, 5, 5, 5, 0, -5],
   [-10, 5, 5, 5, 5, 5, 0, -10],
   [-10, 0, 5, 0, 0, 0, 0, -10],
   [-20, -10, -10, -5, -5, -10, -10, -20]]

def KING_MIDDLE_TABLE_WHITE : Grid :=
  [[-30, -40, -40, -50, -50, -40, -40, -30],
   [-30, -40, -40, -50, -50, -40, -40, -30],
   [-30, -40, -40, -50, -50, -40, -40, -30],
   [-30, -40, -40, -50, -50, -40, -40, -30],
   [-20, -30, -30, -40, -40, -30, -30, -20],
   [-10, -20, -20, -20, -20, -20, -20, -10],
   [20, 20, 0, 0, 0, 0, 20, 20],
   [20, 30, 10, 0, 0, 10, 30, 20]]

def KING_END_TABLE_WHITE : Grid :=
  [[-50, -40, -30, -20, -20, -30, -40, -50],
   [-30, -20, -10, 0, 0, -10, -20, -30],
   [-30, -10, 20, 30, 30, 20, -10, -30],
   [-30, -10, 30, 40, 40, 30, -10, -30],
   [-30, -10, 30, 40, 40, 30, -10, -30],
   [-30, -10, 20, 30, 30, 20, -10, -30],
   [-30, -30, 0, 0, 0, 0, -30, -30],
   [-50, -30, -30, -30, -30, -30, -30, -50]]

def PAWN_TABLE_BLACK : Grid :=
  [[0, 0, 0, 0, 0, 0, 0, 0],
   [5, 10, 10, -20, -20, 10, 10, 5],
   [5, -5, -10, 0, 0, -10, -5, 5],
   [0, 0, 0, 20, 20, 0, 0, 0],
   [5, 5, 10, 25, 25, 10, 5, 5],
   [10, 10, 20, 30, 30, 20, 10, 10],
   [50, 50, 50, 50, 50, 50, 50, 50],
   [0, 0, 0, 0, 0, 0, 0, 0]]

def KNIGHT_TABLE_BLACK : Grid :=
  [[-50, -40, -30, -30, -30, -30, -40, -50],
   [-40, -20, 0, 5, 5, 0, -20, -40],
   [-30, 5, 10, 15, 15, 10, 5, -30],
   [-30, 0, 15, 20, 20, 15, 0, -30],
   [-30, 5, 15, 20, 20, 15, 5, -30],
   [-30, 0, 10, 15, 15, 10, 0, -30],
   [-40, -20, 0, 0, 0, 0, -20, -40],
   [-50, -40, -30, -30, -30, -30, -40, -50]]

def BISHOP_TABLE_BLACK : Grid :=
  [[-20, -10, -10, -10, -10, -10, -10, -20],
   [-10, 5, 0, 0, 0, 0, 5, -10],
   [-10, 10, 10, 10, 10, 10, 10, -10],
   [-10, 0, 10, 10, 10, 10, 0, -10],
   [-10, 5, 5, 10, 10, 5, 5, -10],
   [-10, 0, 5, 10, 10, 5, 0, -10],
   [-10, 0, 0, 0, 0, 0, 0, -10],
   [-20, -10, -10, -10, -10, -10, -10, -20]]

def ROOK_TABLE_BLACK : Grid :=
  [[0, 0, 0, 5, 5, 3, 0, 0],
   [-5, 0, 0, 0, 0, 0, 0, -5],
   [-5, 0, 0, 0, 0, 0, 0, -5],
   [-5, 0, 0, 0, 0, 0, 0, -5],
   [-5, 0, 0, 0, 0, 0, 0, -5],
   [-5, 0, 0, 0, 0, 0, 0, -5],
   [5, 10, 10, 10, 10, 10, 10, 5],
   [0, 0, 0, 0, 0, 0, 0, 0]]

def QUEEN_TABLE_BLACK : Grid :=
  [[-20, -10, -10, -5, -5, -10, -10, -20],
   [-10, 0, 5, 0, 0, 0, 0, -10],
   [-10, 5, 5, 5, 5, 5, 0, -10],
   [0, 0, 5, 5, 5, 5, 0, -5],
   [-5, 0, 5, 5, 5, 5, 0, -5],
   [-10, 0, 5, 5, 5, 5, 0, -10],
   [-10, 0, 0, 0, 0, 0, 0, -10],
   [-20, -10, -10, -5, -5, -10, -10, -20]]

def KING_MIDDLE_TABLE_BLACK : Grid :=
  [[20, 30, 10, 0, 0, 10, 30, 20],
   [20, 20, 0, 0, 0, 0, 20, 20],
   [-10, -20, -20, -20, -20, -20, -20, -10],
   [-20, -30, -30, -40, -40, -30, -30, -20],
   [-30, -40, -40, -50, -50, -40, -40, -30],
   [-30, -40, -40, -50, -50, -40, -40, -30],
   [-30, -40, -40, -50, -50, -40, -40, -30],
   [-30, -40, -40, -50, -50, -40, -40, -30]]

def KING_END_TABLE_BLACK : Grid :=
  [[-50, -30, -30, -30, -30, -30, -30, -50],
   [-30, -30, 0, 0, 0, 0, -30, -30],
   [-30, -10, 20, 30, 30, 20, -10, -30],
   [-30, -10, 30, 40, 40, 30, -10, -30],
   [-30, -10, 30, 40, 40, 30, -10, -30],
   [-30, -10, 20, 30, 30, 20, -10, -30],
   [-30, -20, -10, 0, 0, -10, -20, -30],
   [-50, -40, -30, -20, -20, -30, -40, -50]]

/-- Accumulator of Evaluation::evaluate's single board pass. -/
structure EvalAcc where
  score : Int
  lmw : Int
  lmb : Int
  wk_i : Int
  wk_j : Int
  bk_i : Int
  bk_j : Int
  wq : Bool
  bq : Bool
  wminor : Int
  bminor : Int
  wfiles : List Int
  bfiles : List Int

def EvalAcc.init : EvalAcc :=
  { score := 0, lmw := 0, lmb := 0, wk_i := 0, wk_j := 0, bk_i := 0, bk_j := 0,
    wq := false, bq := false, wminor := 0, bminor := 0,
    wfiles := [0, 0, 0, 0, 0, 0, 0, 0], bfiles := [0, 0, 0, 0, 0, 0, 0, 0] }

/-- Read a per-file pawn counter. -/
def iget (l : List Int) (i : Int) : Int :=
  if 0 ≤ i ∧ i < 8 then l.getD i.toNat 0 else 0

/-- Increment a per-file pawn counter. -/
def iinc (l : List Int) (i : Int) : List Int :=
  if 0 ≤ i ∧ i < 8 then l.set i.toNat (l.getD i.toNat 0 + 1) else l

/-- Count with 1/0 for the mobility sums. -/
def b2i (c : Bool) : Int := if c then 1 else 0

/-- Slider mobility count along one ray, as in the evaluator's `while`
loops: each square with `cond` adds one, the walk stops after the first
occupied square. -/
def mob_ray (b : Grid) (cond : Int → Bool) (di dj : Int) : Nat → Int → Int → Int
  | 0, _, _ => 0
  | fuel + 1, ri, rj =>
    if 0 ≤ ri ∧ ri < 8 ∧ 0 ≤ rj ∧ rj < 8 then
      b2i (cond (bget b ri rj)) +
      (if bget b ri rj ≠ 0 then 0 else mob_ray b cond di dj fuel (ri + di) (rj + dj))
    else 0

/-- One square's contribution in Evaluation::evaluate's board pass. -/
def evalSquare (p : board_state) (acc : EvalAcc) (mn : Int × Int) : EvalAcc :=
  let m := mn.1
  let n := mn.2
  let b := p.board
  let v := bget b m n
  if v = 1 then
    { acc with
      score := acc.score + 100 + bget PAWN_TABLE_WHITE m n
      wfiles := iinc acc.wfiles n
      lmw := acc.lmw +
        b2i (decide (bget b (m - 1) n = 0)) +
        b2i (decide (m = 6) && decide (bget b (m - 1) n = 0) && decide (bget b (m - 2) n = 0)) +
        b2i (decide (n ≠ 0) && decide (bget b (m - 1) (n - 1) < 0)) +
        b2i (decide (n ≠ 7) && decide (bget b (m - 1) (n + 1) < 0)) +
        b2i (decide (n ≠ 7) && decide (bget b m (n + 1) = -1) && fget p.pawn_two_squares_black (n + 1)) +
        b2i (decide (n ≠ 0) && decide (bget b m (n - 1) = -1) && fget p.pawn_two_squares_black (n - 1)) }
  else if v = 2 then
    { acc with
      score := acc.score + 320 + bget KNIGHT_TABLE_WHITE m n
      wminor := acc.wminor + 1
      lmw := acc.lmw + (knight_move.foldl (fun t d =>
        t + b2i (decide (0 ≤ m + d.1 ∧ m + d.1 < 8 ∧ 0 ≤ n + d.2 ∧ n + d.2 < 8) &&
                 decide (bget b (m + d.1) (n + d.2) ≤ 0))) 0) }
  else if v = 3 then
    { acc with
      score := acc.score + 330 + bget BISHOP_TABLE_WHITE m n
      wminor := acc.wminor + 1
      lmw := acc.lmw + (bishop_direction.foldl (fun t d =>
        t + mob_ray b (fun x => decide (x ≤ 0)) d.1 d.2 8 (m + d.1) (n + d.2)) 0) }
  else if v = 4 then
    { acc with
      score := acc.score + 500 + bget ROOK_TABLE_WHITE m n
      wminor := acc.wminor + 1
      lmw := acc.lmw + (rook_direction.foldl (fun t d =>
        t + mob_ray b (fun x => decide (x ≤ 0)) d.1 d.2 8 (m + d.1) (n + d.2)) 0) }
  else if v = 5 then
    { acc with
      score := acc.score + 900 + bget QUEEN_TABLE_WHITE m n
      wq := true }
  else if v = 6 then
    { acc with
      wk_i := m
      wk_j := n
      lmw := acc.lmw + (every_direction.foldl (fun t d =>
        t + b2i (decide (0 ≤ m + d.1 ∧ m + d.1 < 8 ∧ 0 ≤ n + d.2 ∧ n + d.2 < 8) &&
                 decide (bget b (m + d.1) (n + d.2) ≤ 0) &&
                 !under_control b (m + d.1) (n + d.2) BLACK)) 0) }
  else if v = -1 then
    { acc with
      score := acc.score - 100 - bget PAWN_TABLE_BLACK m n
      bfiles := iinc acc.bfiles n
      lmb := acc.lmb +
        b2i (decide (bget b (m + 1) n = 0)) +
        b2i (decide (m = 1) && decide (bget b (m + 1) n = 0) && decide (bget b (m + 2) n = 0)) +
        b2i (decide (n ≠ 0) && decide (bget b (m + 1) (n - 1) > 0)) +
        b2i (decide (n ≠ 7) && decide (bget b (m + 1) (n + 1) > 0)) +
        b2i (decide (n ≠ 7) && decide (bget b m (n + 1) = 1) && fget p.pawn_two_squares_white (n + 1)) +
        b2i (decide (n ≠ 0) && decide (bget b m (n - 1) = 1) && fget p.pawn_two_squares_white (n - 1)) }
  else if v = -2 then
    { acc with
      score := acc.score - 320 - bget KNIGHT_TABLE_BLACK m n
      bminor := acc.bminor + 1
      lmb := acc.lmb + (knight_move.foldl (fun t d =>
        t + b2i (decide (0 ≤ m + d.1 ∧ m + d.1 < 8 ∧ 0 ≤ n + d.2 ∧ n + d.2 < 8) &&
                 decide (bget b (m + d.1) (n + d.2) ≥ 0))) 0) }
  else if v = -3 then
    { acc with
      score := acc.score - 330 - bget BISHOP_TABLE_BLACK m n
      bminor := acc.bminor + 1
      lmb := acc.lmb + (bishop_direction.foldl (fun t d =>
        t + mob_ray b (fun x => decide (x ≥ 0)) d.1 d.2 8 (m + d.1) (n + d.2)) 0) }
  else if v = -4 then
    { acc with
      score := acc.score - 500 - bget ROOK_TABLE_BLACK m n
      bminor := acc.bminor + 1
      lmb := acc.lmb + (rook_direction.foldl (fun t d =>
        t + mob_ray b (fun x => decide (x ≥ 0)) d.1 d.2 8 (m + d.1) (n + d.2)) 0) }
  else if v = -5 then
    { acc with
      score := acc.score - 900 - bget QUEEN_TABLE_BLACK m n
      bq := true }
  else if v = -6 then
    { acc with
      bk_i := m
      bk_j := n
      lmb := acc.lmb + (every_direction.foldl (fun t d =>
        t + b2i (decide (0 ≤ m + d.1 ∧ m + d.1 < 8 ∧ 0 ≤ n + d.2 ∧ n + d.2 < 8) &&
                 decide (bget b (m + d.1) (n + d.2) ≥ 0) &&
                 !under_control b (m + d.1) (n + d.2) WHITE)) 0) }
  else acc

/-- Row-major square list of the evaluator's double loop. -/
def squareList : List (Int × Int) :=
  coordList.flatMap (fun m => coordList.map (fun n => (m, n)))

/-- Accumulator of the pawn-structure loop (score delta, island counts
and the two island flags). -/
structure PawnAcc where
  score : Int
  wIslands : Int
  bIslands : Int
  wFlag : Bool
  bFlag : Bool

/-- One file of the evaluator's pawn-structure loop. -/
def pawnFileStep (wfiles bfiles : List Int) (a : PawnAcc) (i : Int) : PawnAcc :=
  let s1 := if iget wfiles i > 1 then a.score - iget wfiles i * 15 else a.score
  let s2 := if iget bfiles i > 1 then s1 + iget bfiles i * 15 else s1
  let wI := if iget wfiles i > 0 ∧ a.wFlag = false then a.wIslands + 1 else a.wIslands
  let wF := if iget wfiles i > 0 ∧ a.wFlag = false then true else a.wFlag
  let wF' := if iget wfiles i = 0 then false else wF
  let bI := if iget bfiles i > 0 ∧ a.bFlag = false then a.bIslands + 1 else a.bIslands
  let bF := if iget bfiles i > 0 ∧ a.bFlag = false then true else a.bFlag
  let bF' := if iget bfiles i = 0 then false else bF
  let s3 :=
    if i ≠ 0 ∧ i ≠ 7 then
      (if iget wfiles i > 0 ∧ iget wfiles (i - 1) = 0 ∧ iget wfiles (i + 1) = 0 then
        s2 - 30 else s2)
    else s2
  let s4 :=
    if i ≠ 0 ∧ i ≠ 7 then
      (if iget bfiles i > 0 ∧ iget bfiles (i - 1) = 0 ∧ iget bfiles (i + 1) = 0 then
        s3 + 30 else s3)
    else s3
  { score := s4, wIslands := wI, bIslands := bI, wFlag := wF', bFlag := bF' }

/-- The material/positional/mobility/pawn-structure score of
Evaluation::evaluate (everything after the terminal-state checks). -/
def evaluateMain (p : board_state) : Int :=
  let acc := squareList.foldl (evalSquare p) EvalAcc.init
  let sc1 := acc.score + 10 * (acc.lmw - acc.lmb)
  let isEnd : Bool :=
    (!acc.wq && !acc.bq) || (acc.wq && decide (acc.wminor ≤ 1)) ||
    (acc.bq && decide (acc.bminor ≤ 1))
  let sc2 := sc1 +
    (if isEnd then bget KING_END_TABLE_WHITE acc.wk_i acc.wk_j
     else bget KING_MIDDLE_TABLE_WHITE acc.wk_i acc.wk_j)
  let sc3 := sc2 -
    (if isEnd then bget KING_END_TABLE_BLACK acc.bk_i acc.bk_j
     else bget KING_MIDDLE_TABLE_BLACK acc.bk_i acc.bk_j)
  let pa := coordList.foldl (pawnFileStep acc.wfiles acc.bfiles)
    { score := sc3, wIslands := 0, bIslands := 0, wFlag := false, bFlag := false }
  pa.score - 10 * (pa.wIslands - pa.bIslands)

/-- Evaluation::evaluate: terminal overrides, then the static score. -/
def evaluate (p : board_state) (depth : Int) : Int :=
  if is_stalemate p BLACK || is_stalemate p WHITE then 0
  else if is_checkmate p WHITE then -100000 - depth
  else if is_checkmate p BLACK then 100000 + depth
  else evaluateMain p

/-! ## Search-engine move generation (Engine::adv_minimax enumeration)

The C++ enumerates moves square by square inside the alpha-beta loops.
A `break` after a beta cutoff exits only its innermost loop: for the
plain pawn moves, en-passant and castling blocks that innermost loop is
the `for (n)` column loop (the rest of the row is skipped), while for a
promotion loop, the knight loop, one sliding direction's `while`, or
the king-step loop only that group of candidates is skipped and the
enumeration continues.  `Item.mv` marks a candidate whose cutoff
aborts the rest of the row, `Item.grp` a group whose cutoff aborts
only the group.  Candidates that leave the mover's own king in check
are filtered out at generation, exactly where the C++ skips them. -/

inductive Item
  | mv (q : board_state)
  | grp (l : List board_state)

def itemBoards : Item → List board_state
  | Item.mv q => [q]
  | Item.grp l => l

def flatRows (rows : List (List Item)) : List board_state :=
  rows.flatMap (fun r => r.flatMap itemBoards)

/-- Keep only candidates that do not leave side s's king in check. -/
def safeFilter (s : Side) (l : List board_state) : List board_state :=
  l.filter (fun q => !king_is_in_check q.board s)

/-- A single row-breaking candidate, dropped when it fails the
self-check filter. -/
def mvSafe (s : Side) (q : board_state) : List Item :=
  if king_is_in_check q.board s then [] else [Item.mv q]

/-- Sliding-piece candidate collection along one direction of the
engine's enumeration: each ray square passing the under_*_control test
and not holding an own piece yields a candidate, and the walk stops
after the first occupied square. -/
def engine_ray_cands (b : Grid) (ctrl : Int → Int → Bool) (ok : Int → Bool)
    (mk : Int → Int → board_state) (di dj : Int) : Nat → Int → Int → List board_state
  | 0, _, _ => []
  | fuel + 1, ri, rj =>
    if 0 ≤ ri ∧ ri < 8 ∧ 0 ≤ rj ∧ rj < 8 then
      let here : List board_state := if ctrl ri rj && ok (bget b ri rj) then [mk ri rj] else []
      if bget b ri rj ≠ 0 then here
      else here ++ engine_ray_cands b ctrl ok mk di dj fuel (ri + di) (rj + dj)
    else []

/-- White items of Engine::adv_minimax (maximizing branch) for square
(m,n).  Promotions cycle knight..queen ascending (2,3,4,5), captures
try (n-1) before (n+1), and the queenside castling guard tests squares
(7,1),(7,2),(7,3) for attack - i.e. NOT the king's start square e1,
faithfully to engine.cpp line 1944. -/
def whiteAdvSquareItems (p : board_state) (m n : Int) : List Item :=
  let b := p.board
  let v := bget b m n
  let pawnItems : List Item :=
    (if bget b (m - 1) n = 0 then
      (if m - 1 ≠ 0 then
        mvSafe WHITE { p with board := bset (bset b (m - 1) n 1) m n 0 }
      else
        [Item.grp (safeFilter WHITE ([2, 3, 4, 5].map (fun i =>
          { p with board := bset (bset b (m - 1) n i) m n 0 })))])
     else []) ++
    (if m = 6 ∧ bget b (m - 1) n = 0 ∧ bget b (m - 2) n = 0 then
      mvSafe WHITE { p with board := bset (bset b (m - 2) n 1) m n 0
                            pawn_two_squares_white := fset p.pawn_two_squares_white n true }
     else []) ++
    (if n ≠ 0 ∧ bget b (m - 1) (n - 1) < 0 then
      (if m - 1 ≠ 0 then
        mvSafe WHITE { p with board := bset (bset b (m - 1) (n - 1) 1) m n 0 }
      else
        [Item.grp (safeFilter WHITE ([2, 3, 4, 5].map (fun i =>
          { p with board := bset (bset b (m - 1) (n - 1) i) m n 0 })))])
     else []) ++
    (if n ≠ 7 ∧ bget b (m - 1) (n + 1) < 0 then
      (if m - 1 ≠ 0 then
        mvSafe WHITE { p with board := bset (bset b (m - 1) (n + 1) 1) m n 0 }
      else
        [Item.grp (safeFilter WHITE ([2, 3, 4, 5].map (fun i =>
          { p with board := bset (bset b (m - 1) (n + 1) i) m n 0 })))])
     else []) ++
    (if n ≠ 7 ∧ bget b m (n + 1) = -1 ∧ fget p.pawn_two_squares_black (n + 1) = true then
      mvSafe WHITE { p with board := bset (bset (bset b (m - 1) (n + 1) 1) m n 0) m (n + 1) 0 }
     else []) ++
    (if n ≠ 0 ∧ bget b m (n - 1) = -1 ∧ fget p.pawn_two_squares_black (n - 1) = true then
      mvSafe WHITE { p with board := bset (bset (bset b (m - 1) (n - 1) 1) m n 0) m (n - 1) 0 }
     else [])
  let knightItems : List Item :=
    [Item.grp (safeFilter WHITE (knight_move.filterMap (fun d =>
      let ki := m + d.1
      let kj := n + d.2
      if 0 ≤ ki ∧ ki < 8 ∧ 0 ≤ kj ∧ kj < 8 then
        if under_knight_control m n ki kj && decide (bget b ki kj ≤ 0) then
          some { p with board := bset (bset b ki kj 2) m n 0 }
        else none
      else none)))]
  let bishopItems : List Item :=
    bishop_direction.map (fun d => Item.grp (safeFilter WHITE
      (engine_ray_cands b (fun ri rj => under_bishop_control b m n ri rj)
        (fun x => decide (x ≤ 0))
        (fun ri rj => { p with board := bset (bset b ri rj 3) m n 0 })
        d.1 d.2 8 (m + d.1) (n + d.2))))
  let rookItems : List Item :=
    rook_direction.map (fun d => Item.grp (safeFilter WHITE
      (engine_ray_cands b (fun ri rj => under_rook_control b m n ri rj)
        (fun x => decide (x ≤ 0))
        (fun ri rj =>
          let q := { p with board := bset (bset b ri rj 4) m n 0 }
          let q := if m = 7 ∧ n = 0 then
            { q with can_castle_white := fset q.can_castle_white 0 false } else q
          if m = 7 ∧ n = 7 then
            { q with can_castle_white := fset q.can_castle_white 1 false } else q)
        d.1 d.2 8 (m + d.1) (n + d.2))))
  let queenItems : List Item :=
    every_direction.map (fun d => Item.grp (safeFilter WHITE
      (engine_ray_cands b (fun ri rj => under_queen_control b m n ri rj)
        (fun x => decide (x ≤ 0))
        (fun ri rj => { p with board := bset (bset b ri rj 5) m n 0 })
        d.1 d.2 8 (m + d.1) (n + d.2))))
  let kingItems : List Item :=
    [Item.grp (safeFilter WHITE (every_direction.filterMap (fun d =>
      let ki := m + d.1
      let kj := n + d.2
      if 0 ≤ ki ∧ ki < 8 ∧ 0 ≤ kj ∧ kj < 8 then
        if under_king_control m n ki kj && decide (bget b ki kj ≤ 0) then
          some { p with board := bset (bset b ki kj 6) m n 0
                        can_castle_white := [false, false] }
        else none
      else none)))] ++
    (if m = 7 ∧ n = 4 ∧ bget b 7 5 = 0 ∧ bget b 7 6 = 0 ∧ bget b 7 7 = 4 ∧
        under_control b 7 4 BLACK = false ∧ under_control b 7 5 BLACK = false ∧
        under_control b 7 6 BLACK = false ∧ fget p.can_castle_white 1 = true then
      mvSafe WHITE { p with
        board := bset (bset (bset (bset b 7 6 6) 7 4 0) 7 7 0) 7 5 4
        can_castle_white := [false, false] }
     else []) ++
    (if m = 7 ∧ n = 4 ∧ bget b 7 1 = 0 ∧ bget b 7 2 = 0 ∧ bget b 7 3 = 0 ∧ bget b 7 0 = 4 ∧
        under_control b 7 1 BLACK = false ∧ under_control b 7 2 BLACK = false ∧
        under_control b 7 3 BLACK = false ∧ fget p.can_castle_white 0 = true then
      mvSafe WHITE { p with
        board := bset (bset (bset (bset b 7 2 6) 7 4 0) 7 0 0) 7 3 4
        can_castle_white := [false, false] }
     else [])
  if v = 1 then pawnItems
  else if v = 2 then knightItems
  else if v = 3 then bishopItems
  else if v = 4 then rookItems
  else if v = 5 then queenItems
  else if v = 6 then kingItems
  else []

/-- Black items of Engine::adv_minimax (minimizing branch), the mirror
enumeration; its queenside guard correctly tests (0,2),(0,3),(0,4). -/
def blackAdvSquareItems (p : board_state) (m n : Int) : List Item :=
  let b := p.board
  let v := bget b m n
  let pawnItems : List Item :=
    (if bget b (m + 1) n = 0 then
      (if m + 1 ≠ 7 then
        mvSafe BLACK { p with board := bset (bset b (m + 1) n (-1)) m n 0 }
      else
        [Item.grp (safeFilter BLACK ([-5, -4, -3, -2].map (fun i =>
          { p with board := bset (bset b (m + 1) n i) m n 0 })))])
     else []) ++
    (if m = 1 ∧ bget b (m + 1) n = 0 ∧ bget b (m + 2) n = 0 then
      mvSafe BLACK { p with board := bset (bset b (m + 2) n (-1)) m n 0
                            pawn_two_squares_black := fset p.pawn_two_squares_black n true }
     else []) ++
    (if n ≠ 0 ∧ bget b (m + 1) (n - 1) > 0 then
      (if m + 1 ≠ 7 then
        mvSafe BLACK { p with board := bset (bset b (m + 1) (n - 1) (-1)) m n 0 }
      else
        [Item.grp (safeFilter BLACK ([-5, -4, -3, -2].map (fun i =>
          { p with board := bset (bset b (m + 1) (n - 1) i) m n 0 })))])
     else []) ++
    (if n ≠ 7 ∧ bget b (m + 1) (n + 1) > 0 then
      (if m + 1 ≠ 7 then
        mvSafe BLACK { p with board := bset (bset b (m + 1) (n + 1) (-1)) m n 0 }
      else
        [Item.grp (safeFilter BLACK ([-5, -4, -3, -2].map (fun i =>
          { p with board := bset (bset b (m + 1) (n + 1) i) m n 0 })))])
     else []) ++
    (if n ≠ 7 ∧ bget b m (n + 1) = 1 ∧ fget p.pawn_two_squares_white (n + 1) = true then
      mvSafe BLACK { p with board := bset (bset (bset b (m + 1) (n + 1) (-1)) m n 0) m (n + 1) 0 }
     else []) ++
    (if n ≠ 0 ∧ bget b m (n - 1) = 1 ∧ fget p.pawn_two_squares_white (n - 1) = true then
      mvSafe BLACK { p with board := bset (bset (bset b (m + 1) (n - 1) (-1)) m n 0) m (n - 1) 0 }
     else [])
  let knightItems : List Item :=
    [Item.grp (safeFilter BLACK (knight_move.filterMap (fun d =>
      let ki := m + d.1
      let kj := n + d.2
      if 0 ≤ ki ∧ ki < 8 ∧ 0 ≤ kj ∧ kj < 8 then
        if under_knight_control m n ki kj && decide (bget b ki kj ≥ 0) then
          some { p with board := bset (bset b ki kj (-2)) m n 0 }
        else none
      else none)))]
  let bishopItems : List Item :=
    bishop_direction.map (fun d => Item.grp (safeFilter BLACK
      (engine_ray_cands b (fun ri rj => under_bishop_control b m n ri rj)
        (fun x => decide (x ≥ 0))
        (fun ri rj => { p with board := bset (bset b ri rj (-3)) m n 0 })
        d.1 d.2 8 (m + d.1) (n + d.2))))
  let rookItems : List Item :=
    rook_direction.map (fun d => Item.grp (safeFilter BLACK
      (engine_ray_cands b (fun ri rj => under_rook_control b m n ri rj)
        (fun x => decide (x ≥ 0))
        (fun ri rj =>
          let q := { p with board := bset (bset b ri rj (-4)) m n 0 }
          let q := if m = 0 ∧ n = 0 then
            { q with can_castle_black := fset q.can_castle_black 0 false } else q
          if m = 0 ∧ n = 7 then
            { q with can_castle_black := fset q.can_castle_black 1 false } else q)
        d.1 d.2 8 (m + d.1) (n + d.2))))
  let queenItems : List Item :=
    every_direction.map (fun d => Item.grp (safeFilter BLACK
      (engine_ray_cands b (fun ri rj => under_queen_control b m n ri rj)
        (fun x => decide (x ≥ 0))
        (fun ri rj => { p with board := bset (bset b ri rj (-5)) m n 0 })
        d.1 d.2 8 (m + d.1) (n + d.2))))
  let kingItems : List Item :=
    [Item.grp (safeFilter BLACK (every_direction.filterMap (fun d =>
      let ki := m + d.1
      let kj := n + d.2
      if 0 ≤ ki ∧ ki < 8 ∧ 0 ≤ kj ∧ kj < 8 then
        if under_king_control m n ki kj && decide (bget b ki kj ≥ 0) then
          some { p with board := bset (bset b ki kj (-6)) m n 0
                        can_castle_black := [false, false] }
        else none
      else none)))] ++
    (if m = 0 ∧ n = 4 ∧ bget b 0 5 = 0 ∧ bget b 0 6 = 0 ∧ bget b 0 7 = -4 ∧
        under_control b 0 4 WHITE = false ∧ under_control b 0 5 WHITE = false ∧
        under_control b 0 6 WHITE = false ∧ fget p.can_castle_black 1 = true then
      mvSafe BLACK { p with
        board := bset (bset (bset (bset b 0 6 (-6)) 0 4 0) 0 7 0) 0 5 (-4)
        can_castle_black := [false, false] }
     else []) ++
    (if m = 0 ∧ n = 4 ∧ bget b 0 1 = 0 ∧ bget b 0 2 = 0 ∧ bget b 0 3 = 0 ∧ bget b 0 0 = -4 ∧
        under_control b 0 2 WHITE = false ∧ under_control b 0 3 WHITE = false ∧
        under_control b 0 4 WHITE = false ∧ fget p.can_castle_black 0 = true then
      mvSafe BLACK { p with
        board := bset (bset (bset (bset b 0 2 (-6)) 0 4 0) 0 0 0) 0 3 (-4)
        can_castle_black := [false, false] }
     else [])
  if v = -1 then pawnItems
  else if v = -2 then knightItems
  else if v = -3 then bishopItems
  else if v = -4 then rookItems
  else if v = -5 then queenItems
  else if v = -6 then kingItems
  else []

def whiteAdvRow (p : board_state) (m : Int) : List Item :=
  coordList.flatMap (fun n =>
    if bget p.board m n > 0 then whiteAdvSquareItems p m n else [])

def whiteAdvRows (p : board_state) : List (List Item) :=
  coordList.map (whiteAdvRow p)

def blackAdvRow (p : board_state) (m : Int) : List Item :=
  coordList.flatMap (fun n =>
    if bget p.board m n < 0 then blackAdvSquareItems p m n else [])

def blackAdvRows (p : board_state) : List (List Item) :=
  coordList.map (blackAdvRow p)

/-! ## Alpha-beta search (Engine::adv_minimax) and plain minimax -/

def INT_MIN : Int := -2147483648

def INT_MAX : Int := 2147483647

/-- Engine::game_is_over. -/
def game_is_over (p : board_state) : Bool :=
  is_checkmate p WHITE || is_checkmate p BLACK ||
  is_stalemate p WHITE || is_stalemate p BLACK

/-- One evaluated candidate of the maximizing loops:
`score = max(score, child); alpha = max(alpha, score); if (beta <= alpha) break`.
Since alpha is updated to `max(alpha, score)` after every candidate and
score only grows, the running alpha always equals `max alpha0 score`;
the state is the running score plus the innermost-loop break flag. -/
def stepMax (child : board_state → Int → Int) (alpha0 beta : Int)
    (st : Int × Bool) (q : board_state) : Int × Bool :=
  if st.2 then st
  else
    let s := max st.1 (child q (max alpha0 st.1))
    (s, decide (beta ≤ max alpha0 s))

/-- Process one enumeration item of a maximizing node: a `.grp` break
only ends the group, a `.mv` break ends the whole row. -/
def procItemMax (child : board_state → Int → Int) (alpha0 beta : Int)
    (st : Int × Bool) (it : Item) : Int × Bool :=
  match it with
  | Item.mv q => stepMax child alpha0 beta st q
  | Item.grp l =>
    if st.2 then st
    else ((l.foldl (stepMax child alpha0 beta) (st.1, false)).1, false)

/-- Process one row (`for (n)` loop) of a maximizing node. -/
def procRowMax (child : board_state → Int → Int) (alpha0 beta : Int)
    (score : Int) (row : List Item) : Int :=
  (row.foldl (procItemMax child alpha0 beta) (score, false)).1

/-- Process all rows (`for (m)` loop, never broken) of a maximizing node. -/
def procRowsMax (child : board_state → Int → Int) (alpha0 beta : Int)
    (rows : List (List Item)) : Int :=
  rows.foldl (procRowMax child alpha0 beta) INT_MIN

/-- Minimizing-side counterpart of `stepMax`; here beta is the running
`min beta0 score` and the child receives it. -/
def stepMin (child : board_state → Int → Int) (alpha beta0 : Int)
    (st : Int × Bool) (q : board_state) : Int × Bool :=
  if st.2 then st
  else
    let s := min st.1 (child q (min beta0 st.1))
    (s, decide (min beta0 s ≤ alpha))

def procItemMin (child : board_state → Int → Int) (alpha beta0 : Int)
    (st : Int × Bool) (it : Item) : Int × Bool :=
  match it with
  | Item.mv q => stepMin child alpha beta0 st q
  | Item.grp l =>
    if st.2 then st
    else ((l.foldl (stepMin child alpha beta0) (st.1, false)).1, false)

def procRowMin (child : board_state → Int → Int) (alpha beta0 : Int)
    (score : Int) (row : List Item) : Int :=
  (row.foldl (procItemMin child alpha beta0) (score, false)).1

def procRowsMin (child : board_state → Int → Int) (alpha beta0 : Int)
    (rows : List (List Item)) : Int :=
  rows.foldl (procRowMin child alpha beta0) INT_MAX

/-- Engine::adv_minimax: evaluate, stop at depth 0 or a terminal
position, otherwise reset the mover's en-passant flags and run the
pruned max/min loops over the mover's enumeration. -/
def adv_minimax (p : board_state) (depth : Nat) (maximizingPlayer : Bool)
    (alpha beta : Int) : Int :=
  match depth with
  | 0 => evaluate p 0
  | d + 1 =>
    let sc := evaluate p (d + 1 : Nat)
    if game_is_over p then sc
    else if maximizingPlayer then
      procRowsMax (fun q a => adv_minimax q d false a beta) alpha beta
        (whiteAdvRows (reset_en_passant p WHITE))
    else
      procRowsMin (fun q b => adv_minimax q d true alpha b) alpha beta
        (blackAdvRows (reset_en_passant p BLACK))

/-- Modelled from the spec: "an unpruned full minimax over the same
game tree" (spec.md section 8, "Minimax correctness").  Same terminal
tests, same evaluator and the same successor enumeration as
Engine::adv_minimax, but every successor is explored and no alpha-beta
window exists. -/
def minimax (p : board_state) (depth : Nat) (mx : Bool) : Int :=
  match depth with
  | 0 => evaluate p 0
  | d + 1 =>
    let sc := evaluate p (d + 1 : Nat)
    if game_is_over p then sc
    else if mx then
      (flatRows (whiteAdvRows (reset_en_passant p WHITE))).foldl
        (fun s q => max s (minimax q d false)) INT_MIN
    else
      (flatRows (blackAdvRows (reset_en_passant p BLACK))).foldl
        (fun s q => min s (minimax q d true)) INT_MAX

/-! ## Move notation (Board::generate_move_notation) -/

/-- Character arithmetic of the notation builder. -/
def chOf (c : Int) : String := String.mk [Char.ofNat c.toNat]

/-- Board::generate_move_notation (renamed: SAN string builder).
Castling strings, piece letter, pawn-capture file, capture cross,
target square, then check/mate suffix computed on a simulated copy. -/
def generate_move_san (p : board_state) (fi fj ti tj : Int) (player : Side) : String :=
  let piece : Int := (bget p.board fi fj).natAbs
  let target := bget p.board ti tj
  let is_capture : Bool := decide (target ≠ 0)
  if piece = 6 ∧ fj = 4 ∧ tj = 6 then "O-O"
  else if piece = 6 ∧ fj = 4 ∧ tj = 2 then "O-O-O"
  else
    let pc : String :=
      if piece = 2 then "N" else if piece = 3 then "B" else if piece = 4 then "R"
      else if piece = 5 then "Q" else if piece = 6 then "K" else ""
    let pawnFile : String := if piece = 1 ∧ is_capture = true then chOf (97 + fj) else ""
    let cross : String := if is_capture then "x" else ""
    let tgt : String := chOf (97 + tj) ++ chOf (48 + (8 - ti))
    let temp : board_state :=
      { p with board := bset (bset p.board ti tj (bget p.board fi fj)) fi fj 0 }
    let opponent : Side := match player with | WHITE => BLACK | BLACK => WHITE
    let check := king_is_in_check temp.board opponent
    let mate := check && is_checkmate temp opponent
    let suffix : String := if mate then "#" else if check then "+" else ""
    pc ++ pawnFile ++ cross ++ tgt ++ suffix

/-! ## Validated move handlers (Board::handle_white_move,
Board::is_black_move_legal, Human::handle_black_move) -/

/-- Board::pawn_move for a white pawn: returns (move legal, promotion
triggered, en-passant file recorded by a two-square advance). -/
def pawn_move (p : board_state) (si sj ti tj : Int) : Bool × Bool × Option Int :=
  if (ti = si - 1 ∧ sj = tj) ∧ bget p.board ti tj = 0 then
    (true, decide (ti = 0), none)
  else if (si = 6 ∧ si - 2 = ti ∧ sj = tj) ∧
      bget p.board (ti + 1) tj = 0 ∧ bget p.board ti tj = 0 then
    (true, false, some tj)
  else if si = 3 ∧ ti = 2 ∧ (tj = sj - 1 ∨ tj = sj + 1) ∧
      fget p.pawn_two_squares_black tj = true then
    (true, false, none)
  else if (si - 1 = ti ∧ tj + 1 = sj) ∧ bget p.board ti tj < 0 then
    (true, decide (ti = 0), none)
  else if (si - 1 = ti ∧ tj - 1 = sj) ∧ bget p.board ti tj < 0 then
    (true, decide (ti = 0), none)
  else (false, false, none)

/-- The per-piece validation and simulation of Board::handle_white_move:
returns (move_is_legal, possible_position, promote_pawn,
en_passant_index).  The king's three sub-cases (plain move, kingside
castle, queenside castle) are written as a chain here; their guard
conditions are mutually exclusive in the C++ (a castle target is never
king-adjacent), so the chain is equivalent to the C++'s sequence of
independent ifs.  Note the castling guards do NOT require a rook on
h1/a1, exactly as board.cpp lines 179-210. -/
def white_move_sim (p : board_state) (si sj ti tj : Int) :
    Bool × board_state × Bool × Option Int :=
  let b := p.board
  let v := bget b si sj
  if v = 1 then
    let pm := pawn_move p si sj ti tj
    if pm.1 then
      let q1 := { p with board := move_piece b si sj ti tj }
      let q2 := if si = 3 ∧ ti = 2 ∧ (tj - sj = 1 ∨ sj - tj = 1) ∧
          bget b si tj = -1 ∧ fget p.pawn_two_squares_black tj = true then
        { q1 with board := bset q1.board si tj 0 } else q1
      (true, q2, pm.2.1, pm.2.2)
    else (false, p, false, none)
  else if v = 2 then
    if under_knight_control si sj ti tj then
      (true, { p with board := move_piece b si sj ti tj }, false, none)
    else (false, p, false, none)
  else if v = 3 then
    if under_bishop_control b si sj ti tj then
      (true, { p with board := move_piece b si sj ti tj }, false, none)
    else (false, p, false, none)
  else if v = 4 then
    if under_rook_control b si sj ti tj then
      let q1 := { p with board := move_piece b si sj ti tj }
      let q2 := if si = 7 ∧ sj = 0 then
        { q1 with can_castle_white := fset q1.can_castle_white 0 false } else q1
      let q3 := if si = 7 ∧ sj = 7 then
        { q2 with can_castle_white := fset q2.can_castle_white 1 false } else q2
      (true, q3, false, none)
    else (false, p, false, none)
  else if v = 5 then
    if under_queen_control b si sj ti tj then
      (true, { p with board := move_piece b si sj ti tj }, false, none)
    else (false, p, false, none)
  else if v = 6 then
    if under_king_control si sj ti tj then
      (true, { p with board := move_piece b si sj ti tj
                      can_castle_white := [false, false] }, false, none)
    else if si = 7 ∧ sj = 4 ∧ ti = 7 ∧ tj = 6 ∧
        bget b 7 5 = 0 ∧ bget b 7 6 = 0 ∧
        under_control b 7 4 BLACK = false ∧ under_control b 7 5 BLACK = false ∧
        under_control b 7 6 BLACK = false ∧ fget p.can_castle_white 1 = true then
      (true, { p with
        board := bset (bset (bset (bset b ti tj (bget b si sj)) si sj 0) 7 7 0) 7 5 4
        can_castle_white := [false, false] }, false, none)
    else if si = 7 ∧ sj = 4 ∧ ti = 7 ∧ tj = 2 ∧
        bget b 7 1 = 0 ∧ bget b 7 2 = 0 ∧ bget b 7 3 = 0 ∧
        under_control b 7 2 BLACK = false ∧ under_control b 7 3 BLACK = false ∧
        under_control b 7 4 BLACK = false ∧ fget p.can_castle_white 0 = true then
      (true, { p with
        board := bset (bset (bset (bset b ti tj (bget b si sj)) si sj 0) 7 0 0) 7 3 4
        can_castle_white := [false, false] }, false, none)
    else (false, p, false, none)
  else (false, p, false, none)

/-- Board::handle_white_move: reject a white-occupied target, validate
and simulate per piece, reject if white's king would be in check,
otherwise commit (clearing white's en-passant flags, recording a fresh
two-square flag, performing promotion through the callback's answer),
returning the notation string; "" and an untouched position on any
rejection. -/
def handle_white_move (p : board_state) (si sj ti tj : Int) (cb : Char) :
    String × board_state :=
  if bget p.board ti tj > 0 then ("", p)
  else
    let r := white_move_sim p si sj ti tj
    let move_is_legal := r.1
    let possible := r.2.1
    let promote := r.2.2.1
    let ep := r.2.2.2
    if move_is_legal ∧ king_is_in_check possible.board WHITE = false then
      let ms := generate_move_san p si sj ti tj WHITE
      let wflags0 := allFalse p.pawn_two_squares_white
      let wflags := match ep with
        | some idx => fset wflags0 idx true
        | none => wflags0
      let basePos : board_state :=
        { board := possible.board
          pawn_two_squares_black := possible.pawn_two_squares_black
          pawn_two_squares_white := wflags
          can_castle_white := possible.can_castle_white
          can_castle_black := possible.can_castle_black }
      let promPiece : Int :=
        if cb = 'k' then 2 else if cb = 'b' then 3 else if cb = 'r' then 4 else 5
      let finalPos :=
        if promote then { basePos with board := bset basePos.board ti tj promPiece }
        else basePos
      (ms, finalPos)
    else ("", p)

/-- The per-piece validation and simulation of
Board::is_black_move_legal: (move_is_legal, possible_position,
en_passant_index). -/
def black_move_sim (p : board_state) (si sj ti tj : Int) :
    Bool × board_state × Option Int :=
  let b := p.board
  let v := bget b si sj
  if v = -1 then
    if ti = si + 1 ∧ tj = sj then
      if bget b ti tj = 0 then
        (true, { p with board := move_piece b si sj ti tj }, none)
      else (false, p, none)
    else if si = 1 ∧ ti = si + 2 ∧ sj = tj then
      if bget b (ti - 1) tj = 0 ∧ bget b ti tj = 0 then
        (true, { p with
          board := move_piece b si sj ti tj
          pawn_two_squares_black := fset (allFalse p.pawn_two_squares_black) tj true },
         some tj)
      else (false, p, none)
    else if si = 4 ∧ ti = 5 ∧ (tj = sj - 1 ∨ tj = sj + 1) ∧
        fget p.pawn_two_squares_white tj = true then
      (true, { p with board := bset (move_piece b si sj ti tj) 4 tj 0 }, none)
    else if (ti = si + 1) ∧ (tj = sj - 1 ∨ tj = sj + 1) ∧ bget b ti tj > 0 then
      (true, { p with board := move_piece b si sj ti tj }, none)
    else (false, p, none)
  else if v = -2 then
    if under_knight_control si sj ti tj then
      (true, { p with board := move_piece b si sj ti tj }, none)
    else (false, p, none)
  else if v = -3 then
    if under_bishop_control b si sj ti tj then
      (true, { p with board := move_piece b si sj ti tj }, none)
    else (false, p, none)
  else if v = -4 then
    if under_rook_control b si sj ti tj then
      let q1 := { p with board := move_piece b si sj ti tj }
      let q2 := if si = 0 ∧ sj = 0 then
        { q1 with can_castle_black := fset q1.can_castle_black 0 false } else q1
      let q3 := if si = 0 ∧ sj = 7 then
        { q2 with can_castle_black := fset q2.can_castle_black 1 false } else q2
      (true, q3, none)
    else (false, p, none)
  else if v = -5 then
    if under_queen_control b si sj ti tj then
      (true, { p with board := move_piece b si sj ti tj }, none)
    else (false, p, none)
  else if v = -6 then
    if under_king_control si sj ti tj then
      (true, { p with board := move_piece b si sj ti tj
                      can_castle_black := [false, false] }, none)
    else if si = 0 ∧ sj = 4 ∧ ti = 0 ∧ tj = 6 ∧
        bget b 0 5 = 0 ∧ bget b 0 6 = 0 ∧
        under_control b 0 4 WHITE = false ∧ under_control b 0 5 WHITE = false ∧
        under_control b 0 6 WHITE = false ∧ fget p.can_castle_black 1 = true then
      (true, { p with
        board := bset (bset (bset (bset b ti tj (bget b si sj)) si sj 0) 0 7 0) 0 5 (-4)
        can_castle_black := [false, false] }, none)
    else if si = 0 ∧ sj = 4 ∧ ti = 0 ∧ tj = 2 ∧
        bget b 0 1 = 0 ∧ bget b 0 2 = 0 ∧ bget b 0 3 = 0 ∧
        under_control b 0 2 WHITE = false ∧ under_control b 0 3 WHITE = false ∧
        under_control b 0 4 WHITE = false ∧ fget p.can_castle_black 0 = true then
      (true, { p with
        board := bset (bset (bset (bset b ti tj (bget b si sj)) si sj 0) 0 0 0) 0 3 (-4)
        can_castle_black := [false, false] }, none)
    else (false, p, none)
  else (false, p, none)

/-- Board::is_black_move_legal: validate and simulate, and on success
commit into the position - including the spurious
`pawn_two_squares_white[en_passant_index] = true` write that a black
two-square advance performs (board.cpp lines 451-455).  Returns
(result, committed position, possible_position). -/
def is_black_move_legal (p : board_state) (si sj ti tj : Int) :
    Bool × board_state × board_state :=
  let r := black_move_sim p si sj ti tj
  let move_is_legal := r.1
  let possible := r.2.1
  let ep := r.2.2
  if move_is_legal ∧ king_is_in_check possible.board BLACK = false then
    let committed : board_state :=
      { board := possible.board
        pawn_two_squares_black := possible.pawn_two_squares_black
        pawn_two_squares_white :=
          (match ep with
           | some idx => fset possible.pawn_two_squares_white idx true
           | none => possible.pawn_two_squares_white)
        can_castle_white := possible.can_castle_white
        can_castle_black := possible.can_castle_black }
    (true, committed, possible)
  else (false, p, possible)

/-- Human::handle_black_move: notation first, reject a black-occupied
target, validate through Board::is_black_move_legal, re-test check on
the simulated board, promote on the last rank through the callback's
answer, and finally assign the possible position wholesale (this last
assignment is what the C++ `position = possible_position` does - it
discards the spurious white en-passant write of the commit). -/
def handle_black_move (p : board_state) (fx fy tx ty : Int) (cb : Char) :
    String × board_state :=
  let ms := generate_move_san p fx fy tx ty BLACK
  if bget p.board tx ty < 0 then ("", p)
  else
    let r := is_black_move_legal p fx fy tx ty
    if r.1 = false then ("", p)
    else if king_is_in_check r.2.2.board BLACK then ("", r.2.1)
    else
      let poss := r.2.2
      let promPiece : Int :=
        if cb = 'k' then -2 else if cb = 'b' then -3 else if cb = 'r' then -4 else -5
      let poss2 :=
        if bget poss.board tx ty = -1 ∧ tx = 7 then
          { poss with board := bset poss.board tx ty promPiece }
        else poss
      (ms, poss2)

/-! ## Advisory top-moves query (Engine::get_best_white_moves) -/

def DEPTH : Nat := 4

/-- EngineMove result record (engine.h).  `eval` keeps the raw
centipawn int score of the search; the C++ stores `score / 100` in a
float, which is an order- and threshold-preserving rescaling for the
score range this engine produces (|score| < 2^24, distinct ints at
least 1 centipawn = 0.01 pawns apart, far above float spacing there).
The diagnostics-only node counter is not modelled. -/
structure EngineMove where
  nota : String
  from_i : Int
  from_j : Int
  to_i : Int
  to_j : Int
  eval : Int
deriving DecidableEq

/-- Build the scored EngineMove of one root candidate of
Engine::get_best_white_moves (skipped when it leaves white in check):
each candidate is scored by adv_minimax at DEPTH-1 with a fresh full
window, and the notation is generated from the board as it was before
the entry reset (`pn`). -/
def mkRootMove (pn q : board_state) (fi fj ti tj : Int) : List EngineMove :=
  if king_is_in_check q.board WHITE then []
  else
    [{ nota := generate_move_san pn fi fj ti tj WHITE
       from_i := fi, from_j := fj, to_i := ti, to_j := tj
       eval := adv_minimax q (DEPTH - 1) false INT_MIN INT_MAX }]

/-- Sliding-piece candidates with their coordinates, for the root loops. -/
def root_ray_cands (b : Grid) (ctrl : Int → Int → Bool) (ok : Int → Bool)
    (mk : Int → Int → board_state) (di dj : Int) :
    Nat → Int → Int → List (Int × Int × board_state)
  | 0, _, _ => []
  | fuel + 1, ri, rj =>
    if 0 ≤ ri ∧ ri < 8 ∧ 0 ≤ rj ∧ rj < 8 then
      let here : List (Int × Int × board_state) :=
        if ctrl ri rj && ok (bget b ri rj) then [(ri, rj, mk ri rj)] else []
      if bget b ri rj ≠ 0 then here
      else here ++ root_ray_cands b ctrl ok mk di dj fuel (ri + di) (rj + dj)
    else []

/-- The root enumeration of Engine::get_best_white_moves for square
(m,n) of the already-reset position `p`.  Promotions cycle
queen..knight descending (5,4,3,2), pawn captures try (n+1) before
(n-1), and both castling guards check rook presence and - for
queenside - squares (7,2),(7,3),(7,4), unlike the adv_minimax guard. -/
def whiteRootSquareMoves (pn p : board_state) (m n : Int) : List EngineMove :=
  let b := p.board
  let v := bget b m n
  let pawnMoves : List EngineMove :=
    (if bget b (m - 1) n = 0 then
      (if m - 1 ≠ 0 then
        mkRootMove pn { p with board := bset (bset b (m - 1) n 1) m n 0 } m n (m - 1) n
      else
        [5, 4, 3, 2].flatMap (fun i =>
          mkRootMove pn { p with board := bset (bset b (m - 1) n i) m n 0 } m n (m - 1) n))
     else []) ++
    (if m = 6 ∧ bget b (m - 1) n = 0 ∧ bget b (m - 2) n = 0 then
      mkRootMove pn { p with board := bset (bset b (m - 2) n 1) m n 0
                             pawn_two_squares_white := fset p.pawn_two_squares_white n true }
        m n (m - 2) n
     else []) ++
    (if n ≠ 7 ∧ bget b (m - 1) (n + 1) < 0 then
      (if m - 1 ≠ 0 then
        mkRootMove pn { p with board := bset (bset b (m - 1) (n + 1) 1) m n 0 } m n (m - 1) (n + 1)
      else
        [5, 4, 3, 2].flatMap (fun i =>
          mkRootMove pn { p with board := bset (bset b (m - 1) (n + 1) i) m n 0 } m n (m - 1) (n + 1)))
     else []) ++
    (if n ≠ 0 ∧ bget b (m - 1) (n - 1) < 0 then
      (if m - 1 ≠ 0 then
        mkRootMove pn { p with board := bset (bset b (m - 1) (n - 1) 1) m n 0 } m n (m - 1) (n - 1)
      else
        [5, 4, 3, 2].flatMap (fun i =>
          mkRootMove pn { p with board := bset (bset b (m - 1) (n - 1) i) m n 0 } m n (m - 1) (n - 1)))
     else []) ++
    (if n ≠ 7 ∧ bget b m (n + 1) = -1 ∧ fget p.pawn_two_squares_black (n + 1) = true then
      mkRootMove pn { p with board := bset (bset (bset b (m - 1) (n + 1) 1) m n 0) m (n + 1) 0 }
        m n (m - 1) (n + 1)
     else []) ++
    (if n ≠ 0 ∧ bget b m (n - 1) = -1 ∧ fget p.pawn_two_squares_black (n - 1) = true then
      mkRootMove pn { p with board := bset (bset (bset b (m - 1) (n - 1) 1) m n 0) m (n - 1) 0 }
        m n (m - 1) (n - 1)
     else [])
  let knightMoves : List EngineMove :=
    knight_move.flatMap (fun d =>
      let ki := m + d.1
      let kj := n + d.2
      if 0 ≤ ki ∧ ki < 8 ∧ 0 ≤ kj ∧ kj < 8 then
        if under_knight_control m n ki kj && decide (bget b ki kj ≤ 0) then
          mkRootMove pn { p with board := bset (bset b ki kj 2) m n 0 } m n ki kj
        else []
      else [])
  let bishopMoves : List EngineMove :=
    bishop_direction.flatMap (fun d =>
      (root_ray_cands b (fun ri rj => under_bishop_control b m n ri rj)
        (fun x => decide (x ≤ 0))
        (fun ri rj => { p with board := bset (bset b ri rj 3) m n 0 })
        d.1 d.2 8 (m + d.1) (n + d.2)).flatMap (fun t =>
          mkRootMove pn t.2.2 m n t.1 t.2.1))
  let rookMoves : List EngineMove :=
    rook_direction.flatMap (fun d =>
      (root_ray_cands b (fun ri rj => under_rook_control b m n ri rj)
        (fun x => decide (x ≤ 0))
        (fun ri rj =>
          let q := { p with board := bset (bset b ri rj 4) m n 0 }
          let q := if m = 7 ∧ n = 0 then
            { q with can_castle_white := fset q.can_castle_white 0 false } else q
          if m = 7 ∧ n = 7 then
            { q with can_castle_white := fset q.can_castle_white 1 false } else q)
        d.1 d.2 8 (m + d.1) (n + d.2)).flatMap (fun t =>
          mkRootMove pn t.2.2 m n t.1 t.2.1))
  let queenMoves : List EngineMove :=
    every_direction.flatMap (fun d =>
      (root_ray_cands b (fun ri rj => under_queen_control b m n ri rj)
        (fun x => decide (x ≤ 0))
        (fun ri rj => { p with board := bset (bset b ri rj 5) m n 0 })
        d.1 d.2 8 (m + d.1) (n + d.2)).flatMap (fun t =>
          mkRootMove pn t.2.2 m n t.1 t.2.1))
  let kingMoves : List EngineMove :=
    every_direction.flatMap (fun d =>
      let ki := m + d.1
      let kj := n + d.2
      if 0 ≤ ki ∧ ki < 8 ∧ 0 ≤ kj ∧ kj < 8 then
        if under_king_control m n ki kj && decide (bget b ki kj ≤ 0) then
          mkRootMove pn { p with board := bset (bset b ki kj 6) m n 0
                                 can_castle_white := [false, false] } m n ki kj
        else []
      else []) ++
    (if m = 7 ∧ n = 4 ∧ bget b 7 5 = 0 ∧ bget b 7 6 = 0 ∧ bget b 7 7 = 4 ∧
        under_control b 7 4 BLACK = false ∧ under_control b 7 5 BLACK = false ∧
        under_control b 7 6 BLACK = false ∧ fget p.can_castle_white 1 = true then
      mkRootMove pn { p with
        board := bset (bset (bset (bset b 7 6 6) 7 4 0) 7 7 0) 7 5 4
        can_castle_white := [false, false] } 7 4 7 6
     else []) ++
    (if m = 7 ∧ n = 4 ∧ bget b 7 1 = 0 ∧ bget b 7 2 = 0 ∧ bget b 7 3 = 0 ∧ bget b 7 0 = 4 ∧
        under_control b 7 2 BLACK = false ∧ under_control b 7 3 BLACK = false ∧
        under_control b 7 4 BLACK = false ∧ fget p.can_castle_white 0 = true then
      mkRootMove pn { p with
        board := bset (bset (bset (bset b 7 2 6) 7 4 0) 7 0 0) 7 3 4
        can_castle_white := [false, false] } 7 4 7 2
     else [])
  if v = 1 then pawnMoves
  else if v = 2 then knightMoves
  else if v = 3 then bishopMoves
  else if v = 4 then rookMoves
  else if v = 5 then queenMoves
  else if v = 6 then kingMoves
  else []

/-- The whole scored root move list of Engine::get_best_white_moves,
row-major order. -/
def whiteRootMoves (pn p : board_state) : List EngineMove :=
  coordList.flatMap (fun m => coordList.flatMap (fun n =>
    if bget p.board m n > 0 then whiteRootSquareMoves pn p m n else []))

/-- Insertion step of the eval-descending sort (the `std::sort` with
comparator `a.eval > b.eval`; insertion keeps equal evals in input
order, one of the orders the unstable std::sort may produce). -/
def insertDesc (x : EngineMove) : List EngineMove → List EngineMove
  | [] => [x]
  | y :: ys => if y.eval < x.eval then x :: y :: ys else y :: insertDesc x ys

def sortDesc (l : List EngineMove) : List EngineMove := l.foldr insertDesc []

/-- The top-3 filter loop: walk the sorted list, keep moves with
eval >= -0.5 pawns (-50 centipawns), stop once three are kept. -/
def pickTopAux : List EngineMove → List EngineMove → List EngineMove
  | [], acc => acc
  | x :: xs, acc =>
    if decide ((-50 : Int) ≤ x.eval) then
      let acc2 := acc ++ [x]
      if acc2.length = 3 then acc2 else pickTopAux xs acc2
    else pickTopAux xs acc

/-- Engine::get_best_white_moves: reset white's en-passant flags on the
caller's position, enumerate and score every legal white move, sort by
eval descending, return up to the top 3 with eval >= -0.5 pawns, or the
single best move as fallback.  The returned pair carries the move list
and the caller's position as the C++ leaves it. -/
def get_best_white_moves (p : board_state) : List EngineMove × board_state :=
  let p2 := reset_en_passant p WHITE
  let move_list := sortDesc (whiteRootMoves p p2)
  let top := pickTopAux move_list []
  if top = [] ∧ move_list ≠ [] then (move_list.take 1, p2) else (top, p2)

/-! ## Bounds checker for the evaluator's unguarded pawn reads (C8) -/

/-- The raw row indexes that Evaluation::evaluate's pawn-mobility code
reads without any range check: a white pawn on square (m,n) always
reads position.board[m-1][...] and a black pawn always reads
position.board[m+1][...].  This checker is true exactly when some such
read falls outside the array (rows 0..7), i.e. when the C++ commits an
out-of-bounds access: a white pawn on row 0 or a black pawn on row 7.
(Board::is_checkmate's pawn one-step-forward read p.board[m+dir][n] and
the engines' pawn loops perform the same unguarded reads.) -/
def evaluate_pawn_mobility_oob (p : board_state) : Bool :=
  squareList.any (fun mn =>
    (decide (bget p.board mn.1 mn.2 = 1) && decide (mn.1 - 1 < 0)) ||
    (decide (bget p.board mn.1 mn.2 = -1) && decide (mn.1 + 1 > 7)))

/-! ## Concrete positions used by the claim theorems -/

def emptyRow : List Int := [0, 0, 0, 0, 0, 0, 0, 0]

def noFlags8 : List Bool := [false, false, false, false, false, false, false, false]

def noCastle : List Bool := [false, false]

def bothCastle : List Bool := [true, true]

/-- The standard starting position (the Board class initializer). -/
def startPos : board_state :=
  { board := [[-4, -2, -3, -5, -6, -3, -2, -4],
              [-1, -1, -1, -1, -1, -1, -1, -1],
              emptyRow, emptyRow, emptyRow, emptyRow,
              [1, 1, 1, 1, 1, 1, 1, 1],
              [4, 2, 3, 5, 6, 3, 2, 4]],
    pawn_two_squares_black := noFlags8, pawn_two_squares_white := noFlags8,
    can_castle_white := bothCastle, can_castle_black := bothCastle }

/-- Stalemate: black king h8, white queen g6, white king f7; black is
not in check and has no escaping move. -/
def stalePos : board_state :=
  { board := [[0, 0, 0, 0, 0, 0, 0, -6],
              [0, 0, 0, 0, 0, 6, 0, 0],
              [0, 0, 0, 0, 0, 0, 5, 0],
              emptyRow, emptyRow, emptyRow, emptyRow, emptyRow],
    pawn_two_squares_black := noFlags8, pawn_two_squares_white := noFlags8,
    can_castle_white := noCastle, can_castle_black := noCastle }

/-- Pinned-knight stalemate: black Ka8 and Nb7, white Bd5 (pinning the
knight against a8), Kb6 and Bf4 (covering b8).  Black is not in check,
every knight move exposes the king, and the king has no safe square:
zero legal moves, yet the knight has pseudo-moves. -/
def pinPos : board_state :=
  { board := [[-6, 0, 0, 0, 0, 0, 0, 0],
              [0, -2, 0, 0, 0, 0, 0, 0],
              [0, 6, 0, 0, 0, 0, 0, 0],
              [0, 0, 0, 3, 0, 0, 0, 0],
              [0, 0, 0, 0, 0, 3, 0, 0],
              emptyRow, emptyRow, emptyRow],
    pawn_two_squares_black := noFlags8, pawn_two_squares_white := noFlags8,
    can_castle_white := noCastle, can_castle_black := noCastle }

/-- White Ke1 and Ra1 with queenside rights, black Re8 and Kh8: the
white king stands in check from the e8 rook, while b1, c1, d1 are
empty and unattacked. -/
def castleCheckPos : board_state :=
  { board := [[0, 0, 0, 0, -4, 0, 0, -6],
              emptyRow, emptyRow, emptyRow, emptyRow, emptyRow, emptyRow,
              [4, 0, 0, 0, 6, 0, 0, 0]],
    pawn_two_squares_black := noFlags8, pawn_two_squares_white := noFlags8,
    can_castle_white := bothCastle, can_castle_black := noCastle }

/-- The board after white castles queenside from `castleCheckPos`. -/
def castleCheckResult : Grid :=
  [[0, 0, 0, 0, -4, 0, 0, -6],
   emptyRow, emptyRow, emptyRow, emptyRow, emptyRow, emptyRow,
   [0, 0, 6, 4, 0, 0, 0, 0]]

/-- White Ra2 and Ke1 against black Ra8 (unmoved, queenside rights
intact) and Kg7; the a-file is open so Rxa8 is legal. -/
def rookCapPos : board_state :=
  { board := [[-4, 0, 0, 0, 0, 0, 0, 0],
              [0, 0, 0, 0, 0, 0, -6, 0],
              emptyRow, emptyRow, emptyRow, emptyRow,
              [4, 0, 0, 0, 0, 0, 0, 0],
              [0, 0, 0, 0, 6, 0, 0, 0]],
    pawn_two_squares_black := noFlags8, pawn_two_squares_white := noFlags8,
    can_castle_white := noCastle, can_castle_black := bothCastle }

/-- The position after white plays e2-e4 from the starting position. -/
def afterE4 : board_state := (handle_white_move startPos 6 4 4 4 'q').2

/-- Structurally well-formed position with a white pawn on the farthest
rank (a8) and both kings present; the spec's §7 demands the core still
behave sanely on it. -/
def pawnOnLastRankPos : board_state :=
  { board := [[1, 0, 0, 0, -6, 0, 0, 0],
              emptyRow, emptyRow, emptyRow, emptyRow, emptyRow, emptyRow,
              [0, 0, 0, 0, 6, 0, 0, 0]],
    pawn_two_squares_black := noFlags8, pawn_two_squares_white := noFlags8,
    can_castle_white := noCastle, can_castle_black := noCastle }

/-! ## Claim theorems -/

/-- C1 counterexample: in the stalemate position `stalePos` black is
NOT in check, yet Board::is_checkmate classifies black as checkmated -
refuting "is_checkmate(p, s) returns true iff s's king is in check AND
no legal move of s escapes check": the in-check conjunct fails. -/
theorem C1_is_checkmate_claim_false :
    is_checkmate stalePos BLACK = true ∧
    king_is_in_check stalePos.board BLACK = false := by decide

/-- C2 counterexample: in `pinPos` black is not in check and has zero
legal moves by the search engine's own enumeration (every knight move
exposes the king to the d5 bishop and the king has no safe square), so
the claim "is_stalemate(p, s) = true iff s is not in check and has
zero legal moves" demands true - but Board::is_stalemate returns
false, because it counts the knight's pseudo-moves without the
self-check test. -/
theorem C2_is_stalemate_claim_false :
    is_stalemate pinPos BLACK = false ∧
    king_is_in_check pinPos.board BLACK = false ∧
    flatRows (blackAdvRows pinPos) = [] := by decide

/-- C5: Engine::adv_minimax's white queenside castling guard
(engine.cpp line 1944) tests squares b1, c1, d1 for enemy control but
never the king's start square e1.  In `castleCheckPos` the white king
is IN CHECK from the e8 rook, yet the queenside-castled position is
among the successors the maximizing search generates - a castling
move whose start square is attacked is played, contradicting the
claimed guarantee (every other castle site in the code base checks the
start/transit/landing triple). -/
theorem C5_adv_minimax_castles_out_of_check :
    ((flatRows (whiteAdvRows castleCheckPos)).any
      (fun q => decide (q.board = castleCheckResult))) = true ∧
    under_control castleCheckPos.board 7 4 BLACK = true ∧
    king_is_in_check castleCheckPos.board WHITE = true := by decide

/-- C6: white captures the untouched black a8 rook (Rxa8 from
`rookCapPos`) through the validated entry point, yet black's queenside
castling flag remains true while a8 now holds a white rook - the
claimed invariant "flag true only while the rook stands unmoved on its
home corner" is not preserved, because no move-applying operation
clears the OPPONENT's flag on a corner capture. -/
theorem C6_corner_capture_keeps_castle_flag :
    (handle_white_move rookCapPos 6 0 0 0 'q').1 ≠ "" ∧
    fget (handle_white_move rookCapPos 6 0 0 0 'q').2.can_castle_black 0 = true ∧
    bget (handle_white_move rookCapPos 6 0 0 0 'q').2.board 0 0 = 4 := by decide

/-- C7 counterexample: (a) a validated black two-square advance d7-d5
through Board::is_black_move_legal also sets WHITE's en-passant flag
for the d-file (the spurious `pawn_two_squares_white[en_passant_index]
= true` of the commit), refuting "sets exactly one en-passant flag ...
and no other en-passant flag of either side"; (b) after white's e2-e4
the white e-file flag is still true once black's very next validated
move (Nb8-c6) completes, refuting "that flag reads false again
immediately after the opponent's very next move". -/
theorem C7_en_passant_claim_false :
    (is_black_move_legal afterE4 1 3 3 3).1 = true ∧
    fget (is_black_move_legal afterE4 1 3 3 3).2.1.pawn_two_squares_white 3 = true ∧
    fget (is_black_move_legal afterE4 1 3 3 3).2.1.pawn_two_squares_black 3 = true ∧
    fget afterE4.pawn_two_squares_white 4 = true ∧
    (handle_black_move afterE4 0 1 2 2 'q').1 ≠ "" ∧
    fget (handle_black_move afterE4 0 1 2 2 'q').2.pawn_two_squares_white 4 = true := by
  decide

/-- C8: on the structurally well-formed position `pawnOnLastRankPos`
(white pawn on a8, both kings present, boolean flags) the pawn-mobility
code of Evaluation::evaluate reads position.board[-1][0] - an
out-of-bounds access, contradicting the claim that the core completes
without out-of-bounds accesses on every structurally well-formed
position.  Board::is_checkmate's pawn forward probe and the engines'
pawn loops perform the same unguarded read. -/
theorem C8_evaluate_reads_out_of_bounds :
    evaluate_pawn_mobility_oob pawnOnLastRankPos = true := by decide

/-- C1 amended: Board::is_checkmate(p, s) returns true iff every
candidate move in its own enumeration (`checkmateCandidates`: pawn
pushes, pawn captures, flag-conditioned en-passant captures, knight,
rook, bishop, queen and single-step king moves - castling is not
enumerated) leaves s's king in check; the in-check precondition of the
claim is never tested, so a position with no enumerated escape is
classified checkmate whether or not s is in check. -/
theorem C1_is_checkmate_no_escape_iff (p : board_state) (s : Side) :
    is_checkmate p s = true ↔
      ∀ b ∈ checkmateCandidates p s, king_is_in_check b s = true := by
  simp [is_checkmate, List.all_eq_true]

/-- C2 amended: Board::is_stalemate(p, s) returns true iff s is not in
check AND the detector's pseudo-move scan (`stalemateHasMove`, which
tests only king moves against opponent control and counts every other
piece's move without a self-check test) finds nothing; a side whose
every pseudo-move would expose its own king is classified as NOT
stalemated. -/
theorem C2_is_stalemate_pseudo_move_iff (p : board_state) (s : Side) :
    is_stalemate p s = true ↔
      (king_is_in_check p.board s = false ∧ stalemateHasMove p s = false) := by
  unfold is_stalemate
  rcases h : king_is_in_check p.board s <;> simp [h]

/-- getD over a cleared flag array is always false. -/
theorem getD_allFalse (l : List Bool) (k : Nat) : (allFalse l).getD k false = false := by
  induction l generalizing k with
  | nil => simp [allFalse]
  | cons a t ih =>
    cases k with
    | zero => simp [allFalse]
    | succ k2 => simp [allFalse, ih k2]

/-- Every entry of a cleared flag array reads false. -/
theorem fget_allFalse (l : List Bool) (i : Int) : fget (allFalse l) i = false := by
  unfold fget
  split
  · exact getD_allFalse l i.toNat
  · rfl

/-- C10: Engine::get_best_white_moves mutates the caller's position
only through the reset_en_passant(WHITE) call at entry: the returned
caller state keeps all 64 board cells, both castling-rights pairs and
black's en-passant flags, and every white en-passant flag reads false. -/
theorem C10_get_best_white_moves_frame (p : board_state) :
    (get_best_white_moves p).2.board = p.board ∧
    (get_best_white_moves p).2.can_castle_white = p.can_castle_white ∧
    (get_best_white_moves p).2.can_castle_black = p.can_castle_black ∧
    (get_best_white_moves p).2.pawn_two_squares_black = p.pawn_two_squares_black ∧
    (∀ i : Int, fget (get_best_white_moves p).2.pawn_two_squares_white i = false) := by
  have h2 : (get_best_white_moves p).2 = reset_en_passant p WHITE := by
    unfold get_best_white_moves
    dsimp only
    split <;> rfl
  rw [h2]
  refine ⟨rfl, rfl, rfl, rfl, fun i => ?_⟩
  exact fget_allFalse p.pawn_two_squares_white i

/-- The white-move simulator never touches black's en-passant flags. -/
theorem white_move_sim_black_flags (p : board_state) (si sj ti tj : Int) :
    (white_move_sim p si sj ti tj).2.1.pawn_two_squares_black =
      p.pawn_two_squares_black := by
  unfold white_move_sim
  dsimp only
  split_ifs <;> rfl

/-- The black-move simulator never touches white's en-passant flags. -/
theorem black_move_sim_white_flags (p : board_state) (si sj ti tj : Int) :
    (black_move_sim p si sj ti tj).2.1.pawn_two_squares_white =
      p.pawn_two_squares_white := by
  unfold black_move_sim
  dsimp only
  split_ifs <;> rfl

/-- White Ke1 and Be2 pinned by black Re8 (black Ka8): the bishop move
e2-d3 passes the geometric validation but exposes white's king. -/
def C4wpos : board_state :=
  { board := [[-6, 0, 0, 0, -4, 0, 0, 0],
              emptyRow, emptyRow, emptyRow, emptyRow, emptyRow,
              [0, 0, 0, 0, 3, 0, 0, 0],
              [0, 0, 0, 0, 6, 0, 0, 0]],
    pawn_two_squares_black := noFlags8, pawn_two_squares_white := noFlags8,
    can_castle_white := noCastle, can_castle_black := noCastle }

/-- Black Ke8 and Be7 pinned by white Re1 (white Kh1): the bishop move
e7-d6 passes the geometric validation but exposes black's king. -/
def C4bpos : board_state :=
  { board := [[0, 0, 0, 0, -6, 0, 0, 0],
              [0, 0, 0, 0, -3, 0, 0, 0],
              emptyRow, emptyRow, emptyRow, emptyRow, emptyRow,
              [0, 0, 0, 0, 4, 0, 0, 6]],
    pawn_two_squares_black := noFlags8, pawn_two_squares_white := noFlags8,
    can_castle_white := noCastle, can_castle_black := noCastle }

/-- A successful Board::is_black_move_legal requires exactly that the
simulated board leaves black's king out of check. -/
theorem is_black_move_legal_success_no_check (p : board_state) (si sj ti tj : Int) :
    (is_black_move_legal p si sj ti tj).1 = true →
    king_is_in_check (is_black_move_legal p si sj ti tj).2.2.board BLACK = false := by
  unfold is_black_move_legal
  dsimp only
  split_ifs with h
  · intro _; exact h.2
  · intro hfalse; exact absurd hfalse (by simp)

/-- The possible position returned by Board::is_black_move_legal is the
simulator's possible position in every case. -/
theorem is_black_move_legal_possible (p : board_state) (si sj ti tj : Int) :
    (is_black_move_legal p si sj ti tj).2.2 = (black_move_sim p si sj ti tj).2.1 := by
  unfold is_black_move_legal
  dsimp only
  split_ifs <;> rfl

/-- C4: legality implies post-move king safety at the validated entry
points.  A move that passes the per-piece geometric/board validation
(the simulator reports move_is_legal) but leaves the mover's own king
in check is rejected: Board::handle_white_move returns "" with the
position untouched, Board::is_black_move_legal returns false without
committing, and Human::handle_black_move returns "" with the position
untouched. -/
theorem C4_self_check_move_rejected :
    (∀ (p : board_state) (si sj ti tj : Int) (cb : Char),
      (white_move_sim p si sj ti tj).1 = true →
      king_is_in_check (white_move_sim p si sj ti tj).2.1.board WHITE = true →
      handle_white_move p si sj ti tj cb = ("", p)) ∧
    (∀ (p : board_state) (si sj ti tj : Int) (cb : Char),
      (black_move_sim p si sj ti tj).1 = true →
      king_is_in_check (black_move_sim p si sj ti tj).2.1.board BLACK = true →
      (is_black_move_legal p si sj ti tj).1 = false ∧
      (is_black_move_legal p si sj ti tj).2.1 = p ∧
      handle_black_move p si sj ti tj cb = ("", p)) := by
  constructor
  · intro p si sj ti tj cb _ h2
    unfold handle_white_move
    dsimp only
    by_cases hocc : bget p.board ti tj > 0
    · simp [hocc]
    · have hcond : ¬((white_move_sim p si sj ti tj).1 = true ∧
          king_is_in_check (white_move_sim p si sj ti tj).2.1.board WHITE = false) := by
        rintro ⟨-, hc⟩
        simp [h2] at hc
      simp [hocc, hcond]
  · intro p si sj ti tj cb h1 h2
    have hb : is_black_move_legal p si sj ti tj =
        (false, p, (black_move_sim p si sj ti tj).2.1) := by
      unfold is_black_move_legal
      dsimp only
      have hcond : ¬((black_move_sim p si sj ti tj).1 = true ∧
          king_is_in_check (black_move_sim p si sj ti tj).2.1.board BLACK = false) := by
        rintro ⟨-, hc⟩
        simp [h2] at hc
      simp [hcond]
    refine ⟨by rw [hb], by rw [hb], ?_⟩
    unfold handle_black_move
    dsimp only
    simp [hb]
theorem C4_self_check_move_rejected_witness :
    (white_move_sim C4wpos 6 4 5 3).1 = true ∧
    king_is_in_check (white_move_sim C4wpos 6 4 5 3).2.1.board WHITE = true ∧
    handle_white_move C4wpos 6 4 5 3 'q' = ("", C4wpos) ∧
    (black_move_sim C4bpos 1 4 2 3).1 = true ∧
    king_is_in_check (black_move_sim C4bpos 1 4 2 3).2.1.board BLACK = true ∧
    handle_black_move C4bpos 1 4 2 3 'q' = ("", C4bpos) :=
  ⟨by decide, by decide,
   C4_self_check_move_rejected.1 C4wpos 6 4 5 3 'q' (by decide) (by decide),
   by decide, by decide,
   (C4_self_check_move_rejected.2 C4bpos 1 4 2 3 'q' (by decide) (by decide)).2.2⟩

/-- C7 amended: (i) a validated white two-square advance commits with
white's en-passant flags cleared except exactly the destination file,
and black's flags untouched; (ii) a validated black two-square advance
through Board::is_black_move_legal commits with black's flags cleared
except exactly the destination file, but ALSO sets white's flag for
that file (the spurious commit write); (iii) a completed
Board::handle_white_move never changes black's flags and a completed
Human::handle_black_move never changes white's flags - so the
advancing side's flag survives the opponent's next handler move; (iv)
the flag is instead cleared by Board::reset_en_passant, which the
engine's move generation runs at entry for the side to move. -/
theorem C7_two_square_advance_flags :
    (∀ (p : board_state) (sj : Int) (cb : Char),
      bget p.board 6 sj = 1 → bget p.board 5 sj = 0 → bget p.board 4 sj = 0 →
      king_is_in_check (move_piece p.board 6 sj 4 sj) WHITE = false →
      (handle_white_move p 6 sj 4 sj cb).2.pawn_two_squares_white =
        fset (allFalse p.pawn_two_squares_white) sj true ∧
      (handle_white_move p 6 sj 4 sj cb).2.pawn_two_squares_black =
        p.pawn_two_squares_black) ∧
    (∀ (p : board_state) (sj : Int),
      bget p.board 1 sj = -1 → bget p.board 2 sj = 0 → bget p.board 3 sj = 0 →
      king_is_in_check (move_piece p.board 1 sj 3 sj) BLACK = false →
      (is_black_move_legal p 1 sj 3 sj).1 = true ∧
      (is_black_move_legal p 1 sj 3 sj).2.1.pawn_two_squares_black =
        fset (allFalse p.pawn_two_squares_black) sj true ∧
      (is_black_move_legal p 1 sj 3 sj).2.1.pawn_two_squares_white =
        fset p.pawn_two_squares_white sj true) ∧
    (∀ (p : board_state) (si sj ti tj : Int) (cb : Char),
      (handle_white_move p si sj ti tj cb).2.pawn_two_squares_black =
        p.pawn_two_squares_black) ∧
    (∀ (p : board_state) (si sj ti tj : Int) (cb : Char),
      (handle_black_move p si sj ti tj cb).2.pawn_two_squares_white =
        p.pawn_two_squares_white) ∧
    (∀ (p : board_state) (i : Int),
      fget (reset_en_passant p WHITE).pawn_two_squares_white i = false ∧
      (reset_en_passant p WHITE).pawn_two_squares_black = p.pawn_two_squares_black ∧
      fget (reset_en_passant p BLACK).pawn_two_squares_black i = false ∧
      (reset_en_passant p BLACK).pawn_two_squares_white = p.pawn_two_squares_white) := by
  refine ⟨?_, ?_, ?_, ?_, ?_⟩
  · intro p sj cb h1 h2 h3 h4
    have hsim : white_move_sim p 6 sj 4 sj =
        (true, { p with board := move_piece p.board 6 sj 4 sj }, false, some sj) := by
      unfold white_move_sim pawn_move
      dsimp only
      norm_num [h1, h2, h3]
    unfold handle_white_move
    dsimp only
    rw [hsim]
    have hocc : ¬bget p.board 4 sj > 0 := by rw [h3]; decide
    simp [hocc, h4]
  · intro p sj h1 h2 h3 h4
    have hsim : black_move_sim p 1 sj 3 sj =
        (true,
          { p with board := move_piece p.board 1 sj 3 sj
                   pawn_two_squares_black :=
                     fset (allFalse p.pawn_two_squares_black) sj true },
          some sj) := by
      unfold black_move_sim
      dsimp only
      norm_num [h1, h2, h3]
    unfold is_black_move_legal
    dsimp only
    rw [hsim]
    simp [h4]
  · intro p si sj ti tj cb
    unfold handle_white_move
    dsimp only
    split_ifs <;>
      simp [white_move_sim_black_flags]
  · intro p si sj ti tj cb
    unfold handle_black_move
    dsimp only
    by_cases hocc : bget p.board ti tj < 0
    · simp [hocc]
    · by_cases hl : (is_black_move_legal p si sj ti tj).1 = false
      · simp [hocc, hl]
      · have hl2 : (is_black_move_legal p si sj ti tj).1 = true := by
          rcases h : (is_black_move_legal p si sj ti tj).1
          · exact absurd h hl
          · rfl
        have hnc := is_black_move_legal_success_no_check p si sj ti tj hl2
        have hposs := is_black_move_legal_possible p si sj ti tj
        simp only [hocc, hl, hnc, if_false, if_neg]
        split_ifs <;> simp [hposs, black_move_sim_white_flags]
  · intro p i
    exact ⟨fget_allFalse _ _, rfl, fget_allFalse _ _, rfl⟩
theorem C7_two_square_advance_flags_witness :
    (handle_white_move startPos 6 4 4 4 'q').2.pawn_two_squares_white =
      fset (allFalse startPos.pawn_two_squares_white) 4 true ∧
    (is_black_move_legal afterE4 1 3 3 3).2.1.pawn_two_squares_white =
      fset afterE4.pawn_two_squares_white 3 true ∧
    (handle_black_move afterE4 0 1 2 2 'q').2.pawn_two_squares_white =
      afterE4.pawn_two_squares_white :=
  ⟨(C7_two_square_advance_flags.1 startPos 4 'q' (by decide) (by decide) (by decide)
      (by decide)).1,
   (C7_two_square_advance_flags.2.1 afterE4 3 (by decide) (by decide) (by decide)
      (by decide)).2.2,
   C7_two_square_advance_flags.2.2.2.1 afterE4 0 1 2 2 'q'⟩

/-- Inserting keeps the list a permutation of the element plus input. -/
theorem insertDesc_perm (x : EngineMove) (l : List EngineMove) :
    List.Perm (insertDesc x l) (x :: l) := by
  induction l with
  | nil => exact List.Perm.refl _
  | cons y ys ih =>
    unfold insertDesc
    split_ifs
    · exact List.Perm.refl _
    · exact (ih.cons y).trans (List.Perm.swap x y ys)

/-- The sorted move list is a permutation of the scored move list. -/
theorem sortDesc_perm (l : List EngineMove) : List.Perm (sortDesc l) l := by
  induction l with
  | nil => exact List.Perm.refl _
  | cons a t ih => exact (insertDesc_perm a (sortDesc t)).trans (ih.cons a)

/-- Inserting preserves descending-eval sortedness. -/
theorem insertDesc_sorted (x : EngineMove) (l : List EngineMove)
    (h : l.Pairwise (fun a b => b.eval ≤ a.eval)) :
    (insertDesc x l).Pairwise (fun a b => b.eval ≤ a.eval) := by
  induction l with
  | nil => simp [insertDesc]
  | cons y ys ih =>
    rw [List.pairwise_cons] at h
    unfold insertDesc
    split_ifs with hlt
    · refine List.Pairwise.cons ?_ (List.Pairwise.cons h.1 h.2)
      intro z hz
      rcases List.mem_cons.mp hz with hz1 | hz2
      · exact hz1 ▸ le_of_lt hlt
      · exact le_trans (h.1 z hz2) (le_of_lt hlt)
    · refine List.Pairwise.cons ?_ (ih h.2)
      intro z hz
      rcases List.mem_cons.mp ((insertDesc_perm x ys).mem_iff.mp hz) with hz1 | hz2
      · exact hz1 ▸ le_of_not_lt hlt
      · exact h.1 z hz2

/-- The sorted move list is sorted by eval descending. -/
theorem sortDesc_sorted (l : List EngineMove) :
    (sortDesc l).Pairwise (fun a b => b.eval ≤ a.eval) := by
  induction l with
  | nil => simp [sortDesc]
  | cons a t ih => exact insertDesc_sorted a (sortDesc t) ih

/-- The top-3 filter appends a subsequence of its input to the
accumulator. -/
theorem pickTopAux_decomp (xs : List EngineMove) :
    ∀ acc, ∃ ys, pickTopAux xs acc = acc ++ ys ∧ ys.Sublist xs := by
  induction xs with
  | nil => intro acc; exact ⟨[], by simp [pickTopAux], List.nil_sublist []⟩
  | cons x xs ih =>
    intro acc
    unfold pickTopAux
    dsimp only
    split_ifs with hq hlen
    · exact ⟨[x], rfl, (List.nil_sublist xs).cons₂ x⟩
    · obtain ⟨ys, h1, h2⟩ := ih (acc ++ [x])
      exact ⟨x :: ys, by simp [h1], h2.cons₂ x⟩
    · obtain ⟨ys, h1, h2⟩ := ih acc
      exact ⟨ys, h1, h2.cons x⟩

/-- The top-3 filter never returns more than three moves. -/
theorem pickTopAux_length (xs : List EngineMove) :
    ∀ acc, acc.length < 3 → (pickTopAux xs acc).length ≤ 3 := by
  induction xs with
  | nil =>
    intro acc h
    unfold pickTopAux
    omega
  | cons x xs ih =>
    intro acc h
    unfold pickTopAux
    dsimp only
    split_ifs with hq hlen
    · omega
    · refine ih (acc ++ [x]) ?_
      have hx : (acc ++ [x]).length = acc.length + 1 := by simp
      omega
    · exact ih acc h

/-- Every move the top-3 filter keeps (beyond the accumulator) passed
the -0.5-pawn threshold. -/
theorem pickTopAux_qual (xs : List EngineMove) :
    ∀ acc, (∀ e ∈ acc, (-50 : Int) ≤ e.eval) →
      ∀ e ∈ pickTopAux xs acc, (-50 : Int) ≤ e.eval := by
  induction xs with
  | nil =>
    intro acc h
    unfold pickTopAux
    exact h
  | cons x xs ih =>
    intro acc h
    have hax : ∀ e ∈ acc ++ [x], (-50 : Int) ≤ e.eval → True := fun _ _ _ => trivial
    unfold pickTopAux
    dsimp only
    split_ifs with hq hlen
    · intro e he
      rcases List.mem_append.mp he with h1 | h1
      · exact h e h1
      · rw [List.mem_singleton.mp h1]
        exact of_decide_eq_true hq
    · refine ih (acc ++ [x]) ?_
      intro e he
      rcases List.mem_append.mp he with h1 | h1
      · exact h e h1
      · rw [List.mem_singleton.mp h1]
        exact of_decide_eq_true hq
    · exact ih acc h

/-- If the top-3 filter keeps nothing at all, every input move failed
the threshold. -/
theorem pickTopAux_nil (xs : List EngineMove) :
    pickTopAux xs [] = [] → ∀ x ∈ xs, x.eval < -50 := by
  induction xs with
  | nil =>
    intro _ y hy
    cases hy
  | cons x xs ih =>
    intro h y hy
    unfold pickTopAux at h
    dsimp only at h
    split_ifs at h with hq hlen
    · cases h
    · obtain ⟨ys, h1, _⟩ := pickTopAux_decomp xs ([] ++ [x])
      rw [h1] at h
      cases h
    · rcases List.mem_cons.mp hy with rfl | hy2
      · exact lt_of_not_le (fun hc => hq (decide_eq_true hc))
      · exact ih h y hy2

/-- When the top-3 filter stops short of three moves it has walked the
whole list, so every input move over the threshold was kept. -/
theorem pickTopAux_complete (xs : List EngineMove) :
    ∀ acc, (pickTopAux xs acc).length < 3 →
      ∀ e ∈ xs, (-50 : Int) ≤ e.eval → e ∈ pickTopAux xs acc := by
  induction xs with
  | nil =>
    intro acc _ e he _
    cases he
  | cons x xs ih =>
    intro acc hlen3 e he hq
    unfold pickTopAux at hlen3 ⊢
    dsimp only at hlen3 ⊢
    split_ifs at hlen3 ⊢ with hxq hl
    · exact absurd hl (Nat.ne_of_lt hlen3)
    · rcases List.mem_cons.mp he with rfl | he2
      · obtain ⟨ys, h1, _⟩ := pickTopAux_decomp xs (acc ++ [e])
        rw [h1]
        exact List.mem_append_left ys (List.mem_append_right acc (List.mem_singleton.mpr rfl))
      · exact ih (acc ++ [x]) hlen3 e he2 hq
    · rcases List.mem_cons.mp he with rfl | he2
      · exact absurd (decide_eq_true hq) hxq
      · exact ih acc hlen3 e he2 hq

/-- On a descending-sorted input every move over the threshold is
either kept by the top-3 filter or scores no better than everything
kept: the filter keeps the top-scoring qualifiers. -/
theorem pickTopAux_top (e : EngineMove) (xs : List EngineMove) :
    ∀ acc, xs.Pairwise (fun a b => b.eval ≤ a.eval) → e ∈ xs → (-50 : Int) ≤ e.eval →
      (∀ a ∈ acc, e.eval ≤ a.eval) →
      e ∈ pickTopAux xs acc ∨ ∀ f ∈ pickTopAux xs acc, e.eval ≤ f.eval := by
  induction xs with
  | nil =>
    intro acc _ he _ _
    cases he
  | cons x xs ih =>
    intro acc hsort he hq hacc
    have hx1 : ∀ b ∈ xs, b.eval ≤ x.eval := (List.pairwise_cons.mp hsort).1
    have hsort2 : xs.Pairwise (fun a b => b.eval ≤ a.eval) := (List.pairwise_cons.mp hsort).2
    unfold pickTopAux
    dsimp only
    rcases List.mem_cons.mp he with rfl | he2
    · rw [if_pos (decide_eq_true hq)]
      split_ifs with hl
      · exact Or.inl (List.mem_append_right acc (List.mem_singleton.mpr rfl))
      · obtain ⟨ys, h1, _⟩ := pickTopAux_decomp xs (acc ++ [e])
        rw [h1]
        exact Or.inl
          (List.mem_append_left ys (List.mem_append_right acc (List.mem_singleton.mpr rfl)))
    · have hex : e.eval ≤ x.eval := hx1 e he2
      split_ifs with hxq hl
      · refine Or.inr ?_
        intro f hf
        rcases List.mem_append.mp hf with h1 | h1
        · exact hacc f h1
        · rw [List.mem_singleton.mp h1]
          exact hex
      · refine ih (acc ++ [x]) hsort2 he2 hq ?_
        intro a ha
        rcases List.mem_append.mp ha with h1 | h1
        · exact hacc a h1
        · rw [List.mem_singleton.mp h1]
          exact hex
      · exact ih acc hsort2 he2 hq hacc

/-- C9: the advisory query's selection logic.  For every position, the
returned list (i) has at most 3 moves, (ii) is sorted by eval
descending, (iii) contains only moves from the scored root enumeration
(all legal white moves, each scored by the (DEPTH-1)-ply alpha-beta
search below it), (iv) consists of TOP-scoring qualifiers: every root
move scoring at least -0.5 pawns (-50 centipawns) is either returned
or scores no better than every returned move, (v) when fewer than 3
moves are returned, every qualifying root move is among them, and
(vi) either consists solely of moves scoring at least -0.5 pawns, or -
when every scored move is below the threshold - is exactly the single
best-scoring move; (vii) it is empty exactly when white has no legal
move. -/
theorem C9_get_best_white_moves_top3 (p : board_state) :
    (get_best_white_moves p).1.length ≤ 3 ∧
    (get_best_white_moves p).1.Pairwise (fun a b => b.eval ≤ a.eval) ∧
    (∀ e ∈ (get_best_white_moves p).1,
      e ∈ whiteRootMoves p (reset_en_passant p WHITE)) ∧
    (∀ e ∈ whiteRootMoves p (reset_en_passant p WHITE), (-50 : Int) ≤ e.eval →
      e ∈ (get_best_white_moves p).1 ∨
      ∀ f ∈ (get_best_white_moves p).1, e.eval ≤ f.eval) ∧
    ((get_best_white_moves p).1.length < 3 →
      ∀ e ∈ whiteRootMoves p (reset_en_passant p WHITE), (-50 : Int) ≤ e.eval →
        e ∈ (get_best_white_moves p).1) ∧
    ((∀ e ∈ (get_best_white_moves p).1, (-50 : Int) ≤ e.eval) ∨
      ((get_best_white_moves p).1 =
        (sortDesc (whiteRootMoves p (reset_en_passant p WHITE))).take 1 ∧
        (∀ e ∈ whiteRootMoves p (reset_en_passant p WHITE), e.eval < -50) ∧
        (∀ f ∈ (get_best_white_moves p).1,
          ∀ e ∈ whiteRootMoves p (reset_en_passant p WHITE), e.eval ≤ f.eval))) ∧
    (whiteRootMoves p (reset_en_passant p WHITE) = [] ↔
      (get_best_white_moves p).1 = []) := by
  obtain ⟨ys, hys, hsub⟩ :=
    pickTopAux_decomp (sortDesc (whiteRootMoves p (reset_en_passant p WHITE))) []
  rw [List.nil_append] at hys
  have hperm := sortDesc_perm (whiteRootMoves p (reset_en_passant p WHITE))
  have hsorted := sortDesc_sorted (whiteRootMoves p (reset_en_passant p WHITE))
  have hmvnil : whiteRootMoves p (reset_en_passant p WHITE) = [] ↔
      sortDesc (whiteRootMoves p (reset_en_passant p WHITE)) = [] := by
    constructor
    · intro h
      rw [h]
      rfl
    · intro h
      have h2 := hperm
      rw [h] at h2
      exact h2.symm.eq_nil
  by_cases hc : pickTopAux (sortDesc (whiteRootMoves p (reset_en_passant p WHITE))) [] = [] ∧
      sortDesc (whiteRootMoves p (reset_en_passant p WHITE)) ≠ []
  · have hr : (get_best_white_moves p).1 =
        (sortDesc (whiteRootMoves p (reset_en_passant p WHITE))).take 1 := by
      unfold get_best_white_moves
      dsimp only
      rw [if_pos hc]
    obtain ⟨f, ft, hml⟩ := List.exists_cons_of_ne_nil hc.2
    have hr2 : (get_best_white_moves p).1 = [f] := by rw [hr, hml]; rfl
    have hall : ∀ e ∈ whiteRootMoves p (reset_en_passant p WHITE), e.eval < -50 := by
      intro e he
      exact pickTopAux_nil _ hc.1 e (hperm.mem_iff.mpr he)
    have hfmem : f ∈ whiteRootMoves p (reset_en_passant p WHITE) := by
      refine hperm.mem_iff.mp ?_
      rw [hml]
      exact List.mem_cons_self f ft
    have hfbest : ∀ e ∈ whiteRootMoves p (reset_en_passant p WHITE), e.eval ≤ f.eval := by
      intro e he
      have hel := hperm.mem_iff.mpr he
      rw [hml] at hel
      rcases List.mem_cons.mp hel with rfl | he2
      · exact le_refl _
      · have hp := hsorted
        rw [hml, List.pairwise_cons] at hp
        exact hp.1 e he2
    refine ⟨by simp [hr2], by simp [hr2], ?_, ?_, ?_, ?_, ?_⟩
    · intro e he
      rw [hr2, List.mem_singleton] at he
      rw [he]
      exact hfmem
    · intro e he hq
      exact absurd hq (not_le_of_lt (hall e he))
    · intro _ e he hq
      exact absurd hq (not_le_of_lt (hall e he))
    · refine Or.inr ⟨hr, hall, ?_⟩
      intro g hg e he
      rw [hr2, List.mem_singleton] at hg
      rw [hg]
      exact hfbest e he
    · constructor
      · intro hmv
        exact absurd (hmvnil.mp hmv) hc.2
      · intro hcontra
        rw [hr2] at hcontra
        cases hcontra
  · have hr : (get_best_white_moves p).1 = ys := by
      unfold get_best_white_moves
      dsimp only
      rw [if_neg hc, hys]
    refine ⟨?_, ?_, ?_, ?_, ?_, ?_, ?_⟩
    · rw [hr, ← hys]
      exact pickTopAux_length (sortDesc (whiteRootMoves p (reset_en_passant p WHITE))) []
        (by simp)
    · rw [hr]
      exact hsorted.sublist hsub
    · intro e he
      rw [hr] at he
      exact hperm.mem_iff.mp (hsub.subset he)
    · intro e he hq
      have htop := pickTopAux_top e (sortDesc (whiteRootMoves p (reset_en_passant p WHITE)))
        [] hsorted (hperm.mem_iff.mpr he) hq (fun a ha => absurd ha (List.not_mem_nil a))
      rw [hys] at htop
      rw [hr]
      exact htop
    · intro hlen e he hq
      rw [hr] at hlen ⊢
      rw [← hys] at hlen ⊢
      exact pickTopAux_complete (sortDesc (whiteRootMoves p (reset_en_passant p WHITE))) []
        hlen e (hperm.mem_iff.mpr he) hq
    · refine Or.inl ?_
      intro e he
      rw [hr] at he
      refine pickTopAux_qual (sortDesc (whiteRootMoves p (reset_en_passant p WHITE))) []
        (by simp) e ?_
      rw [hys]
      exact he
    · constructor
      · intro hmv
        have hml0 := hmvnil.mp hmv
        have hsub2 : ys.Sublist ([] : List EngineMove) := by
          rw [← hml0]
          exact hsub
        rw [hr]
        exact List.sublist_nil.mp hsub2
      · intro hcontra
        rw [hr] at hcontra
        rw [hcontra] at hys
        by_cases hml0 : sortDesc (whiteRootMoves p (reset_en_passant p WHITE)) = []
        · exact hmvnil.mpr hml0
        · exact absurd ⟨hys, hml0⟩ hc

/-! ## C3: the pruned search against the unpruned full minimax -/

/-! ## Fold value lemmas -/

theorem maxfold_ge_init (G : board_state → Int) :
    ∀ (l : List board_state) (s : Int), s ≤ l.foldl (fun t q => max t (G q)) s := by
  intro l
  induction l with
  | nil => intro s; exact le_refl s
  | cons q l ih =>
    intro s
    rw [List.foldl_cons]
    exact le_trans (le_max_left s (G q)) (ih (max s (G q)))

theorem maxfold_ge_mem (G : board_state → Int) :
    ∀ (l : List board_state) (s : Int) (q : board_state), q ∈ l →
      G q ≤ l.foldl (fun t q => max t (G q)) s := by
  intro l
  induction l with
  | nil => intro s q hq; simp at hq
  | cons r l ih =>
    intro s q hq
    rw [List.foldl_cons]
    rcases List.mem_cons.mp hq with h | h
    · subst h
      exact le_trans (le_max_right s (G q)) (maxfold_ge_init G l (max s (G q)))
    · exact ih (max s (G r)) q h

theorem maxfold_le (G : board_state → Int) (c : Int) :
    ∀ (l : List board_state) (s : Int), s ≤ c → (∀ q ∈ l, G q ≤ c) →
      l.foldl (fun t q => max t (G q)) s ≤ c := by
  intro l
  induction l with
  | nil => intro s hs _; exact hs
  | cons r l ih =>
    intro s hs hall
    rw [List.foldl_cons]
    exact ih (max s (G r)) (max_le hs (hall r (List.mem_cons_self r l)))
      (fun q hq => hall q (List.mem_cons_of_mem r hq))

theorem maxfold_cases (G : board_state → Int) :
    ∀ (l : List board_state) (s : Int),
      l.foldl (fun t q => max t (G q)) s = s ∨
      ∃ q, q ∈ l ∧ l.foldl (fun t q => max t (G q)) s = G q := by
  intro l
  induction l with
  | nil => intro s; exact Or.inl rfl
  | cons r l ih =>
    intro s
    rw [List.foldl_cons]
    rcases ih (max s (G r)) with h | ⟨q, hq, he⟩
    · rcases max_choice s (G r) with hm | hm
      · exact Or.inl (h.trans hm)
      · exact Or.inr ⟨r, List.mem_cons_self r l, h.trans hm⟩
    · exact Or.inr ⟨q, List.mem_cons_of_mem r hq, he⟩

theorem minfold_le_init (G : board_state → Int) :
    ∀ (l : List board_state) (s : Int), l.foldl (fun t q => min t (G q)) s ≤ s := by
  intro l
  induction l with
  | nil => intro s; exact le_refl s
  | cons q l ih =>
    intro s
    rw [List.foldl_cons]
    exact le_trans (ih (min s (G q))) (min_le_left s (G q))

theorem minfold_le_mem (G : board_state → Int) :
    ∀ (l : List board_state) (s : Int) (q : board_state), q ∈ l →
      l.foldl (fun t q => min t (G q)) s ≤ G q := by
  intro l
  induction l with
  | nil => intro s q hq; simp at hq
  | cons r l ih =>
    intro s q hq
    rw [List.foldl_cons]
    rcases List.mem_cons.mp hq with h | h
    · subst h
      exact le_trans (minfold_le_init G l (min s (G q))) (min_le_right s (G q))
    · exact ih (min s (G r)) q h

theorem minfold_ge (G : board_state → Int) (c : Int) :
    ∀ (l : List board_state) (s : Int), c ≤ s → (∀ q ∈ l, c ≤ G q) →
      c ≤ l.foldl (fun t q => min t (G q)) s := by
  intro l
  induction l with
  | nil => intro s hs _; exact hs
  | cons r l ih =>
    intro s hs hall
    rw [List.foldl_cons]
    exact ih (min s (G r)) (le_min hs (hall r (List.mem_cons_self r l)))
      (fun q hq => hall q (List.mem_cons_of_mem r hq))

theorem minfold_cases (G : board_state → Int) :
    ∀ (l : List board_state) (s : Int),
      l.foldl (fun t q => min t (G q)) s = s ∨
      ∃ q, q ∈ l ∧ l.foldl (fun t q => min t (G q)) s = G q := by
  intro l
  induction l with
  | nil => intro s; exact Or.inl rfl
  | cons r l ih =>
    intro s
    rw [List.foldl_cons]
    rcases ih (min s (G r)) with h | ⟨q, hq, he⟩
    · rcases min_choice s (G r) with hm | hm
      · exact Or.inl (h.trans hm)
      · exact Or.inr ⟨r, List.mem_cons_self r l, h.trans hm⟩
    · exact Or.inr ⟨q, List.mem_cons_of_mem r hq, he⟩

/-! ## Invariant shapes of the pruned loops -/

def StopInvMax (alpha0 beta : Int) (st : Int × Bool) : Prop :=
  st.2 = true → beta ≤ max alpha0 st.1

def StopInvMin (alpha beta0 : Int) (st : Int × Bool) : Prop :=
  st.2 = true → min beta0 st.1 ≤ alpha

def ChildKMmax (F : board_state → Int → Int) (G : board_state → Int) (beta : Int) : Prop :=
  ∀ (q : board_state) (a : Int), INT_MIN ≤ a → a < beta →
    (G q ≤ a → F q a ≤ a) ∧ (beta ≤ G q → beta ≤ F q a) ∧
    (a < G q → G q < beta → F q a = G q)

def ChildKMmin (F : board_state → Int → Int) (G : board_state → Int) (alpha : Int) : Prop :=
  ∀ (q : board_state) (b : Int), b ≤ INT_MAX → alpha < b →
    (G q ≤ alpha → F q b ≤ alpha) ∧ (b ≤ G q → b ≤ F q b) ∧
    (alpha < G q → G q < b → F q b = G q)

/-! ## Monotonicity of the maximizing processors -/

theorem stepMax_fst_mono (F : board_state → Int → Int) (a0 b : Int)
    (st : Int × Bool) (q : board_state) : st.1 ≤ (stepMax F a0 b st q).1 := by
  unfold stepMax
  split
  · exact le_refl _
  · exact le_max_left _ _

theorem foldl_stepMax_fst_mono (F : board_state → Int → Int) (a0 b : Int) :
    ∀ (l : List board_state) (st : Int × Bool),
      st.1 ≤ (l.foldl (stepMax F a0 b) st).1 := by
  intro l
  induction l with
  | nil => intro st; exact le_refl _
  | cons q l ih =>
    intro st
    rw [List.foldl_cons]
    exact le_trans (stepMax_fst_mono F a0 b st q) (ih (stepMax F a0 b st q))

theorem procItemMax_fst_mono (F : board_state → Int → Int) (a0 b : Int)
    (st : Int × Bool) (it : Item) : st.1 ≤ (procItemMax F a0 b st it).1 := by
  cases it with
  | mv q => exact stepMax_fst_mono F a0 b st q
  | grp l =>
    rw [show procItemMax F a0 b st (Item.grp l) =
      (if st.2 then st else ((l.foldl (stepMax F a0 b) (st.1, false)).1, false)) from rfl]
    split_ifs with h2
    · exact le_refl _
    · exact foldl_stepMax_fst_mono F a0 b l (st.1, false)

theorem foldl_procItemMax_fst_mono (F : board_state → Int → Int) (a0 b : Int) :
    ∀ (row : List Item) (st : Int × Bool),
      st.1 ≤ (row.foldl (procItemMax F a0 b) st).1 := by
  intro row
  induction row with
  | nil => intro st; exact le_refl _
  | cons it row ih =>
    intro st
    rw [List.foldl_cons]
    exact le_trans (procItemMax_fst_mono F a0 b st it) (ih (procItemMax F a0 b st it))

theorem procRowMax_mono (F : board_state → Int → Int) (a0 b : Int)
    (s : Int) (row : List Item) : s ≤ procRowMax F a0 b s row := by
  unfold procRowMax
  exact foldl_procItemMax_fst_mono F a0 b row (s, false)

theorem foldl_procRowMax_mono (F : board_state → Int → Int) (a0 b : Int) :
    ∀ (rows : List (List Item)) (s : Int),
      s ≤ rows.foldl (procRowMax F a0 b) s := by
  intro rows
  induction rows with
  | nil => intro s; exact le_refl _
  | cons row rows ih =>
    intro s
    rw [List.foldl_cons]
    exact le_trans (procRowMax_mono F a0 b s row) (ih (procRowMax F a0 b s row))

theorem procRowsMax_ge (F : board_state → Int → Int) (a0 b : Int)
    (rows : List (List Item)) : INT_MIN ≤ procRowsMax F a0 b rows := by
  unfold procRowsMax
  exact foldl_procRowMax_mono F a0 b rows INT_MIN

/-! ## Absolute upper bound of the maximizing processors -/

theorem stepMax_fst_le_abs (F : board_state → Int → Int) (a0 b B : Int)
    (hF : ∀ (q : board_state) (a : Int), F q a ≤ B) (st : Int × Bool) (q : board_state)
    (hst : st.1 ≤ B) : (stepMax F a0 b st q).1 ≤ B := by
  unfold stepMax
  split
  · exact hst
  · exact max_le hst (hF q (max a0 st.1))

theorem foldl_stepMax_fst_le_abs (F : board_state → Int → Int) (a0 b B : Int)
    (hF : ∀ (q : board_state) (a : Int), F q a ≤ B) :
    ∀ (l : List board_state) (st : Int × Bool), st.1 ≤ B →
      (l.foldl (stepMax F a0 b) st).1 ≤ B := by
  intro l
  induction l with
  | nil => intro st hst; exact hst
  | cons q l ih =>
    intro st hst
    rw [List.foldl_cons]
    exact ih (stepMax F a0 b st q) (stepMax_fst_le_abs F a0 b B hF st q hst)

theorem procItemMax_fst_le_abs (F : board_state → Int → Int) (a0 b B : Int)
    (hF : ∀ (q : board_state) (a : Int), F q a ≤ B) (st : Int × Bool) (it : Item)
    (hst : st.1 ≤ B) : (procItemMax F a0 b st it).1 ≤ B := by
  cases it with
  | mv q => exact stepMax_fst_le_abs F a0 b B hF st q hst
  | grp l =>
    rw [show procItemMax F a0 b st (Item.grp l) =
      (if st.2 then st else ((l.foldl (stepMax F a0 b) (st.1, false)).1, false)) from rfl]
    split_ifs with h2
    · exact hst
    · exact foldl_stepMax_fst_le_abs F a0 b B hF l (st.1, false) hst

theorem foldl_procItemMax_fst_le_abs (F : board_state → Int → Int) (a0 b B : Int)
    (hF : ∀ (q : board_state) (a : Int), F q a ≤ B) :
    ∀ (row : List Item) (st : Int × Bool), st.1 ≤ B →
      (row.foldl (procItemMax F a0 b) st).1 ≤ B := by
  intro row
  induction row with
  | nil => intro st hst; exact hst
  | cons it row ih =>
    intro st hst
    rw [List.foldl_cons]
    exact ih (procItemMax F a0 b st it) (procItemMax_fst_le_abs F a0 b B hF st it hst)

theorem foldl_procRowMax_le_abs (F : board_state → Int → Int) (a0 b B : Int)
    (hF : ∀ (q : board_state) (a : Int), F q a ≤ B) :
    ∀ (rows : List (List Item)) (s : Int), s ≤ B →
      rows.foldl (procRowMax F a0 b) s ≤ B := by
  intro rows
  induction rows with
  | nil => intro s hs; exact hs
  | cons row rows ih =>
    intro s hs
    rw [List.foldl_cons]
    exact ih (procRowMax F a0 b s row)
      (foldl_procItemMax_fst_le_abs F a0 b B hF row (s, false) hs)

theorem procRowsMax_le_abs (F : board_state → Int → Int) (a0 b B : Int)
    (hF : ∀ (q : board_state) (a : Int), F q a ≤ B) (hB : INT_MIN ≤ B)
    (rows : List (List Item)) : procRowsMax F a0 b rows ≤ B := by
  unfold procRowsMax
  exact foldl_procRowMax_le_abs F a0 b B hF rows INT_MIN hB

/-! ## Stop-flag invariant of the maximizing processors -/

theorem stepMax_stopinv (F : board_state → Int → Int) (a0 b : Int)
    (st : Int × Bool) (q : board_state) (h : StopInvMax a0 b st) :
    StopInvMax a0 b (stepMax F a0 b st q) := by
  unfold stepMax
  split
  · exact h
  · intro hf
    exact of_decide_eq_true hf

theorem foldl_stepMax_stopinv (F : board_state → Int → Int) (a0 b : Int) :
    ∀ (l : List board_state) (st : Int × Bool), StopInvMax a0 b st →
      StopInvMax a0 b (l.foldl (stepMax F a0 b) st) := by
  intro l
  induction l with
  | nil => intro st h; exact h
  | cons q l ih =>
    intro st h
    rw [List.foldl_cons]
    exact ih (stepMax F a0 b st q) (stepMax_stopinv F a0 b st q h)

theorem procItemMax_stopinv (F : board_state → Int → Int) (a0 b : Int)
    (st : Int × Bool) (it : Item) (h : StopInvMax a0 b st) :
    StopInvMax a0 b (procItemMax F a0 b st it) := by
  cases it with
  | mv q => exact stepMax_stopinv F a0 b st q h
  | grp l =>
    rw [show procItemMax F a0 b st (Item.grp l) =
      (if st.2 then st else ((l.foldl (stepMax F a0 b) (st.1, false)).1, false)) from rfl]
    split_ifs with h2
    · exact h
    · intro hf
      simp at hf

/-! ## Windowed upper bound: with every subtree value at most B < beta,
the running score stays at most B (fail-low / exact-upper direction). -/

theorem stepMax_fst_le_w (F : board_state → Int → Int) (G : board_state → Int)
    (a0 b B : Int) (hC : ChildKMmax F G b) (hmin : INT_MIN ≤ a0) (ha : a0 ≤ B)
    (hB : B < b) (st : Int × Bool) (q : board_state) (hq : G q ≤ B)
    (hst : st.1 ≤ B) : (stepMax F a0 b st q).1 ≤ B := by
  unfold stepMax
  split
  · exact hst
  · have haB : max a0 st.1 ≤ B := max_le ha hst
    have hm : INT_MIN ≤ max a0 st.1 := le_trans hmin (le_max_left a0 st.1)
    obtain ⟨h1, _, h3⟩ := hC q (max a0 st.1) hm (lt_of_le_of_lt haB hB)
    by_cases hg : G q ≤ max a0 st.1
    · exact max_le hst (le_trans (h1 hg) haB)
    · have hg2 : max a0 st.1 < G q := lt_of_not_le hg
      have hF : F q (max a0 st.1) = G q := h3 hg2 (lt_of_le_of_lt hq hB)
      show max st.1 (F q (max a0 st.1)) ≤ B
      rw [hF]
      exact max_le hst hq

theorem foldl_stepMax_fst_le_w (F : board_state → Int → Int) (G : board_state → Int)
    (a0 b B : Int) (hC : ChildKMmax F G b) (hmin : INT_MIN ≤ a0) (ha : a0 ≤ B)
    (hB : B < b) :
    ∀ (l : List board_state) (st : Int × Bool), (∀ q ∈ l, G q ≤ B) → st.1 ≤ B →
      (l.foldl (stepMax F a0 b) st).1 ≤ B := by
  intro l
  induction l with
  | nil => intro st _ hst; exact hst
  | cons q l ih =>
    intro st hall hst
    rw [List.foldl_cons]
    exact ih (stepMax F a0 b st q) (fun r hr => hall r (List.mem_cons_of_mem q hr))
      (stepMax_fst_le_w F G a0 b B hC hmin ha hB st q (hall q (List.mem_cons_self q l)) hst)

theorem procItemMax_fst_le_w (F : board_state → Int → Int) (G : board_state → Int)
    (a0 b B : Int) (hC : ChildKMmax F G b) (hmin : INT_MIN ≤ a0) (ha : a0 ≤ B)
    (hB : B < b) (st : Int × Bool) (it : Item) (hall : ∀ q ∈ itemBoards it, G q ≤ B)
    (hst : st.1 ≤ B) : (procItemMax F a0 b st it).1 ≤ B := by
  cases it with
  | mv q =>
    exact stepMax_fst_le_w F G a0 b B hC hmin ha hB st q
      (hall q (List.mem_cons_self q [])) hst
  | grp l =>
    rw [show procItemMax F a0 b st (Item.grp l) =
      (if st.2 then st else ((l.foldl (stepMax F a0 b) (st.1, false)).1, false)) from rfl]
    split_ifs with h2
    · exact hst
    · exact foldl_stepMax_fst_le_w F G a0 b B hC hmin ha hB l (st.1, false) hall hst

theorem foldl_procItemMax_fst_le_w (F : board_state → Int → Int) (G : board_state → Int)
    (a0 b B : Int) (hC : ChildKMmax F G b) (hmin : INT_MIN ≤ a0) (ha : a0 ≤ B)
    (hB : B < b) :
    ∀ (row : List Item) (st : Int × Bool),
      (∀ q ∈ row.flatMap itemBoards, G q ≤ B) → st.1 ≤ B →
      (row.foldl (procItemMax F a0 b) st).1 ≤ B := by
  intro row
  induction row with
  | nil => intro st _ hst; exact hst
  | cons it row ih =>
    intro st hall hst
    rw [List.foldl_cons]
    refine ih (procItemMax F a0 b st it) (fun q hq => hall q ?_) ?_
    · rw [List.flatMap_cons]
      exact List.mem_append_right _ hq
    · refine procItemMax_fst_le_w F G a0 b B hC hmin ha hB st it (fun q hq => hall q ?_) hst
      rw [List.flatMap_cons]
      exact List.mem_append_left _ hq

theorem foldl_procRowMax_le_w (F : board_state → Int → Int) (G : board_state → Int)
    (a0 b B : Int) (hC : ChildKMmax F G b) (hmin : INT_MIN ≤ a0) (ha : a0 ≤ B)
    (hB : B < b) :
    ∀ (rows : List (List Item)) (s : Int),
      (∀ q ∈ flatRows rows, G q ≤ B) → s ≤ B →
      rows.foldl (procRowMax F a0 b) s ≤ B := by
  intro rows
  induction rows with
  | nil => intro s _ hs; exact hs
  | cons row rows ih =>
    intro s hall hs
    rw [List.foldl_cons]
    refine ih (procRowMax F a0 b s row) (fun q hq => hall q ?_) ?_
    · unfold flatRows
      rw [List.flatMap_cons]
      exact List.mem_append_right _ hq
    · refine foldl_procItemMax_fst_le_w F G a0 b B hC hmin ha hB row (s, false)
        (fun q hq => hall q ?_) hs
      unfold flatRows
      rw [List.flatMap_cons]
      exact List.mem_append_left _ hq

theorem procRowsMax_le_w (F : board_state → Int → Int) (G : board_state → Int)
    (a0 b B : Int) (hC : ChildKMmax F G b) (hmin : INT_MIN ≤ a0) (ha : a0 ≤ B)
    (hB : B < b) (rows : List (List Item)) (hall : ∀ q ∈ flatRows rows, G q ≤ B) :
    procRowsMax F a0 b rows ≤ B := by
  unfold procRowsMax
  exact foldl_procRowMax_le_w F G a0 b B hC hmin ha hB rows INT_MIN hall
    (le_trans hmin ha)

/-! ## Lower bound: once one subtree value exceeds alpha0, the node's
result reaches min beta (that value), even across partial breaks. -/

theorem foldl_stepMax_lb (F : board_state → Int → Int) (G : board_state → Int)
    (a0 b : Int) (qs : board_state) (hC : ChildKMmax F G b) (hmin : INT_MIN ≤ a0)
    (hab : a0 < b) (hqs : a0 < G qs) :
    ∀ (l : List board_state) (st : Int × Bool), qs ∈ l → StopInvMax a0 b st →
      min b (G qs) ≤ (l.foldl (stepMax F a0 b) st).1 := by
  intro l
  induction l with
  | nil => intro st hmem _; simp at hmem
  | cons q l ih =>
    intro st hmem hinv
    rw [List.foldl_cons]
    by_cases hstop : st.2 = true
    · have hbs : b ≤ st.1 := by
        rcases le_max_iff.mp (hinv hstop) with h | h
        · exact absurd h (not_le_of_lt hab)
        · exact h
      have hskip : stepMax F a0 b st q = st := by
        unfold stepMax
        rw [if_pos hstop]
      rw [hskip]
      exact le_trans (min_le_left b (G qs))
        (le_trans hbs (foldl_stepMax_fst_mono F a0 b l st))
    · rcases List.mem_cons.mp hmem with hq | hq
      · subst hq
        refine le_trans ?_ (foldl_stepMax_fst_mono F a0 b l (stepMax F a0 b st qs))
        have hstep : (stepMax F a0 b st qs).1 = max st.1 (F qs (max a0 st.1)) := by
          unfold stepMax
          rw [if_neg hstop]
        rw [hstep]
        by_cases hba : b ≤ max a0 st.1
        · have hbs : b ≤ st.1 := by
            rcases le_max_iff.mp hba with h | h
            · exact absurd h (not_le_of_lt hab)
            · exact h
          exact le_trans (min_le_left b (G qs)) (le_trans hbs (le_max_left _ _))
        · have hba2 : max a0 st.1 < b := lt_of_not_le hba
          have hm : INT_MIN ≤ max a0 st.1 := le_trans hmin (le_max_left a0 st.1)
          obtain ⟨_, h2, h3⟩ := hC qs (max a0 st.1) hm hba2
          by_cases hgb : b ≤ G qs
          · exact le_trans (min_le_left b (G qs))
              (le_trans (h2 hgb) (le_max_right _ _))
          · have hgb2 : G qs < b := lt_of_not_le hgb
            by_cases hga : G qs ≤ max a0 st.1
            · have hgs : G qs ≤ st.1 := by
                rcases max_cases a0 st.1 with ⟨he, _⟩ | ⟨he, hle⟩
                · rw [he] at hga
                  exact absurd hqs (not_lt_of_le hga)
                · rw [he] at hga
                  exact hga
              exact le_trans (min_le_right b (G qs)) (le_trans hgs (le_max_left _ _))
            · have hga2 : max a0 st.1 < G qs := lt_of_not_le hga
              rw [h3 hga2 hgb2]
              exact le_trans (min_le_right b (G qs)) (le_max_right _ _)
      · exact ih (stepMax F a0 b st q) hq (stepMax_stopinv F a0 b st q hinv)

theorem procItemMax_lb (F : board_state → Int → Int) (G : board_state → Int)
    (a0 b : Int) (qs : board_state) (hC : ChildKMmax F G b) (hmin : INT_MIN ≤ a0)
    (hab : a0 < b) (hqs : a0 < G qs) (st : Int × Bool) (it : Item)
    (hmem : qs ∈ itemBoards it) (hinv : StopInvMax a0 b st) :
    min b (G qs) ≤ (procItemMax F a0 b st it).1 := by
  cases it with
  | mv q =>
    exact foldl_stepMax_lb F G a0 b qs hC hmin hab hqs [q] st hmem hinv
  | grp l =>
    rw [show procItemMax F a0 b st (Item.grp l) =
      (if st.2 then st else ((l.foldl (stepMax F a0 b) (st.1, false)).1, false)) from rfl]
    split_ifs with h2
    · have hbs : b ≤ st.1 := by
        rcases le_max_iff.mp (hinv h2) with h | h
        · exact absurd h (not_le_of_lt hab)
        · exact h
      exact le_trans (min_le_left b (G qs)) hbs
    · refine foldl_stepMax_lb F G a0 b qs hC hmin hab hqs l (st.1, false) hmem ?_
      intro hf
      simp at hf

theorem foldl_procItemMax_lb (F : board_state → Int → Int) (G : board_state → Int)
    (a0 b : Int) (qs : board_state) (hC : ChildKMmax F G b) (hmin : INT_MIN ≤ a0)
    (hab : a0 < b) (hqs : a0 < G qs) :
    ∀ (row : List Item) (st : Int × Bool), qs ∈ row.flatMap itemBoards →
      StopInvMax a0 b st → min b (G qs) ≤ (row.foldl (procItemMax F a0 b) st).1 := by
  intro row
  induction row with
  | nil => intro st hmem _; simp at hmem
  | cons it row ih =>
    intro st hmem hinv
    rw [List.foldl_cons]
    rw [List.flatMap_cons] at hmem
    rcases List.mem_append.mp hmem with hq | hq
    · exact le_trans (procItemMax_lb F G a0 b qs hC hmin hab hqs st it hq hinv)
        (foldl_procItemMax_fst_mono F a0 b row (procItemMax F a0 b st it))
    · exact ih (procItemMax F a0 b st it) hq (procItemMax_stopinv F a0 b st it hinv)

theorem foldl_procRowMax_lb (F : board_state → Int → Int) (G : board_state → Int)
    (a0 b : Int) (qs : board_state) (hC : ChildKMmax F G b) (hmin : INT_MIN ≤ a0)
    (hab : a0 < b) (hqs : a0 < G qs) :
    ∀ (rows : List (List Item)) (s : Int), qs ∈ flatRows rows →
      min b (G qs) ≤ rows.foldl (procRowMax F a0 b) s := by
  intro rows
  induction rows with
  | nil => intro s hmem; simp [flatRows] at hmem
  | cons row rows ih =>
    intro s hmem
    rw [List.foldl_cons]
    unfold flatRows at hmem
    rw [List.flatMap_cons] at hmem
    rcases List.mem_append.mp hmem with hq | hq
    · refine le_trans ?_ (foldl_procRowMax_mono F a0 b rows (procRowMax F a0 b s row))
      refine foldl_procItemMax_lb F G a0 b qs hC hmin hab hqs row (s, false) hq ?_
      intro hf
      simp at hf
    · exact ih (procRowMax F a0 b s row) hq

theorem procRowsMax_lb (F : board_state → Int → Int) (G : board_state → Int)
    (a0 b : Int) (qs : board_state) (hC : ChildKMmax F G b) (hmin : INT_MIN ≤ a0)
    (hab : a0 < b) (hqs : a0 < G qs) (rows : List (List Item))
    (hmem : qs ∈ flatRows rows) : min b (G qs) ≤ procRowsMax F a0 b rows := by
  unfold procRowsMax
  exact foldl_procRowMax_lb F G a0 b qs hC hmin hab hqs rows INT_MIN hmem

/-! ## Knuth-Moore property of a full maximizing node -/

theorem procRowsMax_km (F : board_state → Int → Int) (G : board_state → Int)
    (a0 b v : Int) (rows : List (List Item)) (hC : ChildKMmax F G b)
    (hmin : INT_MIN ≤ a0) (hab : a0 < b)
    (hv : v = (flatRows rows).foldl (fun t q => max t (G q)) INT_MIN) :
    (v ≤ a0 → procRowsMax F a0 b rows ≤ a0) ∧
    (b ≤ v → b ≤ procRowsMax F a0 b rows) ∧
    (a0 < v → v < b → procRowsMax F a0 b rows = v) := by
  refine ⟨?_, ?_, ?_⟩
  · intro h
    refine procRowsMax_le_w F G a0 b a0 hC hmin (le_refl a0) hab rows ?_
    intro q hq
    refine le_trans ?_ h
    rw [hv]
    exact maxfold_ge_mem G (flatRows rows) INT_MIN q hq
  · intro h
    rcases maxfold_cases G (flatRows rows) INT_MIN with hcase | ⟨qs, hqmem, hqeq⟩
    · rw [← hv] at hcase
      rw [hcase] at h
      exact absurd (lt_of_le_of_lt h (lt_of_le_of_lt hmin hab)) (lt_irrefl b)
    · rw [← hv] at hqeq
      have hqa : a0 < G qs := by
        rw [← hqeq]
        exact lt_of_lt_of_le hab h
      have := procRowsMax_lb F G a0 b qs hC hmin hab hqa rows hqmem
      rw [← hqeq] at this
      calc b = min b v := (min_eq_left h).symm
        _ ≤ procRowsMax F a0 b rows := this
  · intro h1 h2
    refine le_antisymm ?_ ?_
    · refine procRowsMax_le_w F G a0 b v hC hmin (le_of_lt h1) h2 rows ?_
      intro q hq
      rw [hv]
      exact maxfold_ge_mem G (flatRows rows) INT_MIN q hq
    · rcases maxfold_cases G (flatRows rows) INT_MIN with hcase | ⟨qs, hqmem, hqeq⟩
      · rw [← hv] at hcase
        rw [hcase] at h1
        exact absurd (lt_of_le_of_lt hmin h1) (lt_irrefl INT_MIN)
      · rw [← hv] at hqeq
        have hqa : a0 < G qs := by
          rw [← hqeq]
          exact h1
        have := procRowsMax_lb F G a0 b qs hC hmin hab hqa rows hqmem
        rw [← hqeq] at this
        calc v = min b v := (min_eq_right (le_of_lt h2)).symm
          _ ≤ procRowsMax F a0 b rows := this

/-! ## Minimizing-side duals -/

theorem stepMin_fst_anti (F : board_state → Int → Int) (a b0 : Int)
    (st : Int × Bool) (q : board_state) : (stepMin F a b0 st q).1 ≤ st.1 := by
  unfold stepMin
  split
  · exact le_refl _
  · exact min_le_left _ _

theorem foldl_stepMin_fst_anti (F : board_state → Int → Int) (a b0 : Int) :
    ∀ (l : List board_state) (st : Int × Bool),
      (l.foldl (stepMin F a b0) st).1 ≤ st.1 := by
  intro l
  induction l with
  | nil => intro st; exact le_refl _
  | cons q l ih =>
    intro st
    rw [List.foldl_cons]
    exact le_trans (ih (stepMin F a b0 st q)) (stepMin_fst_anti F a b0 st q)

theorem procItemMin_fst_anti (F : board_state → Int → Int) (a b0 : Int)
    (st : Int × Bool) (it : Item) : (procItemMin F a b0 st it).1 ≤ st.1 := by
  cases it with
  | mv q => exact stepMin_fst_anti F a b0 st q
  | grp l =>
    rw [show procItemMin F a b0 st (Item.grp l) =
      (if st.2 then st else ((l.foldl (stepMin F a b0) (st.1, false)).1, false)) from rfl]
    split_ifs with h2
    · exact le_refl _
    · exact foldl_stepMin_fst_anti F a b0 l (st.1, false)

theorem foldl_procItemMin_fst_anti (F : board_state → Int → Int) (a b0 : Int) :
    ∀ (row : List Item) (st : Int × Bool),
      (row.foldl (procItemMin F a b0) st).1 ≤ st.1 := by
  intro row
  induction row with
  | nil => intro st; exact le_refl _
  | cons it row ih =>
    intro st
    rw [List.foldl_cons]
    exact le_trans (ih (procItemMin F a b0 st it)) (procItemMin_fst_anti F a b0 st it)

theorem procRowMin_anti (F : board_state → Int → Int) (a b0 : Int)
    (s : Int) (row : List Item) : procRowMin F a b0 s row ≤ s := by
  unfold procRowMin
  exact foldl_procItemMin_fst_anti F a b0 row (s, false)

theorem foldl_procRowMin_anti (F : board_state → Int → Int) (a b0 : Int) :
    ∀ (rows : List (List Item)) (s : Int),
      rows.foldl (procRowMin F a b0) s ≤ s := by
  intro rows
  induction rows with
  | nil => intro s; exact le_refl _
  | cons row rows ih =>
    intro s
    rw [List.foldl_cons]
    exact le_trans (ih (procRowMin F a b0 s row)) (procRowMin_anti F a b0 s row)

theorem procRowsMin_le (F : board_state → Int → Int) (a b0 : Int)
    (rows : List (List Item)) : procRowsMin F a b0 rows ≤ INT_MAX := by
  unfold procRowsMin
  exact foldl_procRowMin_anti F a b0 rows INT_MAX

theorem stepMin_fst_ge_abs (F : board_state → Int → Int) (a b0 B : Int)
    (hF : ∀ (q : board_state) (b : Int), B ≤ F q b) (st : Int × Bool) (q : board_state)
    (hst : B ≤ st.1) : B ≤ (stepMin F a b0 st q).1 := by
  unfold stepMin
  split
  · exact hst
  · exact le_min hst (hF q (min b0 st.1))

theorem foldl_stepMin_fst_ge_abs (F : board_state → Int → Int) (a b0 B : Int)
    (hF : ∀ (q : board_state) (b : Int), B ≤ F q b) :
    ∀ (l : List board_state) (st : Int × Bool), B ≤ st.1 →
      B ≤ (l.foldl (stepMin F a b0) st).1 := by
  intro l
  induction l with
  | nil => intro st hst; exact hst
  | cons q l ih =>
    intro st hst
    rw [List.foldl_cons]
    exact ih (stepMin F a b0 st q) (stepMin_fst_ge_abs F a b0 B hF st q hst)

theorem procItemMin_fst_ge_abs (F : board_state → Int → Int) (a b0 B : Int)
    (hF : ∀ (q : board_state) (b : Int), B ≤ F q b) (st : Int × Bool) (it : Item)
    (hst : B ≤ st.1) : B ≤ (procItemMin F a b0 st it).1 := by
  cases it with
  | mv q => exact stepMin_fst_ge_abs F a b0 B hF st q hst
  | grp l =>
    rw [show procItemMin F a b0 st (Item.grp l) =
      (if st.2 then st else ((l.foldl (stepMin F a b0) (st.1, false)).1, false)) from rfl]
    split_ifs with h2
    · exact hst
    · exact foldl_stepMin_fst_ge_abs F a b0 B hF l (st.1, false) hst

theorem foldl_procItemMin_fst_ge_abs (F : board_state → Int → Int) (a b0 B : Int)
    (hF : ∀ (q : board_state) (b : Int), B ≤ F q b) :
    ∀ (row : List Item) (st : Int × Bool), B ≤ st.1 →
      B ≤ (row.foldl (procItemMin F a b0) st).1 := by
  intro row
  induction row with
  | nil => intro st hst; exact hst
  | cons it row ih =>
    intro st hst
    rw [List.foldl_cons]
    exact ih (procItemMin F a b0 st it) (procItemMin_fst_ge_abs F a b0 B hF st it hst)

theorem foldl_procRowMin_ge_abs (F : board_state → Int → Int) (a b0 B : Int)
    (hF : ∀ (q : board_state) (b : Int), B ≤ F q b) :
    ∀ (rows : List (List Item)) (s : Int), B ≤ s →
      B ≤ rows.foldl (procRowMin F a b0) s := by
  intro rows
  induction rows with
  | nil => intro s hs; exact hs
  | cons row rows ih =>
    intro s hs
    rw [List.foldl_cons]
    exact ih (procRowMin F a b0 s row)
      (foldl_procItemMin_fst_ge_abs F a b0 B hF row (s, false) hs)

theorem procRowsMin_ge_abs (F : board_state → Int → Int) (a b0 B : Int)
    (hF : ∀ (q : board_state) (b : Int), B ≤ F q b) (hB : B ≤ INT_MAX)
    (rows : List (List Item)) : B ≤ procRowsMin F a b0 rows := by
  unfold procRowsMin
  exact foldl_procRowMin_ge_abs F a b0 B hF rows INT_MAX hB

theorem stepMin_stopinv (F : board_state → Int → Int) (a b0 : Int)
    (st : Int × Bool) (q : board_state) (h : StopInvMin a b0 st) :
    StopInvMin a b0 (stepMin F a b0 st q) := by
  unfold stepMin
  split
  · exact h
  · intro hf
    exact of_decide_eq_true hf

theorem foldl_stepMin_stopinv (F : board_state → Int → Int) (a b0 : Int) :
    ∀ (l : List board_state) (st : Int × Bool), StopInvMin a b0 st →
      StopInvMin a b0 (l.foldl (stepMin F a b0) st) := by
  intro l
  induction l with
  | nil => intro st h; exact h
  | cons q l ih =>
    intro st h
    rw [List.foldl_cons]
    exact ih (stepMin F a b0 st q) (stepMin_stopinv F a b0 st q h)

theorem procItemMin_stopinv (F : board_state → Int → Int) (a b0 : Int)
    (st : Int × Bool) (it : Item) (h : StopInvMin a b0 st) :
    StopInvMin a b0 (procItemMin F a b0 st it) := by
  cases it with
  | mv q => exact stepMin_stopinv F a b0 st q h
  | grp l =>
    rw [show procItemMin F a b0 st (Item.grp l) =
      (if st.2 then st else ((l.foldl (stepMin F a b0) (st.1, false)).1, false)) from rfl]
    split_ifs with h2
    · exact h
    · intro hf
      simp at hf

theorem stepMin_fst_ge_w (F : board_state → Int → Int) (G : board_state → Int)
    (a b0 B : Int) (hC : ChildKMmin F G a) (hmax : b0 ≤ INT_MAX) (hb : B ≤ b0)
    (hB : a < B) (st : Int × Bool) (q : board_state) (hq : B ≤ G q)
    (hst : B ≤ st.1) : B ≤ (stepMin F a b0 st q).1 := by
  unfold stepMin
  split
  · exact hst
  · have hbB : B ≤ min b0 st.1 := le_min hb hst
    have hm : min b0 st.1 ≤ INT_MAX := le_trans (min_le_left b0 st.1) hmax
    obtain ⟨_, h2, h3⟩ := hC q (min b0 st.1) hm (lt_of_lt_of_le hB hbB)
    by_cases hg : min b0 st.1 ≤ G q
    · exact le_min hst (le_trans hbB (h2 hg))
    · have hg2 : G q < min b0 st.1 := lt_of_not_le hg
      have hF : F q (min b0 st.1) = G q := h3 (lt_of_lt_of_le hB hq) hg2
      show B ≤ min st.1 (F q (min b0 st.1))
      rw [hF]
      exact le_min hst hq

theorem foldl_stepMin_fst_ge_w (F : board_state → Int → Int) (G : board_state → Int)
    (a b0 B : Int) (hC : ChildKMmin F G a) (hmax : b0 ≤ INT_MAX) (hb : B ≤ b0)
    (hB : a < B) :
    ∀ (l : List board_state) (st : Int × Bool), (∀ q ∈ l, B ≤ G q) → B ≤ st.1 →
      B ≤ (l.foldl (stepMin F a b0) st).1 := by
  intro l
  induction l with
  | nil => intro st _ hst; exact hst
  | cons q l ih =>
    intro st hall hst
    rw [List.foldl_cons]
    exact ih (stepMin F a b0 st q) (fun r hr => hall r (List.mem_cons_of_mem q hr))
      (stepMin_fst_ge_w F G a b0 B hC hmax hb hB st q (hall q (List.mem_cons_self q l)) hst)

theorem procItemMin_fst_ge_w (F : board_state → Int → Int) (G : board_state → Int)
    (a b0 B : Int) (hC : ChildKMmin F G a) (hmax : b0 ≤ INT_MAX) (hb : B ≤ b0)
    (hB : a < B) (st : Int × Bool) (it : Item) (hall : ∀ q ∈ itemBoards it, B ≤ G q)
    (hst : B ≤ st.1) : B ≤ (procItemMin F a b0 st it).1 := by
  cases it with
  | mv q =>
    exact stepMin_fst_ge_w F G a b0 B hC hmax hb hB st q
      (hall q (List.mem_cons_self q [])) hst
  | grp l =>
    rw [show procItemMin F a b0 st (Item.grp l) =
      (if st.2 then st else ((l.foldl (stepMin F a b0) (st.1, false)).1, false)) from rfl]
    split_ifs with h2
    · exact hst
    · exact foldl_stepMin_fst_ge_w F G a b0 B hC hmax hb hB l (st.1, false) hall hst

theorem foldl_procItemMin_fst_ge_w (F : board_state → Int → Int) (G : board_state → Int)
    (a b0 B : Int) (hC : ChildKMmin F G a) (hmax : b0 ≤ INT_MAX) (hb : B ≤ b0)
    (hB : a < B) :
    ∀ (row : List Item) (st : Int × Bool),
      (∀ q ∈ row.flatMap itemBoards, B ≤ G q) → B ≤ st.1 →
      B ≤ (row.foldl (procItemMin F a b0) st).1 := by
  intro row
  induction row with
  | nil => intro st _ hst; exact hst
  | cons it row ih =>
    intro st hall hst
    rw [List.foldl_cons]
    refine ih (procItemMin F a b0 st it) (fun q hq => hall q ?_) ?_
    · rw [List.flatMap_cons]
      exact List.mem_append_right _ hq
    · refine procItemMin_fst_ge_w F G a b0 B hC hmax hb hB st it (fun q hq => hall q ?_) hst
      rw [List.flatMap_cons]
      exact List.mem_append_left _ hq

theorem foldl_procRowMin_ge_w (F : board_state → Int → Int) (G : board_state → Int)
    (a b0 B : Int) (hC : ChildKMmin F G a) (hmax : b0 ≤ INT_MAX) (hb : B ≤ b0)
    (hB : a < B) :
    ∀ (rows : List (List Item)) (s : Int),
      (∀ q ∈ flatRows rows, B ≤ G q) → B ≤ s →
      B ≤ rows.foldl (procRowMin F a b0) s := by
  intro rows
  induction rows with
  | nil => intro s _ hs; exact hs
  | cons row rows ih =>
    intro s hall hs
    rw [List.foldl_cons]
    refine ih (procRowMin F a b0 s row) (fun q hq => hall q ?_) ?_
    · unfold flatRows
      rw [List.flatMap_cons]
      exact List.mem_append_right _ hq
    · refine foldl_procItemMin_fst_ge_w F G a b0 B hC hmax hb hB row (s, false)
        (fun q hq => hall q ?_) hs
      unfold flatRows
      rw [List.flatMap_cons]
      exact List.mem_append_left _ hq

theorem procRowsMin_ge_w (F : board_state → Int → Int) (G : board_state → Int)
    (a b0 B : Int) (hC : ChildKMmin F G a) (hmax : b0 ≤ INT_MAX) (hb : B ≤ b0)
    (hB : a < B) (rows : List (List Item)) (hall : ∀ q ∈ flatRows rows, B ≤ G q) :
    B ≤ procRowsMin F a b0 rows := by
  unfold procRowsMin
  exact foldl_procRowMin_ge_w F G a b0 B hC hmax hb hB rows INT_MAX hall
    (le_trans hb hmax)

theorem foldl_stepMin_ub (F : board_state → Int → Int) (G : board_state → Int)
    (a b0 : Int) (qs : board_state) (hC : ChildKMmin F G a) (hmax : b0 ≤ INT_MAX)
    (hab : a < b0) (hqs : G qs < b0) :
    ∀ (l : List board_state) (st : Int × Bool), qs ∈ l → StopInvMin a b0 st →
      (l.foldl (stepMin F a b0) st).1 ≤ max a (G qs) := by
  intro l
  induction l with
  | nil => intro st hmem _; simp at hmem
  | cons q l ih =>
    intro st hmem hinv
    rw [List.foldl_cons]
    by_cases hstop : st.2 = true
    · have hsa : st.1 ≤ a := by
        rcases min_le_iff.mp (hinv hstop) with h | h
        · exact absurd h (not_le_of_lt hab)
        · exact h
      have hskip : stepMin F a b0 st q = st := by
        unfold stepMin
        rw [if_pos hstop]
      rw [hskip]
      exact le_trans (foldl_stepMin_fst_anti F a b0 l st)
        (le_trans hsa (le_max_left a (G qs)))
    · rcases List.mem_cons.mp hmem with hq | hq
      · subst hq
        refine le_trans (foldl_stepMin_fst_anti F a b0 l (stepMin F a b0 st qs)) ?_
        have hstep : (stepMin F a b0 st qs).1 = min st.1 (F qs (min b0 st.1)) := by
          unfold stepMin
          rw [if_neg hstop]
        rw [hstep]
        by_cases hba : min b0 st.1 ≤ a
        · have hsa : st.1 ≤ a := by
            rcases min_le_iff.mp hba with h | h
            · exact absurd h (not_le_of_lt hab)
            · exact h
          exact le_trans (min_le_left _ _) (le_trans hsa (le_max_left a (G qs)))
        · have hba2 : a < min b0 st.1 := lt_of_not_le hba
          have hm : min b0 st.1 ≤ INT_MAX := le_trans (min_le_left b0 st.1) hmax
          obtain ⟨h1, _, h3⟩ := hC qs (min b0 st.1) hm hba2
          by_cases hgb : min b0 st.1 ≤ G qs
          · have hgs : st.1 ≤ G qs := by
              rcases min_cases b0 st.1 with ⟨he, _⟩ | ⟨he, hle⟩
              · rw [he] at hgb
                exact absurd hqs (not_lt_of_le hgb)
              · rw [he] at hgb
                exact hgb
            exact le_trans (min_le_left _ _) (le_trans hgs (le_max_right a (G qs)))
          · have hgb2 : G qs < min b0 st.1 := lt_of_not_le hgb
            by_cases hga : G qs ≤ a
            · exact le_trans (min_le_right _ _) (le_trans (h1 hga) (le_max_left a (G qs)))
            · have hga2 : a < G qs := lt_of_not_le hga
              rw [h3 hga2 hgb2]
              exact le_trans (min_le_right _ _) (le_max_right a (G qs))
      · exact ih (stepMin F a b0 st q) hq (stepMin_stopinv F a b0 st q hinv)

theorem procItemMin_ub (F : board_state → Int → Int) (G : board_state → Int)
    (a b0 : Int) (qs : board_state) (hC : ChildKMmin F G a) (hmax : b0 ≤ INT_MAX)
    (hab : a < b0) (hqs : G qs < b0) (st : Int × Bool) (it : Item)
    (hmem : qs ∈ itemBoards it) (hinv : StopInvMin a b0 st) :
    (procItemMin F a b0 st it).1 ≤ max a (G qs) := by
  cases it with
  | mv q =>
    exact foldl_stepMin_ub F G a b0 qs hC hmax hab hqs [q] st hmem hinv
  | grp l =>
    rw [show procItemMin F a b0 st (Item.grp l) =
      (if st.2 then st else ((l.foldl (stepMin F a b0) (st.1, false)).1, false)) from rfl]
    split_ifs with h2
    · have hsa : st.1 ≤ a := by
        rcases min_le_iff.mp (hinv h2) with h | h
        · exact absurd h (not_le_of_lt hab)
        · exact h
      exact le_trans hsa (le_max_left a (G qs))
    · refine foldl_stepMin_ub F G a b0 qs hC hmax hab hqs l (st.1, false) hmem ?_
      intro hf
      simp at hf

theorem foldl_procItemMin_ub (F : board_state → Int → Int) (G : board_state → Int)
    (a b0 : Int) (qs : board_state) (hC : ChildKMmin F G a) (hmax : b0 ≤ INT_MAX)
    (hab : a < b0) (hqs : G qs < b0) :
    ∀ (row : List Item) (st : Int × Bool), qs ∈ row.flatMap itemBoards →
      StopInvMin a b0 st → (row.foldl (procItemMin F a b0) st).1 ≤ max a (G qs) := by
  intro row
  induction row with
  | nil => intro st hmem _; simp at hmem
  | cons it row ih =>
    intro st hmem hinv
    rw [List.foldl_cons]
    rw [List.flatMap_cons] at hmem
    rcases List.mem_append.mp hmem with hq | hq
    · exact le_trans (foldl_procItemMin_fst_anti F a b0 row (procItemMin F a b0 st it))
        (procItemMin_ub F G a b0 qs hC hmax hab hqs st it hq hinv)
    · exact ih (procItemMin F a b0 st it) hq (procItemMin_stopinv F a b0 st it hinv)

theorem foldl_procRowMin_ub (F : board_state → Int → Int) (G : board_state → Int)
    (a b0 : Int) (qs : board_state) (hC : ChildKMmin F G a) (hmax : b0 ≤ INT_MAX)
    (hab : a < b0) (hqs : G qs < b0) :
    ∀ (rows : List (List Item)) (s : Int), qs ∈ flatRows rows →
      rows.foldl (procRowMin F a b0) s ≤ max a (G qs) := by
  intro rows
  induction rows with
  | nil => intro s hmem; simp [flatRows] at hmem
  | cons row rows ih =>
    intro s hmem
    rw [List.foldl_cons]
    unfold flatRows at hmem
    rw [List.flatMap_cons] at hmem
    rcases List.mem_append.mp hmem with hq | hq
    · refine le_trans (foldl_procRowMin_anti F a b0 rows (procRowMin F a b0 s row)) ?_
      refine foldl_procItemMin_ub F G a b0 qs hC hmax hab hqs row (s, false) hq ?_
      intro hf
      simp at hf
    · exact ih (procRowMin F a b0 s row) hq

theorem procRowsMin_ub (F : board_state → Int → Int) (G : board_state → Int)
    (a b0 : Int) (qs : board_state) (hC : ChildKMmin F G a) (hmax : b0 ≤ INT_MAX)
    (hab : a < b0) (hqs : G qs < b0) (rows : List (List Item))
    (hmem : qs ∈ flatRows rows) : procRowsMin F a b0 rows ≤ max a (G qs) := by
  unfold procRowsMin
  exact foldl_procRowMin_ub F G a b0 qs hC hmax hab hqs rows INT_MAX hmem

/-! ## Knuth-Moore property of a full minimizing node -/

theorem procRowsMin_km (F : board_state → Int → Int) (G : board_state → Int)
    (a b0 v : Int) (rows : List (List Item)) (hC : ChildKMmin F G a)
    (hmax : b0 ≤ INT_MAX) (hab : a < b0)
    (hv : v = (flatRows rows).foldl (fun t q => min t (G q)) INT_MAX) :
    (v ≤ a → procRowsMin F a b0 rows ≤ a) ∧
    (b0 ≤ v → b0 ≤ procRowsMin F a b0 rows) ∧
    (a < v → v < b0 → procRowsMin F a b0 rows = v) := by
  refine ⟨?_, ?_, ?_⟩
  · intro h
    rcases minfold_cases G (flatRows rows) INT_MAX with hcase | ⟨qs, hqmem, hqeq⟩
    · rw [← hv] at hcase
      rw [hcase] at h
      exact absurd (lt_of_le_of_lt h (lt_of_lt_of_le hab hmax)) (lt_irrefl INT_MAX)
    · rw [← hv] at hqeq
      have hqb : G qs < b0 := by
        rw [← hqeq]
        exact lt_of_le_of_lt h hab
      have := procRowsMin_ub F G a b0 qs hC hmax hab hqb rows hqmem
      rw [← hqeq] at this
      calc procRowsMin F a b0 rows ≤ max a v := this
        _ = a := max_eq_left h
  · intro h
    refine procRowsMin_ge_w F G a b0 b0 hC hmax (le_refl b0) hab rows ?_
    intro q hq
    refine le_trans h ?_
    rw [hv]
    exact minfold_le_mem G (flatRows rows) INT_MAX q hq
  · intro h1 h2
    refine le_antisymm ?_ ?_
    · rcases minfold_cases G (flatRows rows) INT_MAX with hcase | ⟨qs, hqmem, hqeq⟩
      · rw [← hv] at hcase
        rw [hcase] at h2
        exact absurd (lt_of_lt_of_le h2 hmax) (lt_irrefl INT_MAX)
      · rw [← hv] at hqeq
        have hqb : G qs < b0 := by
          rw [← hqeq]
          exact h2
        have := procRowsMin_ub F G a b0 qs hC hmax hab hqb rows hqmem
        rw [← hqeq] at this
        calc procRowsMin F a b0 rows ≤ max a v := this
          _ = v := max_eq_right (le_of_lt h1)
    · refine procRowsMin_ge_w F G a b0 v hC hmax (le_of_lt h2) h1 rows ?_
      intro q hq
      rw [hv]
      exact minfold_le_mem G (flatRows rows) INT_MAX q hq

/-! ## The joint Knuth-Moore induction -/

theorem adv_minimax_km (d : Nat) :
    ∀ (p : board_state) (mx : Bool) (a b : Int),
      INT_MIN ≤ a → b ≤ INT_MAX → a < b →
      (minimax p d mx ≤ a → adv_minimax p d mx a b ≤ a) ∧
      (b ≤ minimax p d mx → b ≤ adv_minimax p d mx a b) ∧
      (a < minimax p d mx → minimax p d mx < b → adv_minimax p d mx a b = minimax p d mx) := by
  induction d with
  | zero =>
    intro p mx a b _ _ _
    have he : adv_minimax p 0 mx a b = minimax p 0 mx := rfl
    rw [he]
    exact ⟨fun h => h, fun h => h, fun _ _ => rfl⟩
  | succ d ih =>
    intro p mx a b hmin hmax hab
    by_cases hover : game_is_over p = true
    · have h1 : adv_minimax p (d + 1) mx a b = evaluate p ((d : Nat) + 1 : Nat) := by
        simp [adv_minimax, hover]
      have h2 : minimax p (d + 1) mx = evaluate p ((d : Nat) + 1 : Nat) := by
        simp [minimax, hover]
      rw [h1, h2]
      exact ⟨fun h => h, fun h => h, fun _ _ => rfl⟩
    · cases mx with
      | true =>
        have hC : ChildKMmax (fun q a2 => adv_minimax q d false a2 b)
            (fun q => minimax q d false) b := by
          intro q a2 hm hlt
          exact ih q false a2 b hm hmax hlt
        have h1 : adv_minimax p (d + 1) true a b =
            procRowsMax (fun q a2 => adv_minimax q d false a2 b) a b
              (whiteAdvRows (reset_en_passant p WHITE)) := by
          simp [adv_minimax, hover]
        have h2 : minimax p (d + 1) true =
            (flatRows (whiteAdvRows (reset_en_passant p WHITE))).foldl
              (fun s q => max s (minimax q d false)) INT_MIN := by
          simp [minimax, hover]
        rw [h1, h2]
        exact procRowsMax_km (fun q a2 => adv_minimax q d false a2 b)
          (fun q => minimax q d false) a b _ _ hC hmin hab rfl
      | false =>
        have hC : ChildKMmin (fun q b2 => adv_minimax q d true a b2)
            (fun q => minimax q d true) a := by
          intro q b2 hm hlt
          exact ih q true a b2 hmin hm hlt
        have h1 : adv_minimax p (d + 1) false a b =
            procRowsMin (fun q b2 => adv_minimax q d true a b2) a b
              (blackAdvRows (reset_en_passant p BLACK)) := by
          simp [adv_minimax, hover]
        have h2 : minimax p (d + 1) false =
            (flatRows (blackAdvRows (reset_en_passant p BLACK))).foldl
              (fun s q => min s (minimax q d true)) INT_MAX := by
          simp [minimax, hover]
        rw [h1, h2]
        exact procRowsMin_km (fun q b2 => adv_minimax q d true a b2)
          (fun q => minimax q d true) a b _ _ hC hmax hab rfl

/-! ## Bounds on the static evaluation -/

theorem getD_eq_or_mem {α : Type} (l : List α) :
    ∀ (n : Nat) (d : α), l.getD n d = d ∨ l.getD n d ∈ l := by
  induction l with
  | nil => intro n d; left; simp
  | cons a l ih =>
    intro n d
    cases n with
    | zero =>
      rw [List.getD_cons_zero]
      exact Or.inr (List.mem_cons_self a l)
    | succ n =>
      rw [List.getD_cons_succ]
      rcases ih n d with h | h
      · exact Or.inl h
      · exact Or.inr (List.mem_cons_of_mem a h)

theorem bget_bound (t : Grid) (c : Int) (hc : 0 ≤ c)
    (h : ∀ r ∈ t, ∀ x ∈ r, -c ≤ x ∧ x ≤ c) (m n : Int) :
    -c ≤ bget t m n ∧ bget t m n ≤ c := by
  unfold bget
  split_ifs with hin
  · rcases getD_eq_or_mem t m.toNat [] with hr | hr
    · rw [hr, List.getD_nil]
      constructor <;> linarith
    · rcases getD_eq_or_mem (t.getD m.toNat []) n.toNat 0 with hx | hx
      · rw [hx]
        constructor <;> linarith
      · exact h _ hr _ hx
  · constructor <;> linarith

theorem b2i_bound (c : Bool) : 0 ≤ b2i c ∧ b2i c ≤ 1 := by
  cases c <;> simp [b2i]

theorem add_b2i_le (x y : Int) (c : Bool) (h : x ≤ y) : x + b2i c ≤ y + 1 := by
  cases c <;> simp [b2i] <;> linarith

theorem add_b2i_ge (x y : Int) (c : Bool) (h : y ≤ x) : y ≤ x + b2i c := by
  cases c <;> simp [b2i] <;> linarith

theorem mob_ray_bound (b : Grid) (cond : Int → Bool) (di dj : Int) :
    ∀ (fuel : Nat) (ri rj : Int), 0 ≤ mob_ray b cond di dj fuel ri rj ∧
      mob_ray b cond di dj fuel ri rj ≤ (fuel : Int) := by
  intro fuel
  induction fuel with
  | zero =>
    intro ri rj
    rw [show mob_ray b cond di dj 0 ri rj = 0 from rfl]
    constructor
    · exact le_refl 0
    · simp
  | succ f ih =>
    intro ri rj
    rw [show mob_ray b cond di dj (f + 1) ri rj =
      (if 0 ≤ ri ∧ ri < 8 ∧ 0 ≤ rj ∧ rj < 8 then
        b2i (cond (bget b ri rj)) +
        (if bget b ri rj ≠ 0 then 0 else mob_ray b cond di dj f (ri + di) (rj + dj))
      else 0) from rfl]
    split_ifs with hin hocc
    · have hb := b2i_bound (cond (bget b ri rj))
      constructor
      · linarith [hb.1]
      · push_cast
        linarith [hb.2]
    · have hb := b2i_bound (cond (bget b ri rj))
      have hr := ih (ri + di) (rj + dj)
      constructor
      · linarith [hb.1, hr.1]
      · push_cast
        push_cast at hr
        linarith [hb.2, hr.2]
    · constructor
      · exact le_refl 0
      · positivity

theorem foldl_add_bound {α : Type} (f : α → Int) (c : Int) :
    ∀ (l : List α), (∀ x ∈ l, 0 ≤ f x ∧ f x ≤ c) →
      ∀ t : Int, t ≤ l.foldl (fun u x => u + f x) t ∧
        l.foldl (fun u x => u + f x) t ≤ t + c * l.length := by
  intro l
  induction l with
  | nil =>
    intro _ t
    constructor
    · exact le_refl t
    · simp
  | cons a l ih =>
    intro hall t
    rw [List.foldl_cons]
    have ha := hall a (List.mem_cons_self a l)
    have hr := ih (fun x hx => hall x (List.mem_cons_of_mem a hx)) (t + f a)
    constructor
    · linarith [hr.1, ha.1]
    · have := hr.2
      rw [List.length_cons]
      push_cast
      push_cast at this
      linarith [ha.2]

theorem getD_set_self (v d : Int) : ∀ (l : List Int) (n : Nat),
    (l.set n v).getD n d = if n < l.length then v else d := by
  intro l
  induction l with
  | nil =>
    intro n
    simp
  | cons a l ih =>
    intro n
    cases n with
    | zero => simp
    | succ n =>
      rw [List.set_cons_succ, List.getD_cons_succ, ih n]
      simp [Nat.succ_lt_succ_iff]

theorem getD_set_ne (v d : Int) : ∀ (l : List Int) (n m : Nat), n ≠ m →
    (l.set n v).getD m d = l.getD m d := by
  intro l
  induction l with
  | nil =>
    intro n m _
    simp
  | cons a l ih =>
    intro n m hnm
    cases n with
    | zero =>
      cases m with
      | zero => exact absurd rfl hnm
      | succ m => rw [List.set_cons_zero, List.getD_cons_succ, List.getD_cons_succ]
    | succ n =>
      cases m with
      | zero => rw [List.set_cons_succ, List.getD_cons_zero, List.getD_cons_zero]
      | succ m =>
        rw [List.set_cons_succ, List.getD_cons_succ, List.getD_cons_succ]
        exact ih n m (fun he => hnm (congrArg Nat.succ he))

theorem iget_nonneg_k (f : List Int) (k : Int)
    (h : ∀ i : Int, 0 ≤ iget f i ∧ iget f i ≤ k) : 0 ≤ k :=
  le_trans (h 0).1 (h 0).2

theorem iget_iinc_bound (f : List Int) (k j : Int)
    (h : ∀ i : Int, 0 ≤ iget f i ∧ iget f i ≤ k) :
    ∀ i : Int, 0 ≤ iget (iinc f j) i ∧ iget (iinc f j) i ≤ k + 1 := by
  have hk : 0 ≤ k := iget_nonneg_k f k h
  intro i
  unfold iinc
  split_ifs with hj
  · unfold iget
    split_ifs with hi
    · by_cases hij : i.toNat = j.toNat
      · rw [hij, getD_set_self]
        split_ifs with hlen
        · have hjv : iget f j = f.getD j.toNat 0 := by
            unfold iget
            rw [if_pos hj]
          have := h j
          rw [hjv] at this
          constructor <;> linarith [this.1, this.2]
        · constructor <;> linarith
      · rw [getD_set_ne _ _ f j.toNat i.toNat (fun he => hij (he.symm))]
        have hiv : iget f i = f.getD i.toNat 0 := by
          unfold iget
          rw [if_pos hi]
        have := h i
        rw [hiv] at this
        constructor <;> linarith [this.1, this.2]
    · constructor <;> linarith
  · have := h i
    constructor <;> linarith [this.1, this.2]

/-- Invariant of the evaluator's board pass after k squares. -/
def AccBound (a : EvalAcc) (k : Int) : Prop :=
  -(950 * k) ≤ a.score ∧ a.score ≤ 950 * k ∧
  0 ≤ a.lmw ∧ a.lmw ≤ 32 * k ∧ 0 ≤ a.lmb ∧ a.lmb ≤ 32 * k ∧
  0 ≤ a.wk_i ∧ a.wk_i ≤ 7 ∧ 0 ≤ a.wk_j ∧ a.wk_j ≤ 7 ∧
  0 ≤ a.bk_i ∧ a.bk_i ≤ 7 ∧ 0 ≤ a.bk_j ∧ a.bk_j ≤ 7 ∧
  (∀ i : Int, 0 ≤ iget a.wfiles i ∧ iget a.wfiles i ≤ k) ∧
  (∀ i : Int, 0 ≤ iget a.bfiles i ∧ iget a.bfiles i ≤ k)

theorem zeros8_getD (n : Nat) : ([0, 0, 0, 0, 0, 0, 0, 0] : List Int).getD n 0 = 0 := by
  rcases getD_eq_or_mem ([0, 0, 0, 0, 0, 0, 0, 0] : List Int) n 0 with h | h
  · exact h
  · simp only [List.mem_cons, List.not_mem_nil, or_false] at h
    rcases h with h | h | h | h | h | h | h | h <;> exact h

theorem accInit_bound : AccBound EvalAcc.init 0 := by
  unfold AccBound EvalAcc.init
  refine ⟨by norm_num, by norm_num, le_refl 0, le_refl 0, le_refl 0, le_refl 0,
    le_refl 0, by norm_num, le_refl 0, by norm_num, le_refl 0, by norm_num,
    le_refl 0, by norm_num, ?_, ?_⟩ <;>
  · intro i
    unfold iget
    split_ifs with hi
    · rw [zeros8_getD]
      exact ⟨le_refl 0, le_refl 0⟩
    · exact ⟨le_refl 0, le_refl 0⟩

theorem evalSquare_bound (p : board_state) (acc : EvalAcc) (mn : Int × Int) (k : Int)
    (hm1 : 0 ≤ mn.1) (hm2 : mn.1 ≤ 7) (hn1 : 0 ≤ mn.2) (hn2 : mn.2 ≤ 7)
    (h : AccBound acc k) : AccBound (evalSquare p acc mn) (k + 1) := by
  obtain ⟨hs1, hs2, hlw1, hlw2, hlb1, hlb2, hwki1, hwki2, hwkj1, hwkj2,
    hbki1, hbki2, hbkj1, hbkj2, hwf, hbf⟩ := h
  unfold evalSquare
  dsimp only
  generalize bget p.board mn.1 mn.2 = v
  by_cases h1 : v = 1
  · rw [if_pos h1]
    unfold AccBound
    dsimp only
    have ht := bget_bound PAWN_TABLE_WHITE 50 (by norm_num) (by decide) mn.1 mn.2
    refine ⟨by linarith [ht.1], by linarith [ht.2], ?_, ?_, hlb1, by linarith,
      hwki1, hwki2, hwkj1, hwkj2, hbki1, hbki2, hbkj1, hbkj2,
      iget_iinc_bound acc.wfiles k mn.2 hwf,
      fun i => ⟨(hbf i).1, by linarith [(hbf i).2]⟩⟩
    · exact le_trans hlw1 (add_b2i_ge _ _ _ (add_b2i_ge _ _ _ (add_b2i_ge _ _ _
        (add_b2i_ge _ _ _ (add_b2i_ge _ _ _ (add_b2i_ge _ _ _ (le_refl acc.lmw)))))))
    · refine le_trans (add_b2i_le _ _ _ (add_b2i_le _ _ _ (add_b2i_le _ _ _
        (add_b2i_le _ _ _ (add_b2i_le _ _ _ (add_b2i_le _ _ _ hlw2)))))) ?_
      linarith
  · rw [if_neg h1]
    by_cases h2 : v = 2
    · rw [if_pos h2]
      unfold AccBound
      dsimp only
      have ht := bget_bound KNIGHT_TABLE_WHITE 50 (by norm_num) (by decide) mn.1 mn.2
      have hkl : ((knight_move.length : Nat) : Int) = 8 := by decide
      refine ⟨by linarith [ht.1], by linarith [ht.2], ?_, ?_, hlb1, by linarith,
        hwki1, hwki2, hwkj1, hwkj2, hbki1, hbki2, hbkj1, hbkj2,
        fun i => ⟨(hwf i).1, by linarith [(hwf i).2]⟩,
        fun i => ⟨(hbf i).1, by linarith [(hbf i).2]⟩⟩
      · exact add_nonneg hlw1
          (foldl_add_bound _ 1 knight_move (fun x hx => b2i_bound _) 0).1
      · refine le_trans (add_le_add hlw2
          (foldl_add_bound _ 1 knight_move (fun x hx => b2i_bound _) 0).2) ?_
        rw [hkl]
        linarith
    · rw [if_neg h2]
      by_cases h3 : v = 3
      · rw [if_pos h3]
        unfold AccBound
        dsimp only
        have ht := bget_bound BISHOP_TABLE_WHITE 50 (by norm_num) (by decide) mn.1 mn.2
        have hkl : ((bishop_direction.length : Nat) : Int) = 4 := by decide
        refine ⟨by linarith [ht.1], by linarith [ht.2], ?_, ?_, hlb1, by linarith,
          hwki1, hwki2, hwkj1, hwkj2, hbki1, hbki2, hbkj1, hbkj2,
          fun i => ⟨(hwf i).1, by linarith [(hwf i).2]⟩,
          fun i => ⟨(hbf i).1, by linarith [(hbf i).2]⟩⟩
        · exact add_nonneg hlw1
            (foldl_add_bound _ 8 bishop_direction (fun x hx =>
              ⟨(mob_ray_bound p.board (fun z => decide (z ≤ 0)) x.1 x.2 8 (mn.1 + x.1) (mn.2 + x.2)).1,
               le_trans (mob_ray_bound p.board (fun z => decide (z ≤ 0)) x.1 x.2 8 (mn.1 + x.1) (mn.2 + x.2)).2
                 (by decide)⟩) 0).1
        · refine le_trans (add_le_add hlw2
            (foldl_add_bound _ 8 bishop_direction (fun x hx =>
              ⟨(mob_ray_bound p.board (fun z => decide (z ≤ 0)) x.1 x.2 8 (mn.1 + x.1) (mn.2 + x.2)).1,
               le_trans (mob_ray_bound p.board (fun z => decide (z ≤ 0)) x.1 x.2 8 (mn.1 + x.1) (mn.2 + x.2)).2
                 (by decide)⟩) 0).2) ?_
          rw [hkl]
          linarith
      · rw [if_neg h3]
        by_cases h4 : v = 4
        · rw [if_pos h4]
          unfold AccBound
          dsimp only
          have ht := bget_bound ROOK_TABLE_WHITE 50 (by norm_num) (by decide) mn.1 mn.2
          have hkl : ((rook_direction.length : Nat) : Int) = 4 := by decide
          refine ⟨by linarith [ht.1], by linarith [ht.2], ?_, ?_, hlb1, by linarith,
            hwki1, hwki2, hwkj1, hwkj2, hbki1, hbki2, hbkj1, hbkj2,
            fun i => ⟨(hwf i).1, by linarith [(hwf i).2]⟩,
            fun i => ⟨(hbf i).1, by linarith [(hbf i).2]⟩⟩
          · exact add_nonneg hlw1
              (foldl_add_bound _ 8 rook_direction (fun x hx =>
                ⟨(mob_ray_bound p.board (fun z => decide (z ≤ 0)) x.1 x.2 8 (mn.1 + x.1) (mn.2 + x.2)).1,
                 le_trans (mob_ray_bound p.board (fun z => decide (z ≤ 0)) x.1 x.2 8 (mn.1 + x.1) (mn.2 + x.2)).2
                   (by decide)⟩) 0).1
          · refine le_trans (add_le_add hlw2
              (foldl_add_bound _ 8 rook_direction (fun x hx =>
                ⟨(mob_ray_bound p.board (fun z => decide (z ≤ 0)) x.1 x.2 8 (mn.1 + x.1) (mn.2 + x.2)).1,
                 le_trans (mob_ray_bound p.board (fun z => decide (z ≤ 0)) x.1 x.2 8 (mn.1 + x.1) (mn.2 + x.2)).2
                   (by decide)⟩) 0).2) ?_
            rw [hkl]
            linarith
        · rw [if_neg h4]
          by_cases h5 : v = 5
          · rw [if_pos h5]
            unfold AccBound
            dsimp only
            have ht := bget_bound QUEEN_TABLE_WHITE 50 (by norm_num) (by decide) mn.1 mn.2
            exact ⟨by linarith [ht.1], by linarith [ht.2], hlw1, by linarith, hlb1, by linarith,
              hwki1, hwki2, hwkj1, hwkj2, hbki1, hbki2, hbkj1, hbkj2,
              fun i => ⟨(hwf i).1, by linarith [(hwf i).2]⟩,
              fun i => ⟨(hbf i).1, by linarith [(hbf i).2]⟩⟩
          · rw [if_neg h5]
            by_cases h6 : v = 6
            · rw [if_pos h6]
              unfold AccBound
              dsimp only
              have hkl : ((every_direction.length : Nat) : Int) = 8 := by decide
              refine ⟨by linarith, by linarith, ?_, ?_, hlb1, by linarith,
                hm1, hm2, hn1, hn2, hbki1, hbki2, hbkj1, hbkj2,
                fun i => ⟨(hwf i).1, by linarith [(hwf i).2]⟩,
                fun i => ⟨(hbf i).1, by linarith [(hbf i).2]⟩⟩
              · exact add_nonneg hlw1
                  (foldl_add_bound _ 1 every_direction (fun x hx => b2i_bound _) 0).1
              · refine le_trans (add_le_add hlw2
                  (foldl_add_bound _ 1 every_direction (fun x hx => b2i_bound _) 0).2) ?_
                rw [hkl]
                linarith
            · rw [if_neg h6]
              by_cases h7 : v = -1
              · rw [if_pos h7]
                unfold AccBound
                dsimp only
                have ht := bget_bound PAWN_TABLE_BLACK 50 (by norm_num) (by decide) mn.1 mn.2
                refine ⟨by linarith [ht.1], by linarith [ht.2], hlw1, by linarith, ?_, ?_,
                  hwki1, hwki2, hwkj1, hwkj2, hbki1, hbki2, hbkj1, hbkj2,
                  fun i => ⟨(hwf i).1, by linarith [(hwf i).2]⟩,
                  iget_iinc_bound acc.bfiles k mn.2 hbf⟩
                · exact le_trans hlb1 (add_b2i_ge _ _ _ (add_b2i_ge _ _ _ (add_b2i_ge _ _ _
                    (add_b2i_ge _ _ _ (add_b2i_ge _ _ _ (add_b2i_ge _ _ _ (le_refl acc.lmb)))))))
                · refine le_trans (add_b2i_le _ _ _ (add_b2i_le _ _ _ (add_b2i_le _ _ _
                    (add_b2i_le _ _ _ (add_b2i_le _ _ _ (add_b2i_le _ _ _ hlb2)))))) ?_
                  linarith
              · rw [if_neg h7]
                by_cases h8 : v = -2
                · rw [if_pos h8]
                  unfold AccBound
                  dsimp only
                  have ht := bget_bound KNIGHT_TABLE_BLACK 50 (by norm_num) (by decide) mn.1 mn.2
                  have hkl : ((knight_move.length : Nat) : Int) = 8 := by decide
                  refine ⟨by linarith [ht.1], by linarith [ht.2], hlw1, by linarith, ?_, ?_,
                    hwki1, hwki2, hwkj1, hwkj2, hbki1, hbki2, hbkj1, hbkj2,
                    fun i => ⟨(hwf i).1, by linarith [(hwf i).2]⟩,
                    fun i => ⟨(hbf i).1, by linarith [(hbf i).2]⟩⟩
                  · exact add_nonneg hlb1
                      (foldl_add_bound _ 1 knight_move (fun x hx => b2i_bound _) 0).1
                  · refine le_trans (add_le_add hlb2
                      (foldl_add_bound _ 1 knight_move (fun x hx => b2i_bound _) 0).2) ?_
                    rw [hkl]
                    linarith
                · rw [if_neg h8]
                  by_cases h9 : v = -3
                  · rw [if_pos h9]
                    unfold AccBound
                    dsimp only
                    have ht := bget_bound BISHOP_TABLE_BLACK 50 (by norm_num) (by decide) mn.1 mn.2
                    have hkl : ((bishop_direction.length : Nat) : Int) = 4 := by decide
                    refine ⟨by linarith [ht.1], by linarith [ht.2], hlw1, by linarith, ?_, ?_,
                      hwki1, hwki2, hwkj1, hwkj2, hbki1, hbki2, hbkj1, hbkj2,
                      fun i => ⟨(hwf i).1, by linarith [(hwf i).2]⟩,
                      fun i => ⟨(hbf i).1, by linarith [(hbf i).2]⟩⟩
                    · exact add_nonneg hlb1
                        (foldl_add_bound _ 8 bishop_direction (fun x hx =>
                          ⟨(mob_ray_bound p.board (fun z => decide (z ≥ 0)) x.1 x.2 8 (mn.1 + x.1) (mn.2 + x.2)).1,
                           le_trans (mob_ray_bound p.board (fun z => decide (z ≥ 0)) x.1 x.2 8 (mn.1 + x.1) (mn.2 + x.2)).2
                             (by decide)⟩) 0).1
                    · refine le_trans (add_le_add hlb2
                        (foldl_add_bound _ 8 bishop_direction (fun x hx =>
                          ⟨(mob_ray_bound p.board (fun z => decide (z ≥ 0)) x.1 x.2 8 (mn.1 + x.1) (mn.2 + x.2)).1,
                           le_trans (mob_ray_bound p.board (fun z => decide (z ≥ 0)) x.1 x.2 8 (mn.1 + x.1) (mn.2 + x.2)).2
                             (by decide)⟩) 0).2) ?_
                      rw [hkl]
                      linarith
                  · rw [if_neg h9]
                    by_cases h10 : v = -4
                    · rw [if_pos h10]
                      unfold AccBound
                      dsimp only
                      have ht := bget_bound ROOK_TABLE_BLACK 50 (by norm_num) (by decide) mn.1 mn.2
                      have hkl : ((rook_direction.length : Nat) : Int) = 4 := by decide
                      refine ⟨by linarith [ht.1], by linarith [ht.2], hlw1, by linarith, ?_, ?_,
                        hwki1, hwki2, hwkj1, hwkj2, hbki1, hbki2, hbkj1, hbkj2,
                        fun i => ⟨(hwf i).1, by linarith [(hwf i).2]⟩,
                        fun i => ⟨(hbf i).1, by linarith [(hbf i).2]⟩⟩
                      · exact add_nonneg hlb1
                          (foldl_add_bound _ 8 rook_direction (fun x hx =>
                            ⟨(mob_ray_bound p.board (fun z => decide (z ≥ 0)) x.1 x.2 8 (mn.1 + x.1) (mn.2 + x.2)).1,
                             le_trans (mob_ray_bound p.board (fun z => decide (z ≥ 0)) x.1 x.2 8 (mn.1 + x.1) (mn.2 + x.2)).2
                               (by decide)⟩) 0).1
                      · refine le_trans (add_le_add hlb2
                          (foldl_add_bound _ 8 rook_direction (fun x hx =>
                            ⟨(mob_ray_bound p.board (fun z => decide (z ≥ 0)) x.1 x.2 8 (mn.1 + x.1) (mn.2 + x.2)).1,
                             le_trans (mob_ray_bound p.board (fun z => decide (z ≥ 0)) x.1 x.2 8 (mn.1 + x.1) (mn.2 + x.2)).2
                               (by decide)⟩) 0).2) ?_
                        rw [hkl]
                        linarith
                    · rw [if_neg h10]
                      by_cases h11 : v = -5
                      · rw [if_pos h11]
                        unfold AccBound
                        dsimp only
                        have ht := bget_bound QUEEN_TABLE_BLACK 50 (by norm_num) (by decide) mn.1 mn.2
                        exact ⟨by linarith [ht.1], by linarith [ht.2], hlw1, by linarith, hlb1, by linarith,
                          hwki1, hwki2, hwkj1, hwkj2, hbki1, hbki2, hbkj1, hbkj2,
                          fun i => ⟨(hwf i).1, by linarith [(hwf i).2]⟩,
                          fun i => ⟨(hbf i).1, by linarith [(hbf i).2]⟩⟩
                      · rw [if_neg h11]
                        by_cases h12 : v = -6
                        · rw [if_pos h12]
                          unfold AccBound
                          dsimp only
                          have hkl : ((every_direction.length : Nat) : Int) = 8 := by decide
                          refine ⟨by linarith, by linarith, hlw1, by linarith, ?_, ?_,
                            hwki1, hwki2, hwkj1, hwkj2, hm1, hm2, hn1, hn2,
                            fun i => ⟨(hwf i).1, by linarith [(hwf i).2]⟩,
                            fun i => ⟨(hbf i).1, by linarith [(hbf i).2]⟩⟩
                          · exact add_nonneg hlb1
                              (foldl_add_bound _ 1 every_direction (fun x hx => b2i_bound _) 0).1
                          · refine le_trans (add_le_add hlb2
                              (foldl_add_bound _ 1 every_direction (fun x hx => b2i_bound _) 0).2) ?_
                            rw [hkl]
                            linarith
                        · rw [if_neg h12]
                          unfold AccBound
                          exact ⟨by linarith, by linarith, hlw1, by linarith, hlb1, by linarith,
                            hwki1, hwki2, hwkj1, hwkj2, hbki1, hbki2, hbkj1, hbkj2,
                            fun i => ⟨(hwf i).1, by linarith [(hwf i).2]⟩,
                            fun i => ⟨(hbf i).1, by linarith [(hbf i).2]⟩⟩

theorem foldl_evalSquare_bound (p : board_state) :
    ∀ (l : List (Int × Int)), (∀ mn ∈ l, 0 ≤ mn.1 ∧ mn.1 ≤ 7 ∧ 0 ≤ mn.2 ∧ mn.2 ≤ 7) →
      ∀ (a : EvalAcc) (k : Int), AccBound a k →
        AccBound (l.foldl (evalSquare p) a) (k + l.length) := by
  intro l
  induction l with
  | nil =>
    intro _ a k h
    simpa using h
  | cons mn l ih =>
    intro hall a k h
    rw [List.foldl_cons]
    have hmn := hall mn (List.mem_cons_self mn l)
    have hstep := evalSquare_bound p a mn k hmn.1 hmn.2.1 hmn.2.2.1 hmn.2.2.2 h
    have hrec := ih (fun x hx => hall x (List.mem_cons_of_mem mn hx))
      (evalSquare p a mn) (k + 1) hstep
    have he : k + ((mn :: l).length : Int) = (k + 1) + l.length := by
      rw [List.length_cons]
      push_cast
      ring
    rw [he]
    exact hrec

theorem squareList_inrange :
    ∀ mn ∈ squareList, 0 ≤ mn.1 ∧ mn.1 ≤ 7 ∧ 0 ≤ mn.2 ∧ mn.2 ≤ 7 := by decide

theorem acc64_bound (p : board_state) :
    AccBound (squareList.foldl (evalSquare p) EvalAcc.init) 64 := by
  have hres := foldl_evalSquare_bound p squareList squareList_inrange
    EvalAcc.init 0 accInit_bound
  have he : (0 : Int) + (squareList.length : Int) = 64 := by decide
  rw [he] at hres
  exact hres

/-- Invariant of the evaluator's pawn-structure pass after k files. -/
def PawnB (lo hi : Int) (a : PawnAcc) (k : Int) : Prop :=
  lo - 1980 * k ≤ a.score ∧ a.score ≤ hi + 1980 * k ∧
  0 ≤ a.wIslands ∧ a.wIslands ≤ k ∧ 0 ≤ a.bIslands ∧ a.bIslands ≤ k

theorem pawnFileStep_bound (wf bf : List Int) (lo hi : Int)
    (hwf : ∀ i : Int, 0 ≤ iget wf i ∧ iget wf i ≤ 64)
    (hbf : ∀ i : Int, 0 ≤ iget bf i ∧ iget bf i ≤ 64)
    (a : PawnAcc) (k i : Int) (h : PawnB lo hi a k) :
    PawnB lo hi (pawnFileStep wf bf a i) (k + 1) := by
  obtain ⟨h1, h2, h3, h4, h5, h6⟩ := h
  have hw := hwf i
  have hb := hbf i
  unfold PawnB pawnFileStep
  dsimp only
  split_ifs <;>
    exact ⟨by linarith [hw.1, hw.2, hb.1, hb.2], by linarith [hw.1, hw.2, hb.1, hb.2],
      by linarith, by linarith, by linarith, by linarith⟩

theorem foldl_pawnFileStep_bound (wf bf : List Int) (lo hi : Int)
    (hwf : ∀ i : Int, 0 ≤ iget wf i ∧ iget wf i ≤ 64)
    (hbf : ∀ i : Int, 0 ≤ iget bf i ∧ iget bf i ≤ 64) :
    ∀ (l : List Int) (a : PawnAcc) (k : Int), PawnB lo hi a k →
      PawnB lo hi (l.foldl (pawnFileStep wf bf) a) (k + l.length) := by
  intro l
  induction l with
  | nil =>
    intro a k h
    simpa using h
  | cons j l ih =>
    intro a k h
    rw [List.foldl_cons]
    have hstep := pawnFileStep_bound wf bf lo hi hwf hbf a k j h
    have hrec := ih (pawnFileStep wf bf a j) (k + 1) hstep
    have he : k + ((j :: l).length : Int) = (k + 1) + l.length := by
      rw [List.length_cons]
      push_cast
      ring
    rw [he]
    exact hrec

theorem pawnfold_final_bound (wf bf : List Int) (sc3 : Int)
    (hwf : ∀ i : Int, 0 ≤ iget wf i ∧ iget wf i ≤ 64)
    (hbf : ∀ i : Int, 0 ≤ iget bf i ∧ iget bf i ≤ 64)
    (hs1 : -81380 ≤ sc3) (hs2 : sc3 ≤ 81380) :
    -100000 ≤ (coordList.foldl (pawnFileStep wf bf)
        { score := sc3, wIslands := 0, bIslands := 0, wFlag := false, bFlag := false }).score -
      10 * ((coordList.foldl (pawnFileStep wf bf)
        { score := sc3, wIslands := 0, bIslands := 0, wFlag := false, bFlag := false }).wIslands -
      (coordList.foldl (pawnFileStep wf bf)
        { score := sc3, wIslands := 0, bIslands := 0, wFlag := false, bFlag := false }).bIslands) ∧
    (coordList.foldl (pawnFileStep wf bf)
        { score := sc3, wIslands := 0, bIslands := 0, wFlag := false, bFlag := false }).score -
      10 * ((coordList.foldl (pawnFileStep wf bf)
        { score := sc3, wIslands := 0, bIslands := 0, wFlag := false, bFlag := false }).wIslands -
      (coordList.foldl (pawnFileStep wf bf)
        { score := sc3, wIslands := 0, bIslands := 0, wFlag := false, bFlag := false }).bIslands) ≤ 100000 := by
  have h0 : PawnB sc3 sc3
      { score := sc3, wIslands := 0, bIslands := 0, wFlag := false, bFlag := false } 0 := by
    unfold PawnB
    refine ⟨by linarith, by linarith, le_refl 0, le_refl 0, le_refl 0, le_refl 0⟩
  have hres := foldl_pawnFileStep_bound wf bf sc3 sc3 hwf hbf coordList
    { score := sc3, wIslands := 0, bIslands := 0, wFlag := false, bFlag := false } 0 h0
  have he : (0 : Int) + (coordList.length : Int) = 8 := by decide
  rw [he] at hres
  obtain ⟨p1, p2, p3, p4, p5, p6⟩ := hres
  constructor <;> linarith

theorem evaluateMain_bound (p : board_state) :
    -100000 ≤ evaluateMain p ∧ evaluateMain p ≤ 100000 := by
  obtain ⟨hs1, hs2, hlw1, hlw2, hlb1, hlb2, hwki1, hwki2, hwkj1, hwkj2,
    hbki1, hbki2, hbkj1, hbkj2, hwf, hbf⟩ := acc64_bound p
  have hKMW := bget_bound KING_MIDDLE_TABLE_WHITE 50 (by norm_num) (by decide)
    (squareList.foldl (evalSquare p) EvalAcc.init).wk_i
    (squareList.foldl (evalSquare p) EvalAcc.init).wk_j
  have hKEW := bget_bound KING_END_TABLE_WHITE 50 (by norm_num) (by decide)
    (squareList.foldl (evalSquare p) EvalAcc.init).wk_i
    (squareList.foldl (evalSquare p) EvalAcc.init).wk_j
  have hKMB := bget_bound KING_MIDDLE_TABLE_BLACK 50 (by norm_num) (by decide)
    (squareList.foldl (evalSquare p) EvalAcc.init).bk_i
    (squareList.foldl (evalSquare p) EvalAcc.init).bk_j
  have hKEB := bget_bound KING_END_TABLE_BLACK 50 (by norm_num) (by decide)
    (squareList.foldl (evalSquare p) EvalAcc.init).bk_i
    (squareList.foldl (evalSquare p) EvalAcc.init).bk_j
  unfold evaluateMain
  dsimp only
  split_ifs with hend
  · exact pawnfold_final_bound _ _ _ hwf hbf
      (by linarith [hKEW.1, hKEW.2, hKEB.1, hKEB.2])
      (by linarith [hKEW.1, hKEW.2, hKEB.1, hKEB.2])
  · exact pawnfold_final_bound _ _ _ hwf hbf
      (by linarith [hKMW.1, hKMW.2, hKMB.1, hKMB.2])
      (by linarith [hKMW.1, hKMW.2, hKMB.1, hKMB.2])

theorem evaluate_bound (p : board_state) (d : Int) (hd : 0 ≤ d) :
    -(100000 + d) ≤ evaluate p d ∧ evaluate p d ≤ 100000 + d := by
  have hm := evaluateMain_bound p
  unfold evaluate
  split_ifs with h1 h2 h3
  · constructor <;> linarith
  · constructor <;> linarith
  · constructor <;> linarith
  · constructor <;> linarith [hm.1, hm.2]

/-! ## Global range of both searches -/

theorem minimax_bound (d : Nat) :
    ∀ (p : board_state) (mx : Bool), (d : Int) ≤ 1000000000 →
      INT_MIN ≤ minimax p d mx ∧ minimax p d mx ≤ INT_MAX := by
  induction d with
  | zero =>
    intro p mx _
    have he := evaluate_bound p 0 (le_refl 0)
    have h1 : minimax p 0 mx = evaluate p 0 := rfl
    rw [h1]
    unfold INT_MIN INT_MAX
    constructor
    · linarith [he.1]
    · linarith [he.2]
  | succ d ih =>
    intro p mx hd
    have hd2 : (d : Int) ≤ 1000000000 := by
      push_cast at hd ⊢
      linarith
    have hdpos : (0 : Int) ≤ ((d + 1 : Nat) : Int) := by positivity
    have he := evaluate_bound p ((d + 1 : Nat) : Int) hdpos
    by_cases hover : game_is_over p = true
    · have h1 : minimax p (d + 1) mx = evaluate p ((d + 1 : Nat) : Int) := by
        simp [minimax, hover]
      rw [h1]
      unfold INT_MIN INT_MAX
      constructor
      · linarith [he.1, hd, hdpos]
      · linarith [he.2, hd, hdpos]
    · cases mx with
      | true =>
        have h1 : minimax p (d + 1) true =
            (flatRows (whiteAdvRows (reset_en_passant p WHITE))).foldl
              (fun s q => max s (minimax q d false)) INT_MIN := by
          simp [minimax, hover]
        rw [h1]
        constructor
        · exact maxfold_ge_init (fun q => minimax q d false)
            (flatRows (whiteAdvRows (reset_en_passant p WHITE))) INT_MIN
        · refine maxfold_le (fun q => minimax q d false) INT_MAX
            (flatRows (whiteAdvRows (reset_en_passant p WHITE))) INT_MIN ?_ ?_
          · unfold INT_MIN INT_MAX
            norm_num
          · intro q _
            exact (ih q false hd2).2
      | false =>
        have h1 : minimax p (d + 1) false =
            (flatRows (blackAdvRows (reset_en_passant p BLACK))).foldl
              (fun s q => min s (minimax q d true)) INT_MAX := by
          simp [minimax, hover]
        rw [h1]
        constructor
        · refine minfold_ge (fun q => minimax q d true) INT_MIN
            (flatRows (blackAdvRows (reset_en_passant p BLACK))) INT_MAX ?_ ?_
          · unfold INT_MIN INT_MAX
            norm_num
          · intro q _
            exact (ih q true hd2).1
        · exact minfold_le_init (fun q => minimax q d true)
            (flatRows (blackAdvRows (reset_en_passant p BLACK))) INT_MAX

theorem adv_minimax_bound (d : Nat) :
    ∀ (p : board_state) (mx : Bool) (a b : Int), (d : Int) ≤ 1000000000 →
      INT_MIN ≤ adv_minimax p d mx a b ∧ adv_minimax p d mx a b ≤ INT_MAX := by
  induction d with
  | zero =>
    intro p mx a b _
    have he := evaluate_bound p 0 (le_refl 0)
    have h1 : adv_minimax p 0 mx a b = evaluate p 0 := rfl
    rw [h1]
    unfold INT_MIN INT_MAX
    constructor
    · linarith [he.1]
    · linarith [he.2]
  | succ d ih =>
    intro p mx a b hd
    have hd2 : (d : Int) ≤ 1000000000 := by
      push_cast at hd ⊢
      linarith
    have hdpos : (0 : Int) ≤ ((d + 1 : Nat) : Int) := by positivity
    have he := evaluate_bound p ((d + 1 : Nat) : Int) hdpos
    by_cases hover : game_is_over p = true
    · have h1 : adv_minimax p (d + 1) mx a b = evaluate p ((d + 1 : Nat) : Int) := by
        simp [adv_minimax, hover]
      rw [h1]
      unfold INT_MIN INT_MAX
      constructor
      · linarith [he.1, hd, hdpos]
      · linarith [he.2, hd, hdpos]
    · cases mx with
      | true =>
        have h1 : adv_minimax p (d + 1) true a b =
            procRowsMax (fun q a2 => adv_minimax q d false a2 b) a b
              (whiteAdvRows (reset_en_passant p WHITE)) := by
          simp [adv_minimax, hover]
        rw [h1]
        constructor
        · exact procRowsMax_ge (fun q a2 => adv_minimax q d false a2 b) a b
            (whiteAdvRows (reset_en_passant p WHITE))
        · refine procRowsMax_le_abs (fun q a2 => adv_minimax q d false a2 b) a b
            INT_MAX (fun q a2 => (ih q false a2 b hd2).2) ?_
            (whiteAdvRows (reset_en_passant p WHITE))
          unfold INT_MIN INT_MAX
          norm_num
      | false =>
        have h1 : adv_minimax p (d + 1) false a b =
            procRowsMin (fun q b2 => adv_minimax q d true a b2) a b
              (blackAdvRows (reset_en_passant p BLACK)) := by
          simp [adv_minimax, hover]
        rw [h1]
        constructor
        · refine procRowsMin_ge_abs (fun q b2 => adv_minimax q d true a b2) a b
            INT_MIN (fun q b2 => (ih q true a b2 hd2).1) ?_
            (blackAdvRows (reset_en_passant p BLACK))
          unfold INT_MIN INT_MAX
          norm_num
        · exact procRowsMin_le (fun q b2 => adv_minimax q d true a b2) a b
            (blackAdvRows (reset_en_passant p BLACK))

/-- C3: for every position, side to move and search depth (any depth a
32-bit caller can pass), Engine::adv_minimax run with the full window
(INT_MIN, INT_MAX) — the window each root candidate receives — returns
exactly the value of the unpruned full minimax over the same game tree:
alpha-beta pruning with the engine's partial-break semantics never
changes the computed best score. -/
theorem C3_alpha_beta_equals_minimax (p : board_state) (depth : Nat) (mx : Bool)
    (hd : (depth : Int) ≤ 1000000000) :
    adv_minimax p depth mx INT_MIN INT_MAX = minimax p depth mx := by
  have hmm := minimax_bound depth p mx hd
  have hab := adv_minimax_bound depth p mx INT_MIN INT_MAX hd
  have hlt : INT_MIN < INT_MAX := by
    unfold INT_MIN INT_MAX
    norm_num
  obtain ⟨k1, k2, k3⟩ := adv_minimax_km depth p mx INT_MIN INT_MAX
    (le_refl INT_MIN) (le_refl INT_MAX) hlt
  rcases lt_or_le INT_MIN (minimax p depth mx) with h1 | h1
  · rcases lt_or_le (minimax p depth mx) INT_MAX with h2 | h2
    · exact k3 h1 h2
    · have hv : minimax p depth mx = INT_MAX := le_antisymm hmm.2 h2
      have hr : adv_minimax p depth mx INT_MIN INT_MAX = INT_MAX :=
        le_antisymm hab.2 (k2 h2)
      rw [hv, hr]
  · have hv : minimax p depth mx = INT_MIN := le_antisymm h1 hmm.1
    have hr : adv_minimax p depth mx INT_MIN INT_MAX = INT_MIN :=
      le_antisymm (k1 h1) hab.1
    rw [hv, hr]

theorem C3_alpha_beta_equals_minimax_witness :
    ((1 : Nat) : Int) ≤ 1000000000 ∧
    adv_minimax startPos 1 true INT_MIN INT_MAX = minimax startPos 1 true :=
  ⟨by decide, C3_alpha_beta_equals_minimax startPos 1 true (by decide)⟩
